import Mathlib

/-!
# Tor relay cell scheduler (ns-3 `tor` module): model and verified properties

Shallow embedding of `src/tor/model/tor.cc` / `tor.h`.

Modelling conventions
* `Ptr<Connection>` and `Ptr<Circuit>` are object identities: natural numbers indexing the two
  object heaps `TorApp.conns` and `TorApp.circs`.  A nullable pointer is an `Option`.
  The two connection pointers of a circuit are set once by the constructor from the results of
  `AddConnection` and are never null, so they are plain identities.
* `Ptr<Packet>` is `Option Packet`; a packet is its byte sequence.
* `int` windows are `Int` (they stay far away from the 32-bit limits: reaching them takes
  more than 2^31 calls); `uint32_t` counters wrap modulo 2^32.
* `NS_ASSERT` failures and fatal errors are `none`.
* An `EventId` is `none` when expired (or never scheduled) and `some delay` while pending.
* Sockets belong to the host: what a socket answers during a call (`GetRxAvailable`, `Recv`,
  `GetTxAvailable`, `Send`) is a parameter of the call.
* The token buckets of `tor-base.h` are integer byte balances (far away from the 64-bit
  limits).
-/

namespace Tor

/-! ## Constants of `tor.h` -/

def CIRCWINDOW_START : Int := 1000
def CIRCWINDOW_INCREMENT : Int := 100
def OR_CONN : Nat := 0
def EDGE_CONN : Nat := 1
def CELL_PAYLOAD_SIZE : Nat := 498
def CELL_NETWORK_SIZE : Nat := 512

/-- Modelled from the spec: the enumeration `CellDirection` is declared in `tor-base.h`,
which is not part of the sources; it has the two values used throughout `tor.cc`. -/
inductive CellDirection where
  | INBOUND
  | OUTBOUND
deriving DecidableEq, Repr

open CellDirection

/-! ## Packets and the cell header -/

/-- An ns-3 packet, as the sequence of its bytes. -/
abbrev Packet := List Nat

/-- Modelled from the spec: `cell-header.h` is not part of the sources.  The header fields are
those of the spec, section 3 and 6: circuit id (16 bit), command (8 bit), type tag (8 bit),
stream id (16 bit), integrity/digest (32 bit), length (16 bit). -/
structure CellHeader where
  circId : Nat := 0
  cmd : Nat := 0
  cellType : Nat := 0
  streamId : Nat := 0
  digest : Nat := 0
  length : Nat := 0
deriving DecidableEq, Repr

/-- Modelled from the spec: size of the fixed header of `cell-header.h` (14 bytes). -/
def CELL_HEADER_SIZE : Nat := 14

/-- Modelled from the spec: command `RELAY_DATA` of `cell-header.h`.  The spec names the
command without its number; the number of the Tor protocol is used, and nothing below depends
on it except that it is a single byte different from `RELAY_SENDME`. -/
def RELAY_DATA : Nat := 2

/-- Modelled from the spec: command `RELAY_SENDME` of `cell-header.h` (see `RELAY_DATA`). -/
def RELAY_SENDME : Nat := 5

/-- Modelled from the spec: type tag `RELAY` of `cell-header.h` (see `RELAY_DATA`). -/
def RELAY : Nat := 3

/-- Modelled from the spec: `encode(header, buffer)` of `cell-header.h`, the fixed 14-byte
big-endian layout `circ_id:u16 | cmd:u8 | type:u8 | stream_id:u16 | digest:u32 | length:u16 |
pad:u16`. -/
def CellHeader.Serialize (h : CellHeader) : List Nat :=
  [h.circId / 256 % 256, h.circId % 256,
   h.cmd % 256,
   h.cellType % 256,
   h.streamId / 256 % 256, h.streamId % 256,
   h.digest / 16777216 % 256, h.digest / 65536 % 256, h.digest / 256 % 256, h.digest % 256,
   h.length / 256 % 256, h.length % 256,
   0, 0]

/-- Modelled from the spec: decoding of the 14-byte header of `cell-header.h` from the front of
a buffer.  Bytes missing from a short buffer read as 0. -/
def CellHeader.Deserialize (b : List Nat) : CellHeader :=
  { circId := b.getD 0 0 * 256 + b.getD 1 0
    cmd := b.getD 2 0
    cellType := b.getD 3 0
    streamId := b.getD 4 0 * 256 + b.getD 5 0
    digest := b.getD 6 0 * 16777216 + b.getD 7 0 * 65536 + b.getD 8 0 * 256 + b.getD 9 0
    length := b.getD 10 0 * 256 + b.getD 11 0 }

/-- Embedding of `Packet::AddHeader`: the serialised header is put in front of the packet's bytes. -/
def AddHeader (h : CellHeader) (p : Packet) : Packet :=
  h.Serialize ++ p

/-- Modelled from the spec: `peek(buffer) -> header` (non-consuming) of `cell-header.h`. -/
def PeekHeader (p : Packet) : CellHeader :=
  CellHeader.Deserialize p

/-- Modelled from the spec: `remove(buffer) -> header` (consuming) of `cell-header.h`; it fails
with `MalformedCell` (here `none`) if the buffer is shorter than 14 bytes. -/
def RemoveHeader (p : Packet) : Option (CellHeader × Packet) :=
  if p.length < CELL_HEADER_SIZE then none
  else some (CellHeader.Deserialize p, p.drop CELL_HEADER_SIZE)

/-! ## Objects -/

/-- Data members of `class Circuit` (`tor.h`). -/
structure Circuit where
  circ_id : Int
  p_cellQ : List Packet
  n_cellQ : List Packet
  next_active_on_n_conn : Option Nat
  next_active_on_p_conn : Option Nat
  p_conn : Nat
  n_conn : Nat
  package_window : Int
  deliver_window : Int
  stats_p_bytes_read : Nat
  stats_p_bytes_written : Nat
  stats_n_bytes_read : Nat
  stats_n_bytes_written : Nat

/-- Data members of `class Connection` (`tor.h`) that the scheduler uses.  `inbuf`/`outbuf` are
the bytes held by the two `buf_t` (their `size` is the list length).  The array `buf_t.data`
has room for `CELL_NETWORK_SIZE` bytes: `Connection::Write` has a result only when the bytes it
copies into `outbuf.data` fit the array. -/
structure Connection where
  remote : Nat
  socket : Option Nat
  inbuf : List Nat
  outbuf : List Nat
  conn_type : Nat
  reading_blocked : Bool
  active_circuits : Option Nat
  read_event : Option Nat
  write_event : Option Nat

/-- Modelled from the spec: the token bucket of `tor-base.h`, which is not part of the sources.
The spec describes it as "an integer byte balance", drained by reads and writes and refilled
by the host. -/
structure TokenBucket where
  size : Int

/-- Modelled from the spec: `TokenBucket::GetSize`, the balance (an `int64_t` for `RoundRobin`). -/
def TokenBucket.GetSize (b : TokenBucket) : Int :=
  b.size

/-- Modelled from the spec: `TokenBucket::Decrement (amount)` drains `amount` bytes from the
balance, which may become negative. -/
def TokenBucket.Decrement (b : TokenBucket) (amount : Nat) : TokenBucket :=
  { b with size := b.size - amount }

/-- The relay (`class TorApp`): the heap of connections and the heap of circuits, by identity,
the vector `connections`, the map `circuits` (a missing key reads as null) and the two token
buckets `m_readbucket` / `m_writebucket` inherited from `TorBaseApp`. -/
structure TorApp where
  conns : Nat → Connection
  circs : Nat → Circuit
  connections : List Nat := []
  circuits : Nat → Option Nat := fun _ => none
  m_readbucket : TokenBucket := { size := 0 }
  m_writebucket : TokenBucket := { size := 0 }

/-- Store `v` at identity `i` of a heap. -/
def setAt {α : Type} (f : Nat → α) (i : Nat) (v : α) : Nat → α :=
  fun j => if j = i then v else f j

/-- Embedding of `Circuit::Circuit (circ_id, n_conn, p_conn)`. -/
def Circuit.new (circ_id : Int) (n_conn p_conn : Nat) : Circuit :=
  { circ_id := circ_id
    p_cellQ := []
    n_cellQ := []
    deliver_window := CIRCWINDOW_START
    package_window := CIRCWINDOW_START
    stats_p_bytes_read := 0
    stats_p_bytes_written := 0
    stats_n_bytes_read := 0
    stats_n_bytes_written := 0
    p_conn := p_conn
    n_conn := n_conn
    next_active_on_n_conn := none
    next_active_on_p_conn := none }

/-- Embedding of `Connection::Connection (torapp, ip, conn_type)`. -/
def Connection.new (ip : Nat) (conn_type : Nat) : Connection :=
  { remote := ip
    socket := none
    inbuf := []
    outbuf := []
    conn_type := conn_type
    reading_blocked := false
    active_circuits := none
    read_event := none
    write_event := none }

/-! ## `Circuit` accessors -/

/-- Embedding of `Circuit::PopQueue`. -/
def PopQueue (queue : List Packet) : Option Packet × List Packet :=
  match queue with
  | cell :: rest => (some cell, rest)
  | [] => (none, [])

/-- Embedding of `Circuit::GetId` (the `int` id converted to `uint32_t`). -/
def Circuit.GetId (c : Circuit) : Nat :=
  (c.circ_id % 4294967296).toNat

/-- Embedding of `Circuit::GetConnection (CellDirection)`. -/
def Circuit.GetConnection (c : Circuit) (direction : CellDirection) : Nat :=
  if direction = OUTBOUND then c.n_conn else c.p_conn

/-- Embedding of `Circuit::GetOppositeConnection (CellDirection)`. -/
def Circuit.GetOppositeConnection (c : Circuit) (direction : CellDirection) : Nat :=
  if direction = OUTBOUND then c.p_conn else c.n_conn

/-- Embedding of `Circuit::GetDirection (Ptr<Connection>)`. -/
def Circuit.GetDirection (c : Circuit) (conn : Nat) : CellDirection :=
  if c.n_conn = conn then OUTBOUND else INBOUND

/-- Embedding of `Circuit::GetOppositeDirection (Ptr<Connection>)`. -/
def Circuit.GetOppositeDirectionOf (c : Circuit) (conn : Nat) : CellDirection :=
  if c.n_conn = conn then INBOUND else OUTBOUND

/-- Embedding of `Circuit::GetOppositeDirection (CellDirection)`. -/
def GetOppositeDirection (direction : CellDirection) : CellDirection :=
  if direction = OUTBOUND then INBOUND else OUTBOUND

/-- Embedding of `Circuit::GetNextCirc`. -/
def Circuit.GetNextCirc (c : Circuit) (conn : Nat) : Option Nat :=
  if c.n_conn = conn then c.next_active_on_n_conn else c.next_active_on_p_conn

/-- Embedding of `Circuit::SetNextCirc`. -/
def Circuit.SetNextCirc (c : Circuit) (conn : Nat) (circ : Option Nat) : Circuit :=
  if c.n_conn = conn then { c with next_active_on_n_conn := circ }
  else { c with next_active_on_p_conn := circ }

/-- Embedding of `Circuit::IsSendme`. -/
def IsSendme (cell : Option Packet) : Bool :=
  match cell with
  | none => false
  | some pkt => if (PeekHeader pkt).cmd = RELAY_SENDME then true else false

/-- Embedding of `Circuit::CreateSendme`: a zero-filled payload of `CELL_PAYLOAD_SIZE` bytes
behind a `RELAY_SENDME` header. -/
def Circuit.CreateSendme (c : Circuit) : Packet :=
  let h : CellHeader :=
    { circId := c.GetId, cellType := RELAY, streamId := 42, cmd := RELAY_SENDME, length := 0 }
  AddHeader h (List.replicate CELL_PAYLOAD_SIZE 0)

/-- Embedding of `Circuit::GetQueue`. -/
def Circuit.GetQueue (c : Circuit) (direction : CellDirection) : List Packet :=
  if direction = OUTBOUND then c.n_cellQ else c.p_cellQ

/-- Assignment through the pointer returned by `Circuit::GetQueue`. -/
def Circuit.SetQueue (c : Circuit) (direction : CellDirection) (q : List Packet) : Circuit :=
  if direction = OUTBOUND then { c with n_cellQ := q } else { c with p_cellQ := q }

/-- Embedding of `Circuit::GetQueueSize`. -/
def Circuit.GetQueueSize (c : Circuit) (direction : CellDirection) : Nat :=
  if direction = OUTBOUND then c.n_cellQ.length else c.p_cellQ.length

/-- Embedding of `Circuit::GetStatsBytesRead`. -/
def Circuit.GetStatsBytesRead (c : Circuit) (direction : CellDirection) : Nat :=
  if direction = OUTBOUND then c.stats_n_bytes_read else c.stats_p_bytes_read

/-- Embedding of `Circuit::GetStatsBytesWritten`. -/
def Circuit.GetStatsBytesWritten (c : Circuit) (direction : CellDirection) : Nat :=
  if direction = OUTBOUND then c.stats_n_bytes_written else c.stats_p_bytes_written

/-- Embedding of `Circuit::IncStatsBytes` (`uint32_t` counters). -/
def Circuit.IncStatsBytes (c : Circuit) (direction : CellDirection) (read write : Nat) :
    Circuit :=
  if direction = OUTBOUND then
    { c with
      stats_n_bytes_read := (c.stats_n_bytes_read + read) % 4294967296
      stats_n_bytes_written := (c.stats_n_bytes_written + write) % 4294967296 }
  else
    { c with
      stats_p_bytes_read := (c.stats_p_bytes_read + read) % 4294967296
      stats_p_bytes_written := (c.stats_p_bytes_written + write) % 4294967296 }

/-- Embedding of `Circuit::IncPackageWindow`. -/
def Circuit.IncPackageWindow (c : Circuit) : Circuit :=
  let c := { c with package_window := c.package_window + CIRCWINDOW_INCREMENT }
  if c.package_window > CIRCWINDOW_START then { c with package_window := CIRCWINDOW_START }
  else c

/-- Embedding of `Circuit::GetPackageWindow` (the `int` window converted to `uint32_t`). -/
def Circuit.GetPackageWindow (c : Circuit) : Nat :=
  (c.package_window % 4294967296).toNat

/-- Embedding of `Circuit::IncDeliverWindow`. -/
def Circuit.IncDeliverWindow (c : Circuit) : Circuit :=
  let c := { c with deliver_window := c.deliver_window + CIRCWINDOW_INCREMENT }
  if c.deliver_window > CIRCWINDOW_START then { c with deliver_window := CIRCWINDOW_START }
  else c

/-! ## `Connection` operations -/

/-- Embedding of `Connection::SetBlocked`. -/
def Connection.SetBlocked (k : Connection) (b : Bool) : Connection :=
  { k with reading_blocked := b }

/-- Embedding of `Connection::ScheduleWrite (delay)`: arms the write event if there is a socket
and the previous event has expired. -/
def Connection.ScheduleWrite (k : Connection) (delay : Nat) : Connection :=
  if k.socket.isSome && k.write_event.isNone then { k with write_event := some delay } else k

/-- Embedding of `Connection::ScheduleRead (delay)`: arms the read event if there is a socket
and the previous event has expired. -/
def Connection.ScheduleRead (k : Connection) (delay : Nat) : Connection :=
  if k.socket.isSome && k.read_event.isNone then { k with read_event := some delay } else k

/-- Update of the circuit object `c` in place. -/
def TorApp.modCirc (st : TorApp) (c : Nat) (f : Circuit → Circuit) : TorApp :=
  { st with circs := setAt st.circs c (f (st.circs c)) }

/-- Update of the connection object `k` in place. -/
def TorApp.modConn (st : TorApp) (k : Nat) (f : Connection → Connection) : TorApp :=
  { st with conns := setAt st.conns k (f (st.conns k)) }

/-! ## `Circuit::PopCell` and `Circuit::PushCell` -/

/-- Embedding of `Circuit::PopCell (direction)` on circuit `c`. -/
def PopCell (st : TorApp) (c : Nat) (direction : CellDirection) : Option Packet × TorApp :=
  let popped := PopQueue ((st.circs c).GetQueue direction)
  let st := st.modCirc c (fun x => x.SetQueue direction popped.2)
  match popped.1 with
  | none => (none, st)
  | some cell =>
    let st :=
      if !IsSendme (some cell) then
        st.modCirc c (fun x => x.IncStatsBytes direction 0 CELL_PAYLOAD_SIZE)
      else st
    let st :=
      if (st.conns ((st.circs c).GetConnection direction)).conn_type = EDGE_CONN then
        let st := st.modCirc c (fun x => { x with deliver_window := x.deliver_window - 1 })
        if (st.circs c).deliver_window ≤ CIRCWINDOW_START - CIRCWINDOW_INCREMENT then
          let st := st.modCirc c Circuit.IncDeliverWindow
          let sendme_cell := (st.circs c).CreateSendme
          let opp := GetOppositeDirection direction
          let st := st.modCirc c (fun x => x.SetQueue opp (x.GetQueue opp ++ [sendme_cell]))
          st.modConn ((st.circs c).GetOppositeConnection direction)
            (fun k => k.ScheduleWrite 0)
        else st
      else st
    (some cell, st)

/-- Embedding of `Circuit::PushCell (cell, direction)` on circuit `c`.  The result is `none`
when removing the header fails. -/
def PushCell (st : TorApp) (c : Nat) (cell : Option Packet) (direction : CellDirection) :
    Option TorApp :=
  match cell with
  | none => some st
  | some pkt =>
    let conn := (st.circs c).GetConnection direction
    let opp_conn := (st.circs c).GetOppositeConnection direction
    let st :=
      if (st.conns opp_conn).conn_type = EDGE_CONN then
        let st := st.modCirc c (fun x => { x with package_window := x.package_window - 1 })
        if (st.circs c).package_window ≤ 0 then
          st.modConn opp_conn (fun k => k.SetBlocked true)
        else st
      else st
    if (st.conns conn).conn_type = EDGE_CONN then
      if IsSendme (some pkt) then
        let st := st.modCirc c Circuit.IncPackageWindow
        let st :=
          if (st.conns conn).reading_blocked then
            (st.modConn conn (fun k => k.SetBlocked false)).modConn conn
              (fun k => k.ScheduleRead 0)
          else st
        some st
      else
        match RemoveHeader pkt with
        | none => none
        | some hp =>
          let st := st.modCirc c (fun x => x.IncStatsBytes direction CELL_PAYLOAD_SIZE 0)
          some (st.modCirc c (fun x => x.SetQueue direction (x.GetQueue direction ++ [hp.2])))
    else
      let st := st.modCirc c (fun x => x.IncStatsBytes direction CELL_PAYLOAD_SIZE 0)
      some (st.modCirc c (fun x => x.SetQueue direction (x.GetQueue direction ++ [pkt])))

/-- Embedding of `Circuit::SendCell (direction)` on circuit `c`.  `GetTxAvailable` and `Send`
are the answers of the socket of the target connection (`Send` maps the cell to the `int` it
returns: the number of bytes accepted, negative on error); the `int` is returned as a
`uint32_t`.  Without a socket the call dereferences a null pointer. -/
def SendCell (GetTxAvailable : Nat) (Send : List Nat → Int) (st : TorApp) (c : Nat)
    (direction : CellDirection) : Option (Nat × TorApp) :=
  let cellQ := (st.circs c).GetQueue direction
  if cellQ.length ≤ 0 then some (0, st)
  else
    let conn := (st.circs c).GetConnection direction
    if (st.conns conn).reading_blocked then some (0, st)
    else
      match (st.conns conn).socket with
      | none => none
      | some _ =>
        if GetTxAvailable < CELL_NETWORK_SIZE then some (0, st)
        else
          let r := PopCell st c direction
          match r.1 with
          | none => none
          | some cell => some ((Send cell % 4294967296).toNat, r.2)

/-! ## Sequences of calls on circuits -/

/-- A call of one of the two public queue operations of a circuit. -/
inductive CircOp where
  | push (c : Nat) (cell : Option Packet) (direction : CellDirection)
  | pop (c : Nat) (direction : CellDirection)

/-- Run one call; `none` if it aborts. -/
def runOp (st : TorApp) : CircOp → Option TorApp
  | .push c cell direction => PushCell st c cell direction
  | .pop c direction => some (PopCell st c direction).2

/-- Run a sequence of calls, left to right; `none` if one of them aborts. -/
def runOps : List CircOp → TorApp → Option TorApp
  | [], st => some st
  | op :: ops, st =>
    match runOp st op with
    | none => none
    | some st' => runOps ops st'

/-- The call `op` respects the package window of circuit `c`: it is not a `PushCell` of a cell
packaged from an edge connection of `c` (the opposite connection is an edge connection) issued
while `package_window` is already exhausted.  This is the discipline of the read path, which
stops reading from a blocked edge connection. -/
def respectsWindow (st : TorApp) (c : Nat) : CircOp → Bool
  | .push c' (some _) direction =>
    !(c' = c
      && (st.conns ((st.circs c).GetOppositeConnection direction)).conn_type = EDGE_CONN
      && (st.circs c).package_window ≤ 0)
  | _ => true

/-- Every call of the sequence respects the package window of circuit `c` in the state in
which it is issued. -/
def respectsWindowAll (c : Nat) : List CircOp → TorApp → Bool
  | [], _ => true
  | op :: ops, st =>
    respectsWindow st c op &&
      (match runOp st op with
       | none => true
       | some st' => respectsWindowAll c ops st')

/-! ## `TorApp::AddActiveCircuit` -/

/-- Embedding of `Connection::SetActiveCircuits`. -/
def Connection.SetActiveCircuits (k : Connection) (circ : Option Nat) : Connection :=
  { k with active_circuits := circ }

/-- Embedding of `TorApp::AddActiveCircuit (conn, circ)`; the two `NS_ASSERT`s fail on null
pointers. -/
def AddActiveCircuit (st : TorApp) (conn circ : Option Nat) : Option TorApp :=
  match conn, circ with
  | some conn, some circ =>
    match (st.conns conn).active_circuits with
    | none =>
      let st := st.modConn conn (fun k => k.SetActiveCircuits (some circ))
      some (st.modCirc circ (fun x => x.SetNextCirc conn (some circ)))
    | some head =>
      let temp := (st.circs head).GetNextCirc conn
      let st := st.modCirc circ (fun x => x.SetNextCirc conn temp)
      some (st.modCirc head (fun x => x.SetNextCirc conn (some circ)))
  | _, _ => none

/-! ## Configuration of the relay: `AddConnection`, `AddCircuit`, `GetCircuit` -/

/-- Embedding of `TorApp::TorApp ()`: a relay without connections and circuits.  The heaps hold
no live object yet. -/
def TorApp.new : TorApp :=
  { conns := fun _ => Connection.new 0 0
    circs := fun _ => Circuit.new 0 0 0 }

/-- The identity of the object that `Create<Connection>` returns: an identity that no live
connection has (every live connection is in the vector `connections`). -/
def freshConn (st : TorApp) : Nat :=
  st.connections.foldl max 0 + 1

/-- Embedding of `TorApp::AddConnection (ip, conn_type)`: the first connection of the vector
with that remote address, or else a new connection pushed at its back.  The `NS_ASSERT` fails
on a connection type other than `OR_CONN` and `EDGE_CONN`.  The result is the connection
returned and the new state. -/
def AddConnection (st : TorApp) (ip : Nat) (conn_type : Int) : Option (Nat × TorApp) :=
  if conn_type = OR_CONN ∨ conn_type = EDGE_CONN then
    match st.connections.find? (fun k => decide ((st.conns k).remote = ip)) with
    | some conn => some (conn, st)
    | none =>
      let conn := freshConn st
      some (conn,
        { st with
          conns := setAt st.conns conn (Connection.new ip conn_type.toNat)
          connections := st.connections ++ [conn] })
  else none

/-- Embedding of `TorApp::AddCircuit (circ_id, n_ip, n_conn_type, p_ip, p_conn_type)`.  `circ`
is the identity of the object that `Create<Circuit>` returns.  The key of the map `circuits`
is a `uint16_t`, so the `int` id is reduced modulo 2^16 there; the three `NS_ASSERT`s fail on
a key in use and on an invalid connection type.  The overload with the two random streams
differs only in storing them in the previous connection. -/
def AddCircuit (circ : Nat) (st : TorApp) (circ_id : Int) (n_ip : Nat) (n_conn_type : Int)
    (p_ip : Nat) (p_conn_type : Int) : Option TorApp :=
  if st.circuits (circ_id % 65536).toNat ≠ none then none
  else if ¬ (n_conn_type = OR_CONN ∨ n_conn_type = EDGE_CONN) then none
  else if ¬ (p_conn_type = OR_CONN ∨ p_conn_type = EDGE_CONN) then none
  else
    match AddConnection st p_ip p_conn_type with
    | none => none
    | some (p_conn, st) =>
      match AddConnection st n_ip n_conn_type with
      | none => none
      | some (n_conn, st) =>
        let st := { st with circs := setAt st.circs circ (Circuit.new circ_id n_conn p_conn) }
        match AddActiveCircuit st (some p_conn) (some circ) with
        | none => none
        | some st =>
          match AddActiveCircuit st (some n_conn) (some circ) with
          | none => none
          | some st =>
            some { st with circuits := setAt st.circuits (circ_id % 65536).toNat (some circ) }

/-- Embedding of `TorApp::GetCircuit (circid)`: the entry of the map `circuits` under the
`uint32_t` id, reduced to the `uint16_t` key. -/
def GetCircuit (st : TorApp) (circid : Nat) : Option Nat :=
  st.circuits (circid % 65536)

/-- A call that configures the relay. -/
inductive ConfigOp where
  | addConnection (ip : Nat) (conn_type : Int)
  | addCircuit (circ : Nat) (circ_id : Int) (n_ip : Nat) (n_conn_type : Int) (p_ip : Nat)
      (p_conn_type : Int)

/-- Run a sequence of configuration calls, left to right; `none` if one of them aborts. -/
def runConfig : List ConfigOp → TorApp → Option TorApp
  | [], st => some st
  | .addConnection ip conn_type :: ops, st =>
    match AddConnection st ip conn_type with
    | none => none
    | some (_, st') => runConfig ops st'
  | .addCircuit circ circ_id n_ip n_conn_type p_ip p_conn_type :: ops, st =>
    match AddCircuit circ st circ_id n_ip n_conn_type p_ip p_conn_type with
    | none => none
    | some st' => runConfig ops st'

/-! ## `Connection::Write` -/

/-- The fill loop of `Connection::Write` on connection `k`: `while (datasize < max_write)`.

`raw_data` holds the bytes staged so far, so `datasize` is its length (the staging array lives
on the stack, its length stays far below 2^32).  `visits` is a ghost log, never read by the
loop: it records, for every iteration, the circuit that was polled and what `PopCell`
returned.  One unit of `fuel` is spent per evaluation of the loop condition; `none` is an
`NS_ASSERT` failure or exhausted fuel. -/
def WriteFill (k : Nat) (max_write : Nat) (start_circ : Nat) :
    Nat → TorApp → List Nat → Bool → List (Nat × Option Packet) →
      Option (TorApp × List Nat × List (Nat × Option Packet))
  | 0, _, _, _, _ => none
  | fuel + 1, st, raw_data, flushed_some, visits =>
    if raw_data.length < max_write then
      match (st.conns k).active_circuits with
      | none => none
      | some circ =>
        let direction := (st.circs circ).GetDirection k
        let r := PopCell st circ direction
        let st := r.2
        let raw_data := match r.1 with
          | some cell => raw_data ++ cell
          | none => raw_data
        let flushed_some := match r.1 with
          | some _ => true
          | none => flushed_some
        let visits := visits ++ [(circ, r.1)]
        match (st.circs circ).GetNextCirc k with
        | none => none
        | some next =>
          let st := st.modConn k (fun x => x.SetActiveCircuits (some next))
          if next = start_circ then
            if !flushed_some then some (st, raw_data, visits)
            else WriteFill k max_write start_circ fuel st raw_data false visits
          else WriteFill k max_write start_circ fuel st raw_data flushed_some visits
    else some (st, raw_data, visits)

/-- The first part of `Connection::Write (max_write)` on connection `k`, up to and including
`written_bytes = std::max (written_bytes, 0)`: the staging of `outbuf`, the fill loop and the
send.  `Send` is the socket: it maps the bytes offered to the return value of `socket->Send`
(the number of bytes accepted, negative on error); calling it on a connection without a socket
fails.  The result is `written_bytes`, the state after the fill loop, the staged bytes
`raw_data` and the ghost log of `WriteFill`. -/
def WriteStage (fuel : Nat) (Send : List Nat → Int) (st : TorApp) (k : Nat) (max_write : Nat) :
    Option (Nat × TorApp × List Nat × List (Nat × Option Packet)) :=
  match (st.conns k).active_circuits with
  | none => none
  | some start_circ =>
    match WriteFill k max_write start_circ fuel st (st.conns k).outbuf false [] with
    | none => none
    | some (st, raw_data, visits) =>
      let datasize := raw_data.length
      let max_write := min max_write datasize
      let sent : Option Int :=
        if max_write > 0 then
          match (st.conns k).socket with
          | none => none
          | some _ => some (Send (raw_data.take max_write))
        else some 0
      match sent with
      | none => none
      | some written_bytes =>
        let written_bytes := (max written_bytes 0).toNat
        some (written_bytes, st, raw_data, visits)

/-- Embedding of `Connection::Write (max_write)` on connection `k`: `WriteStage`, then the
un-sent tail is saved, `memcpy (outbuf.data, &raw_data[datasize - leftover], leftover)` and
`outbuf.size = leftover`.  The destination is the array `uint8_t data[CELL_NETWORK_SIZE]` of
`buf_t` and the code does not compare `leftover` with its size: a copy of more than
`CELL_NETWORK_SIZE` bytes runs past the end of the array, over the members of the connection
that follow it, and the call has no defined result (`none`).  The result is the return value,
the new state and the ghost log of `WriteFill`. -/
def Write (fuel : Nat) (Send : List Nat → Int) (st : TorApp) (k : Nat) (max_write : Nat) :
    Option (Nat × TorApp × List (Nat × Option Packet)) :=
  match WriteStage fuel Send st k max_write with
  | none => none
  | some (written_bytes, st, raw_data, visits) =>
    let datasize := raw_data.length
    let leftover := datasize - written_bytes
    if leftover ≤ CELL_NETWORK_SIZE then
      let st := st.modConn k (fun x => { x with outbuf := raw_data.drop (datasize - leftover) })
      some (written_bytes, st, visits)
    else none

/-- Embedding of `Connection::Read (packet_list, max_read)` on connection `k`.  `Recv` is the
socket: it maps the number of bytes asked for to the bytes that `socket->Recv` copies behind
the carry-over (its return value is their count); calling it on a connection without a socket
fails.  `raw_data` holds the carry-over followed by the bytes received (the array lives on the
stack, its length stays far below 2^32).  The result is the return value, the packet list
with the new cells pushed at its back, and the new state. -/
def Read (Recv : Nat → List Nat) (st : TorApp) (k : Nat) (packet_list : List Packet)
    (max_read : Nat) : Option (Nat × List Packet × TorApp) :=
  if (st.conns k).reading_blocked then some (0, packet_list, st)
  else
    match (st.conns k).socket with
    | none => none
    | some _ =>
      let received := Recv max_read
      let raw_data := (st.conns k).inbuf ++ received
      let read_bytes := received.length
      let base :=
        if (st.conns k).conn_type = EDGE_CONN then CELL_PAYLOAD_SIZE else CELL_NETWORK_SIZE
      let datasize := read_bytes + (st.conns k).inbuf.length
      let leftover := datasize % base
      let num_packages := datasize / base
      let packet_list := packet_list ++
        (List.range num_packages).map (fun i => (raw_data.drop (i * base)).take base)
      let st := st.modConn k
        (fun x => { x with inbuf := (raw_data.drop (datasize - leftover)).take leftover })
      some (read_bytes, packet_list, st)

/-! ## `TorApp::RoundRobin` -/

/-- Embedding of `TorApp::RoundRobin (int base, int64_t global_bucket)`.

`num_bytes_high` and `num_bytes_low` are `uint32_t` (the product wraps modulo 2^32), `at_most`
is `int64_t`; `/` and `%` of C++ truncate toward zero; the returned `int64_t` is converted to
`uint32_t`. -/
def RoundRobin (base : Int) (global_bucket : Int) : Int :=
  let num_bytes_high : Int := (32 * base) % 4294967296
  let num_bytes_low : Int := (4 * base) % 4294967296
  let at_most : Int := Int.tdiv global_bucket 8
  let at_most : Int := at_most - Int.tmod at_most base
  let at_most : Int :=
    if at_most > num_bytes_high then num_bytes_high
    else if at_most < num_bytes_low then num_bytes_low
    else at_most
  let at_most : Int := if at_most > global_bucket then global_bucket else at_most
  if at_most < 0 then 0 else at_most % 4294967296

/-- The budget as the specification words it: `bucket / 8` rounded down to a multiple of
`base`, clamped to `[4·base, 32·base]`, then clamped to at most `bucket`, then to at least 0. -/
def RoundRobinSpec (base : Int) (bucket : Int) : Int :=
  let a : Int := bucket / 8 / base * base
  max (min (min (max a (4 * base)) (32 * base)) bucket) 0

/-! ## The read and write callbacks of the relay -/

/-- Embedding of `TorApp::LookupConn (socket)`: the first connection of the vector
`connections` whose socket is `socket`, null if there is none. -/
def LookupConn (st : TorApp) (socket : Option Nat) : Option Nat :=
  st.connections.find? (fun k => decide ((st.conns k).socket = socket))

/-- Embedding of `TorApp::GlobalBucketsDecrement (num_read, num_written)`. -/
def GlobalBucketsDecrement (st : TorApp) (num_read num_written : Nat) : TorApp :=
  { st with
    m_readbucket := st.m_readbucket.Decrement num_read
    m_writebucket := st.m_writebucket.Decrement num_written }

/-- Embedding of `TorApp::PackageRelayCellImpl (circ_id, cell)`: a `RELAY_DATA` header with the
circuit id (stored in the 16-bit field of the header) and the size of the payload is put in
front of the payload. -/
def PackageRelayCellImpl (circ_id : Int) (cell : Packet) : Packet :=
  let h : CellHeader :=
    { circId := (circ_id % 65536).toNat, cmd := RELAY_DATA, cellType := RELAY,
      length := cell.length }
  AddHeader h cell

/-- Embedding of `TorApp::AppendCellToCircuitQueue (circ, cell, direction)`; the `NS_ASSERT`s
fail on null pointers. -/
def AppendCellToCircuitQueue (st : TorApp) (circ : Option Nat) (cell : Option Packet)
    (direction : CellDirection) : Option TorApp :=
  match circ, cell with
  | some circ, some cell =>
    let conn := (st.circs circ).GetConnection direction
    match PushCell st circ (some cell) direction with
    | none => none
    | some st => some (st.modConn conn (fun k => k.ScheduleWrite 0))
  | _, _ => none

/-- Embedding of `TorApp::PackageRelayCell (conn, cell)`; the `NS_ASSERT`s fail on null
pointers.  `GetPackageWindow () <= 0` compares a `uint32_t`.  The `uint32_t` id is passed as an
`int`, which leaves its low 16 bits, the ones the header keeps, as they are. -/
def PackageRelayCell (st : TorApp) (conn : Option Nat) (cell : Option Packet) :
    Option TorApp :=
  match conn, cell with
  | some conn, some cell =>
    match (st.conns conn).active_circuits with
    | none => none
    | some circ =>
      let cell := PackageRelayCellImpl (st.circs circ).GetId cell
      let direction := (st.circs circ).GetOppositeDirectionOf conn
      match AppendCellToCircuitQueue st (some circ) (some cell) direction with
      | none => none
      | some st =>
        if (st.circs circ).GetPackageWindow ≤ 0 then
          some (st.modConn conn (fun k => k.SetBlocked true))
        else some st
  | _, _ => none

/-- Embedding of `TorApp::LookupCircuitFromCell (cell)`: the entry of the map `circuits` under
the circuit id of the cell's header. -/
def LookupCircuitFromCell (st : TorApp) (cell : Packet) : Option Nat :=
  st.circuits (PeekHeader cell).circId

/-- Embedding of `TorApp::ReceiveRelayCell (conn, cell)`; the `NS_ASSERT`s fail on null
pointers. -/
def ReceiveRelayCell (st : TorApp) (conn : Option Nat) (cell : Option Packet) :
    Option TorApp :=
  match conn, cell with
  | some conn, some cell =>
    match LookupCircuitFromCell st cell with
    | none => none
    | some circ =>
      let direction := (st.circs circ).GetOppositeDirectionOf conn
      AppendCellToCircuitQueue st (some circ) (some cell) direction
  | _, _ => none

/-- The loop of `TorApp::ConnReadCallback` over `packet_list`: every cell read from an edge
connection is packaged, every cell read from an OR connection is relayed. -/
def ConnReadDispatch (conn : Nat) : List Packet → TorApp → Option TorApp
  | [], st => some st
  | cell :: rest, st =>
    let r :=
      if (st.conns conn).conn_type = EDGE_CONN then PackageRelayCell st (some conn) (some cell)
      else ReceiveRelayCell st (some conn) (some cell)
    match r with
    | none => none
    | some st => ConnReadDispatch conn rest st

/-- The answers of the socket during one `TorApp::ConnReadCallback`: the value of
`GetRxAvailable ()` before the read, the bytes copied by `Recv` for a given request, and the
value of `GetRxAvailable ()` after the read. -/
structure ReadSocket where
  GetRxAvailable : Nat
  Recv : Nat → List Nat
  GetRxAvailableAfter : Nat

/-- Ghost record of one `TorApp::ConnReadCallback`, never read by the code: the byte count
passed to `Connection::Read` (0 when `Read` is not called), its return value and the
`packet_list` it filled. -/
structure ReadLog where
  max_read : Nat
  read_bytes : Nat
  packet_list : List Packet

/-- Embedding of `TorApp::ConnReadCallback (socket)`.  The `NS_ASSERT`s fail on a null socket
and on a socket of no connection; an edge connection without a circuit is a null dereference.
`max_read` is a `uint32_t`, so `max_read <= 0` means `max_read == 0` and the product
`GetPackageWindow () * base` wraps modulo 2^32. -/
def ConnReadCallback (sock : ReadSocket) (st : TorApp) (socket : Option Nat) :
    Option (TorApp × ReadLog) :=
  match socket with
  | none => none
  | some _ =>
    match LookupConn st socket with
    | none => none
    | some conn =>
      if (st.conns conn).reading_blocked then
        some (st, { max_read := 0, read_bytes := 0, packet_list := [] })
      else
        let base :=
          if (st.conns conn).conn_type = EDGE_CONN then CELL_PAYLOAD_SIZE else CELL_NETWORK_SIZE
        let max_read := (RoundRobin base st.m_readbucket.GetSize).toNat
        let max_read := min max_read sock.GetRxAvailable
        if max_read ≤ 0 then
          some (st, { max_read := 0, read_bytes := 0, packet_list := [] })
        else
          let clamped : Option Nat :=
            if (st.conns conn).conn_type = EDGE_CONN then
              match (st.conns conn).active_circuits with
              | none => none
              | some circ =>
                some (min (((st.circs circ).GetPackageWindow * base) % 4294967296) max_read)
            else some max_read
          match clamped with
          | none => none
          | some max_read =>
            match Read sock.Recv st conn [] max_read with
            | none => none
            | some (read_bytes, packet_list, st) =>
              match ConnReadDispatch conn packet_list st with
              | none => none
              | some st =>
                let log : ReadLog :=
                  { max_read := max_read, read_bytes := read_bytes, packet_list := packet_list }
                if read_bytes > 0 then
                  let st := GlobalBucketsDecrement st read_bytes 0
                  if sock.GetRxAvailableAfter > 0 then
                    let delay := (read_bytes * 2) % 4294967296
                    some (st.modConn conn (fun k => k.ScheduleRead delay), log)
                  else some (st, log)
                else some (st, log)

/-- Embedding of `TorApp::RefillReadCallback (prev_read_bucket)`: when the read bucket has
turned positive every connection is scheduled for a read in 10 ns. -/
def RefillReadCallback (st : TorApp) (prev_read_bucket : Int) : TorApp :=
  if prev_read_bucket ≤ 0 ∧ st.m_readbucket.GetSize > 0 then
    st.connections.foldl (fun s conn => s.modConn conn (fun k => k.ScheduleRead 10)) st
  else st

/-- Embedding of `TorApp::RefillWriteCallback (prev_write_bucket)`: when the write bucket has
turned positive every connection is scheduled for a write. -/
def RefillWriteCallback (st : TorApp) (prev_write_bucket : Int) : TorApp :=
  if prev_write_bucket ≤ 0 ∧ st.m_writebucket.GetSize > 0 then
    st.connections.foldl (fun s conn => s.modConn conn (fun k => k.ScheduleWrite 0)) st
  else st

/-- Ghost: the cells that the call `op`, issued in state `st`, pushes onto the queue of
direction `d` of circuit `c`.  These are the two `queue->push` sites of the source: the one at
the end of `PushCell` (the cell itself toward an OR connection; toward an edge connection the
cell without its header, and nothing for a consumed SENDME) and the SENDME that `PopCell` on
the other direction emits. -/
def enqueuedBy (st : TorApp) (c : Nat) (d : CellDirection) : CircOp → List Packet
  | .push c' (some pkt) d' =>
    if c' = c ∧ d' = d then
      if (st.conns ((st.circs c).GetConnection d)).conn_type = EDGE_CONN then
        if IsSendme (some pkt) then []
        else
          match RemoveHeader pkt with
          | some hp => [hp.2]
          | none => []
      else [pkt]
    else []
  | .push _ none _ => []
  | .pop c' d' =>
    if c' = c ∧ GetOppositeDirection d' = d ∧ (st.circs c).GetQueue d' ≠ []
        ∧ (st.conns ((st.circs c).GetConnection d')).conn_type = EDGE_CONN
        ∧ (st.circs c).deliver_window - 1 ≤ CIRCWINDOW_START - CIRCWINDOW_INCREMENT then
      [(st.circs c).CreateSendme]
    else []

/-- Ghost: the cell that the call `op`, issued in state `st`, returns from the queue of
direction `d` of circuit `c` (the non-null results of `PopCell (d)`). -/
def dequeuedBy (st : TorApp) (c : Nat) (d : CellDirection) : CircOp → List Packet
  | .pop c' d' => if c' = c ∧ d' = d then (PopCell st c d).1.toList else []
  | .push _ _ _ => []

/-- Ghost: all cells pushed onto the queue `(c, d)` during a run, in order. -/
def enqueuedAll (c : Nat) (d : CellDirection) : List CircOp → TorApp → List Packet
  | [], _ => []
  | op :: ops, st =>
    enqueuedBy st c d op ++
      (match runOp st op with
       | none => []
       | some st' => enqueuedAll c d ops st')

/-- Ghost: all cells returned from the queue `(c, d)` during a run, in order. -/
def dequeuedAll (c : Nat) (d : CellDirection) : List CircOp → TorApp → List Packet
  | [], _ => []
  | op :: ops, st =>
    dequeuedBy st c d op ++
      (match runOp st op with
       | none => []
       | some st' => dequeuedAll c d ops st')

/-! ## The active-circuit ring, as a predicate -/

/-- The circuits `cs` form the active-circuit ring of connection `k`, in ring order, and the
head `active_circuits` of the connection is at position `h` (modulo the length). -/
def RingAt (st : TorApp) (k : Nat) (cs : List Nat) (h : Nat) : Prop :=
  0 < cs.length ∧
  (∀ i, i < cs.length →
    (st.circs (cs.getD i 0)).GetNextCirc k = some (cs.getD ((i + 1) % cs.length) 0)) ∧
  (st.conns k).active_circuits = some (cs.getD (h % cs.length) 0)

/-- Ghost: the first `n` circuits met on a walk from circuit `c` along the ring pointers of
connection `k`. -/
def ringFrom (st : TorApp) (k : Nat) : Nat → Option Nat → List Nat
  | 0, _ => []
  | _ + 1, none => []
  | n + 1, some c => c :: ringFrom st k n ((st.circs c).GetNextCirc k)

/-- Ghost: the first `n` circuits of the active-circuit ring of connection `k`, from its
head. -/
def ringHead (st : TorApp) (k : Nat) (n : Nat) : List Nat :=
  ringFrom st k n (st.conns k).active_circuits

/-- The length of the queue of circuit `c` that `Connection::Write` on `k` polls. -/
def queueToward (st : TorApp) (k : Nat) (c : Nat) : Nat :=
  ((st.circs c).GetQueue ((st.circs c).GetDirection k)).length

/-- The number of cells queued toward connection `k` on the circuits of the ring `cs`. -/
def queuedToward (st : TorApp) (k : Nat) (cs : List Nat) : Nat :=
  (cs.map (queueToward st k)).sum

/-- The bytes of the cells that a ghost log records as popped, in pop order. -/
def poppedBytes (visits : List (Nat × Option Packet)) : List Nat :=
  (visits.filterMap Prod.snd).flatten

/-- The relay-level members that the queue operations never touch. -/
def sameRelay (st st' : TorApp) : Prop :=
  st'.connections = st.connections ∧ st'.circuits = st.circuits ∧
  st'.m_readbucket = st.m_readbucket ∧ st'.m_writebucket = st.m_writebucket

/-- The members of a connection that scheduling and blocking never touch. -/
def sameConn (x y : Connection) : Prop :=
  y.conn_type = x.conn_type ∧ y.active_circuits = x.active_circuits ∧ y.socket = x.socket ∧
  y.inbuf = x.inbuf ∧ y.outbuf = x.outbuf

/-- The slicing unit `base` that `Read`, `Write` and the two callbacks compute from the type
of the connection: 498 bytes on an edge connection, 512 on an OR connection. -/
def cellBase (k : Connection) : Nat :=
  if k.conn_type = EDGE_CONN then CELL_PAYLOAD_SIZE else CELL_NETWORK_SIZE

/-- The members of a connection that `Read` leaves alone. -/
def sameButInbuf (x y : Connection) : Prop :=
  y.conn_type = x.conn_type ∧ y.active_circuits = x.active_circuits ∧ y.socket = x.socket ∧
  y.reading_blocked = x.reading_blocked ∧ y.outbuf = x.outbuf

/-- What a `ConnReadCallback` that reads from the edge connection `conn` with active circuit
`circ` leaves behind, in terms of its ghost record: the bytes received are sliced into whole
payloads, the rest is carried over, and every payload is packaged onto the circuit. -/
def EdgeReadPost (sock : ReadSocket) (st : TorApp) (conn circ : Nat) (st' : TorApp)
    (log : ReadLog) : Prop :=
  log.read_bytes = (sock.Recv log.max_read).length ∧
  log.packet_list.length
    = ((st.conns conn).inbuf.length + log.read_bytes) / CELL_PAYLOAD_SIZE ∧
  (∀ c ∈ log.packet_list, c.length = CELL_PAYLOAD_SIZE) ∧
  log.packet_list.flatten ++ (st'.conns conn).inbuf
    = (st.conns conn).inbuf ++ sock.Recv log.max_read ∧
  (st'.conns conn).inbuf.length
    = ((st.conns conn).inbuf.length + log.read_bytes) % CELL_PAYLOAD_SIZE ∧
  (st'.circs circ).package_window =
    (if (st.conns ((st.circs circ).GetOppositeConnection
          ((st.circs circ).GetOppositeDirectionOf conn))).conn_type = EDGE_CONN
      then (st.circs circ).package_window - log.packet_list.length
      else (st.circs circ).package_window) ∧
  (log.packet_list ≠ [] → (st'.circs circ).package_window = 0 →
    (st'.conns conn).reading_blocked = true) ∧
  (st'.circs circ).GetQueue ((st.circs circ).GetOppositeDirectionOf conn) =
    (st.circs circ).GetQueue ((st.circs circ).GetOppositeDirectionOf conn) ++
      log.packet_list.map (fun cell =>
        if (st.conns ((st.circs circ).GetConnection
              ((st.circs circ).GetOppositeDirectionOf conn))).conn_type = EDGE_CONN
        then cell else PackageRelayCellImpl (st.circs circ).GetId cell)

/-! ## Concrete cells and relay states used in the examples -/

/-- A packaged data cell of circuit 1: a `RELAY_DATA` header in front of 498 payload bytes. -/
def exData : Packet :=
  AddHeader { circId := 1, cmd := RELAY_DATA, cellType := RELAY, length := 498 }
    (List.replicate 498 7)

/-- A SENDME cell of circuit 1, as `CreateSendme` builds it. -/
def exSendme : Packet :=
  (Circuit.new 1 1 0).CreateSendme

/-- A connection of the given type with a socket. -/
def exConn (ip conn_type : Nat) : Connection :=
  { Connection.new ip conn_type with socket := some ip }

/-- One fresh circuit (identity 0, id 1) whose previous connection (identity 0) is an edge
connection and whose next connection (identity 1) is an OR connection. -/
def exEdgeOr : TorApp :=
  { conns := fun k => if k = 0 then exConn 10 EDGE_CONN else exConn 11 OR_CONN
    circs := fun _ => Circuit.new 1 1 0 }

/-- One fresh circuit (identity 0, id 1) both of whose connections (identities 0 and 1) are
edge connections. -/
def exEdgeEdge : TorApp :=
  { conns := fun k => exConn (10 + k) EDGE_CONN
    circs := fun _ => Circuit.new 1 1 0 }

/-- A stalled circuit between an edge connection (identity 0) and an OR connection (identity
1): the package window is exhausted and the edge connection is blocked, as 1000 cells packaged
from the edge connection leave them. -/
def exStalled : TorApp :=
  { conns := fun k =>
      if k = 0 then { exConn 10 EDGE_CONN with reading_blocked := true } else exConn 11 OR_CONN
    circs := fun _ => { Circuit.new 1 1 0 with package_window := 0 } }

/-- A stalled circuit between two edge connections (identities 0 and 1): the package window is
exhausted and the previous connection (identity 0) is blocked, as 1000 cells packaged from that
connection leave them. -/
def exStalledEdgeEdge : TorApp :=
  { conns := fun k =>
      if k = 0 then { exConn 10 EDGE_CONN with reading_blocked := true }
      else exConn (10 + k) EDGE_CONN
    circs := fun _ => { Circuit.new 1 1 0 with package_window := 0 } }

/-- The state `exEdgeOr` with the OR connection (identity 1) marked blocked by `SetBlocked`. -/
def exOppBlocked : TorApp :=
  { conns := fun k =>
      if k = 0 then exConn 10 EDGE_CONN else (exConn 11 OR_CONN).SetBlocked true
    circs := fun _ => Circuit.new 1 1 0 }

/-- The circuit of `exEdgeOr` with 201 payloads (a 100,000-byte transfer) queued toward the
edge connection. -/
def exDeliver : TorApp :=
  { conns := fun k => if k = 0 then exConn 10 EDGE_CONN else exConn 11 OR_CONN
    circs := fun _ =>
      { Circuit.new 1 1 0 with p_cellQ := List.replicate 201 (List.replicate 498 7) } }

/-- The first 99 deliveries of `exDeliver` to the edge connection. -/
def exDeliverOps : List CircOp :=
  List.replicate 99 (.pop 0 INBOUND)

/-- The state reached from `exDeliver` by `exDeliverOps`. -/
def exDelivered : TorApp :=
  (runOps exDeliverOps exDeliver).getD exDeliver

/-- A short run on `exEdgeOr`: a cell is packaged toward the OR connection and sent on. -/
def exOps : List CircOp :=
  [.push 0 (some exData) OUTBOUND, .pop 0 OUTBOUND]

/-- The state reached from `exEdgeOr` by `exOps`. -/
def exRun : TorApp :=
  (runOps exOps exEdgeOr).getD exEdgeOr

/-- A 512-byte data cell of circuit `id` whose payload bytes are all `tag`. -/
def exCell (id tag : Nat) : Packet :=
  AddHeader { circId := id, cmd := RELAY_DATA, cellType := RELAY, length := 498 }
    (List.replicate 498 tag)

/-- Circuits 1 and 2 (identity = id) share the outgoing OR connection 0 as their next
connection; each has two cells queued toward it.  No ring has been built yet. -/
def exTwoInit : TorApp :=
  { conns := fun k => exConn (20 + k) OR_CONN
    circs := fun c => { Circuit.new c 0 c with n_cellQ := [exCell c 1, exCell c 2] } }

/-- The state `exTwoInit` after `AddActiveCircuit` has put circuit 1 and then circuit 2 on the
ring of connection 0. -/
def exTwo : TorApp :=
  ((AddActiveCircuit exTwoInit (some 0) (some 1)).bind
    (fun s => AddActiveCircuit s (some 0) (some 2))).getD exTwoInit

/-- A relay with one circuit (identity 0, id 1) between the edge connection 0 (socket 10) and
the OR connection 1 (socket 11); the circuit is the only one on the ring of either connection,
and both buckets hold a million bytes. -/
def exRelay : TorApp :=
  { conns := fun k =>
      if k = 0 then { exConn 10 EDGE_CONN with active_circuits := some 0 }
      else { exConn 11 OR_CONN with active_circuits := some 0 }
    circs := fun _ =>
      { Circuit.new 1 1 0 with next_active_on_n_conn := some 0, next_active_on_p_conn := some 0 }
    connections := [0, 1]
    circuits := fun id => if id = 1 then some 0 else none
    m_readbucket := { size := 1000000 }
    m_writebucket := { size := 1000000 } }

/-- The relay `exRelay` with 100 bytes carried over in the `inbuf` of the edge connection. -/
def exCarry : TorApp :=
  exRelay.modConn 0 (fun x => { x with inbuf := List.replicate 100 9 })

/-- A socket holding a request of 10,000 bytes: `Recv` hands out as many of them as asked
for. -/
def exRecv : Nat → List Nat :=
  fun n => (List.replicate 10000 7).take n

/-- A socket whose `Send` fails. -/
def exFailedSend : List Nat → Int :=
  fun _ => -1

/-- A socket whose `Send` accepts 700 bytes of what it is offered. -/
def exShortSend : List Nat → Int :=
  fun _ => 700

/-- The relay `exRelay` with only two units of package window left on the circuit. -/
def exLowWindow : TorApp :=
  exRelay.modCirc 0 (fun x => { x with package_window := 2 })

/-- The answers of a socket that holds the 10,000-byte request of `exRecv` and is empty once
it has been read. -/
def exSock : ReadSocket :=
  { GetRxAvailable := 10000, Recv := exRecv, GetRxAvailableAfter := 0 }

/-- The answers of a socket that holds 1200 bytes and is empty once they have been read. -/
def exSmallSock : ReadSocket :=
  { GetRxAvailable := 1200, Recv := fun n => (List.replicate 1200 5).take n,
    GetRxAvailableAfter := 0 }

/-- A middle relay: the state `exTwo` with its three OR connections listed and circuits 1 and 2
registered under their ids. -/
def exMiddle : TorApp :=
  { exTwo with
    connections := [0, 1, 2]
    circuits := fun id => if id = 1 ∨ id = 2 then some id else none }

/-- The relay `exRelay` once the package window of its circuit is exhausted and the edge
connection (identity 0) is blocked. -/
def exBlocked : TorApp :=
  (exRelay.modCirc 0 (fun x => { x with package_window := 0 })).modConn 0
    (fun k => k.SetBlocked true)

/-- The answers of a socket that holds 1200 bytes and still holds 204 of them after the
read. -/
def exBusySock : ReadSocket :=
  { GetRxAvailable := 1200, Recv := fun n => (List.replicate 1200 5).take n,
    GetRxAvailableAfter := 204 }

/-- The state `exEdgeEdge` with its circuit on the ring of the previous connection
(identity 0). -/
def exEdgeEdgeRing : TorApp :=
  exEdgeEdge.modConn 0 (fun k => k.SetActiveCircuits (some 0))

/-- The state `exEdgeOr` with its circuit on the ring of the edge connection (identity 0). -/
def exEdgeOrRing : TorApp :=
  exEdgeOr.modConn 0 (fun k => k.SetActiveCircuits (some 0))

/-- A payload of 498 bytes. -/
def exPayload : Packet :=
  List.replicate 498 7

/-- No two connections of the vector `connections` have the same remote address. -/
def remotesDistinct (st : TorApp) : Prop :=
  (st.connections.map (fun k => (st.conns k).remote)).Nodup

/-- Two circuits and a connection, added to a fresh relay: circuit 1 from the edge address 10
to the OR address 11, the OR address 11 once more, circuit 2 from the edge address 12 to the
same OR address 11. -/
def exConfig : List ConfigOp :=
  [.addCircuit 0 1 11 0 10 1, .addConnection 11 0, .addCircuit 1 2 11 0 12 1]

/-- Everything of a circuit but its two ring pointers. -/
def sameButRing (x y : Circuit) : Prop :=
  y.circ_id = x.circ_id ∧ y.p_cellQ = x.p_cellQ ∧ y.n_cellQ = x.n_cellQ ∧
  y.p_conn = x.p_conn ∧ y.n_conn = x.n_conn ∧
  y.package_window = x.package_window ∧ y.deliver_window = x.deliver_window ∧
  y.stats_p_bytes_read = x.stats_p_bytes_read ∧
  y.stats_p_bytes_written = x.stats_p_bytes_written ∧
  y.stats_n_bytes_read = x.stats_n_bytes_read ∧
  y.stats_n_bytes_written = x.stats_n_bytes_written

/-- A relay configured with one circuit: id 1, from the edge address 10 to the OR address
11. -/
def exOneCircuit : TorApp :=
  (AddCircuit 0 TorApp.new 1 11 0 10 1).getD TorApp.new

/-! ## `TorApp::StopApplication` -/

/-- What `StopApplication` sets in an ns-3 socket (library code outside the repository): whether
`Close ()` has been called on it, and whether a receive callback and a data-sent callback are
installed. -/
structure SocketState where
  closed : Bool
  recv_callback : Bool
  data_sent_callback : Bool
deriving DecidableEq, Repr

/-- The relay together with what `StopApplication` reaches beyond it: the member
`listen_socket` of `TorApp` and the sockets, by identity. -/
structure Host where
  app : TorApp
  listen_socket : Option Nat
  sockets : Nat → SocketState

/-- The effect of `Close ()` and `SetRecvCallback (MakeNullCallback ...)` on the listen
socket. -/
def SocketState.closeListen (s : SocketState) : SocketState :=
  { s with closed := true, recv_callback := false }

/-- The effect of `Close ()`, `SetRecvCallback (MakeNullCallback ...)` and
`SetDataSentCallback (MakeNullCallback ...)` on the socket of a connection. -/
def SocketState.closeConn (s : SocketState) : SocketState :=
  { s with closed := true, recv_callback := false, data_sent_callback := false }

/-- The loop of `StopApplication` over the vector `connections`: the socket of every
connection that has one is closed and loses its callbacks. -/
def closeConnections (app : TorApp) : List Nat → (Nat → SocketState) → (Nat → SocketState)
  | [], socks => socks
  | conn :: rest, socks =>
    match (app.conns conn).socket with
    | some s => closeConnections app rest (setAt socks s (socks s).closeConn)
    | none => closeConnections app rest socks

/-- Embedding of `TorApp::StopApplication ()`.  No data member of the relay, of a connection or
of a circuit is written: only sockets are. -/
def StopApplication (h : Host) : Host :=
  let socks :=
    match h.listen_socket with
    | some s => setAt h.sockets s (h.sockets s).closeListen
    | none => h.sockets
  { h with sockets := closeConnections h.app h.app.connections socks }

/-- The relay `exRelay` right after a refill of the read bucket has woken its connections, with
a listen socket (identity 1) and open sockets. -/
def exWoken : Host :=
  { app := RefillReadCallback exRelay 0
    listen_socket := some 1
    sockets := fun _ => { closed := false, recv_callback := true, data_sent_callback := true } }

/-! ## Ghost predicates for the fill loop and for the rings left by the configuration -/

/-- Every cell queued toward connection `k` is `base` bytes long. -/
def cellsOfSize (st : TorApp) (k base : Nat) : Prop :=
  ∀ c cell, cell ∈ (st.circs c).GetQueue ((st.circs c).GetDirection k) → cell.length = base

/-- The relay `exRelay` with three 498-byte payloads queued toward its edge connection. -/
def exBacklog : TorApp :=
  exRelay.modCirc 0 (fun x => { x with p_cellQ := List.replicate 3 (List.replicate 498 7) })

/-- A socket whose `Send` accepts 484 bytes of what it is offered. -/
def exSlowSend : List Nat → Int :=
  fun _ => 484

/-- Circuit `c` is attached to connection `k`: `k` is its next or its previous connection. -/
def att (st : TorApp) (k c : Nat) : Bool :=
  decide ((st.circs c).n_conn = k ∨ (st.circs c).p_conn = k)

/-- The order of a ring to which circuits were added in the given order: the first circuit
added is the head, the later ones follow it, the latest first. -/
def ringOrder : List Nat → List Nat
  | [] => []
  | c :: rest => c :: rest.reverse

/-- The ring order after one more circuit: it comes right after the head. -/
def insertAfterHead : List Nat → Nat → List Nat
  | [], c => [c]
  | h :: t, c => h :: c :: t

/-- The ring pointers for connection `k` lead from each circuit of the list to the next one,
and from the last one to `z`. -/
def follows (st : TorApp) (k : Nat) : List Nat → Nat → Prop
  | [], _ => True
  | a :: t, z => (st.circs a).GetNextCirc k = some (t.headD z) ∧ follows st k t z

/-- The ring of connection `k` is `cs`: it is empty and the connection has no head, or the
head is the first circuit of `cs` and the pointers lead through `cs` and back to the head. -/
def ringOn (st : TorApp) (k : Nat) (cs : List Nat) : Prop :=
  match cs with
  | [] => (st.conns k).active_circuits = none
  | h :: t => (st.conns k).active_circuits = some h ∧ follows st k (h :: t) h

/-- The identities of the circuits that a sequence of configuration calls creates, in
order. -/
def created : List ConfigOp → List Nat
  | [] => []
  | .addConnection _ _ :: ops => created ops
  | .addCircuit circ _ _ _ _ _ :: ops => circ :: created ops

/-- Every circuit of the sequence is configured between two different remote addresses. -/
def distinctEnds : List ConfigOp → Bool
  | [] => true
  | .addConnection _ _ :: ops => distinctEnds ops
  | .addCircuit _ _ n_ip _ p_ip _ :: ops => decide (n_ip ≠ p_ip) && distinctEnds ops

/-- The invariant of the configuration calls, for the circuits `cr` created so far: they are
distinct, each lies between two different listed connections, and the ring of every connection
holds the circuits attached to it, in ring order. -/
def configInv (st : TorApp) (cr : List Nat) : Prop :=
  cr.Nodup ∧
  (∀ c ∈ cr, (st.circs c).n_conn ≠ (st.circs c).p_conn ∧
    (st.circs c).n_conn ∈ st.connections ∧ (st.circs c).p_conn ∈ st.connections) ∧
  (∀ k, ringOn st k (ringOrder (cr.filter (att st k))))

/-- The ring of connection `k` that the configuration calls `ops` are to leave in state
`st`: the circuits they created that are attached to `k`, in ring order. -/
def ringOf (ops : List ConfigOp) (st : TorApp) (k : Nat) : List Nat :=
  ringOrder ((created ops).filter (att st k))

/-- Three circuits from the edge addresses 10, 12 and 13 to the same OR address 11. -/
def exThree : List ConfigOp :=
  [.addCircuit 0 1 11 0 10 1, .addCircuit 1 2 11 0 12 1, .addCircuit 2 3 11 0 13 1]

/-- A circuit from the edge address 10 to the OR address 11, and then a circuit whose two ends
are both at the address 11. -/
def exLoop : List ConfigOp :=
  [.addCircuit 0 1 11 0 10 1, .addCircuit 1 2 11 0 11 0]

/-! ## Basic facts about the heaps and the accessors -/

@[simp] theorem setAt_same {α : Type} (f : Nat → α) (i : Nat) (v : α) : setAt f i v i = v := by
  simp [setAt]

theorem setAt_other {α : Type} (f : Nat → α) (i j : Nat) (v : α) (h : j ≠ i) :
    setAt f i v j = f j := by
  simp [setAt, h]

theorem setAt_apply {α : Type} (f : Nat → α) (i j : Nat) (v : α) :
    setAt f i v j = if j = i then v else f j := rfl

@[simp] theorem modCirc_conns (st : TorApp) (c : Nat) (f : Circuit → Circuit) :
    (st.modCirc c f).conns = st.conns := rfl

@[simp] theorem modCirc_circs_same (st : TorApp) (c : Nat) (f : Circuit → Circuit) :
    (st.modCirc c f).circs c = f (st.circs c) := by
  simp [TorApp.modCirc]

theorem modCirc_circs (st : TorApp) (c c' : Nat) (f : Circuit → Circuit) :
    (st.modCirc c f).circs c' = if c' = c then f (st.circs c) else st.circs c' := rfl

@[simp] theorem modConn_circs (st : TorApp) (k : Nat) (f : Connection → Connection) :
    (st.modConn k f).circs = st.circs := rfl

@[simp] theorem modConn_conns_same (st : TorApp) (k : Nat) (f : Connection → Connection) :
    (st.modConn k f).conns k = f (st.conns k) := by
  simp [TorApp.modConn]

theorem modConn_conns (st : TorApp) (k k' : Nat) (f : Connection → Connection) :
    (st.modConn k f).conns k' = if k' = k then f (st.conns k) else st.conns k' := rfl

theorem SetQueue_eq (x : Circuit) (d : CellDirection) (q : List Packet) :
    x.SetQueue d q =
      { x with
        n_cellQ := if d = OUTBOUND then q else x.n_cellQ
        p_cellQ := if d = OUTBOUND then x.p_cellQ else q } := by
  cases d <;> rfl

theorem IncStatsBytes_eq (x : Circuit) (d : CellDirection) (r w : Nat) :
    x.IncStatsBytes d r w =
      { x with
        stats_n_bytes_read :=
          if d = OUTBOUND then (x.stats_n_bytes_read + r) % 4294967296 else x.stats_n_bytes_read
        stats_n_bytes_written :=
          if d = OUTBOUND then (x.stats_n_bytes_written + w) % 4294967296
          else x.stats_n_bytes_written
        stats_p_bytes_read :=
          if d = OUTBOUND then x.stats_p_bytes_read else (x.stats_p_bytes_read + r) % 4294967296
        stats_p_bytes_written :=
          if d = OUTBOUND then x.stats_p_bytes_written
          else (x.stats_p_bytes_written + w) % 4294967296 } := by
  cases d <;> rfl

theorem IncPackageWindow_eq (x : Circuit) :
    x.IncPackageWindow = { x with package_window := min (x.package_window + 100) 1000 } := by
  unfold Circuit.IncPackageWindow
  simp only [CIRCWINDOW_START, CIRCWINDOW_INCREMENT]
  split
  · rw [min_eq_right (by omega)]
  · rw [min_eq_left (by omega)]

theorem IncDeliverWindow_eq (x : Circuit) :
    x.IncDeliverWindow = { x with deliver_window := min (x.deliver_window + 100) 1000 } := by
  unfold Circuit.IncDeliverWindow
  simp only [CIRCWINDOW_START, CIRCWINDOW_INCREMENT]
  split
  · rw [min_eq_right (by omega)]
  · rw [min_eq_left (by omega)]

theorem SetBlocked_eq (k : Connection) (b : Bool) :
    k.SetBlocked b = { k with reading_blocked := b } := rfl

theorem ScheduleRead_eq (k : Connection) (delay : Nat) :
    k.ScheduleRead delay =
      { k with read_event :=
          if k.socket.isSome && k.read_event.isNone then some delay else k.read_event } := by
  unfold Connection.ScheduleRead
  split <;> rfl

theorem ScheduleWrite_eq (k : Connection) (delay : Nat) :
    k.ScheduleWrite delay =
      { k with write_event :=
          if k.socket.isSome && k.write_event.isNone then some delay else k.write_event } := by
  unfold Connection.ScheduleWrite
  split <;> rfl

theorem or_ne_edge : OR_CONN ≠ EDGE_CONN := by decide

/-- The cell built by `CreateSendme` is recognised by `IsSendme`. -/
theorem IsSendme_CreateSendme (x : Circuit) : IsSendme (some x.CreateSendme) = true := by
  simp [IsSendme, Circuit.CreateSendme, PeekHeader, AddHeader, CellHeader.Deserialize,
    CellHeader.Serialize, RELAY_SENDME]

/-! ## Effect of `PushCell` and `PopCell` on the parts of the state they do not own -/

/-- Embedding of `PushCell` touches no circuit but its own. -/
theorem PushCell_other_circ (st st' : TorApp) (c : Nat) (cell : Option Packet)
    (d : CellDirection) (h : PushCell st c cell d = some st') (c' : Nat) (hc : c' ≠ c) :
    st'.circs c' = st.circs c' := by
  unfold PushCell at h
  cases cell with
  | none => simp at h; rw [← h]
  | some pkt =>
    simp only at h
    split_ifs at h <;> first
      | (simp only [Option.some.injEq] at h; subst h; simp [modCirc_circs, hc])
      | (split at h
         · simp at h
         · simp only [Option.some.injEq] at h; subst h; simp [modCirc_circs, hc])

/-- Embedding of `PopCell` returns the head of the queue, if any. -/
theorem PopCell_fst (st : TorApp) (c : Nat) (d : CellDirection) :
    (PopCell st c d).1 = ((st.circs c).GetQueue d).head? := by
  unfold PopCell
  cases hq : (st.circs c).GetQueue d <;> simp [PopQueue]

/-- Embedding of `PopCell` touches no circuit but its own. -/
theorem PopCell_other_circ (st : TorApp) (c : Nat) (d : CellDirection) (c' : Nat)
    (hc : c' ≠ c) : (PopCell st c d).2.circs c' = st.circs c' := by
  unfold PopCell
  cases hq : (st.circs c).GetQueue d with
  | nil => simp [PopQueue, modCirc_circs, hc]
  | cons cell rest =>
    simp only [PopQueue]
    split_ifs <;> simp [modCirc_circs, hc]

/-- Embedding of `PopCell` changes nothing of a connection but its write event. -/
theorem PopCell_conns (st : TorApp) (c : Nat) (d : CellDirection) (k : Nat) :
    (PopCell st c d).2.conns k =
      { st.conns k with write_event := ((PopCell st c d).2.conns k).write_event } := by
  unfold PopCell
  cases hq : (st.circs c).GetQueue d with
  | nil => simp [PopQueue]
  | cons cell rest =>
    simp only [PopQueue]
    split_ifs <;> simp [modConn_conns, ScheduleWrite_eq] <;> split_ifs <;> simp_all

/-- What `PopCell` leaves alone in its own circuit. -/
theorem PopCell_circ_frame (st : TorApp) (c : Nat) (d : CellDirection) :
    ((PopCell st c d).2.circs c).circ_id = (st.circs c).circ_id ∧
    ((PopCell st c d).2.circs c).p_conn = (st.circs c).p_conn ∧
    ((PopCell st c d).2.circs c).n_conn = (st.circs c).n_conn ∧
    ((PopCell st c d).2.circs c).next_active_on_n_conn = (st.circs c).next_active_on_n_conn ∧
    ((PopCell st c d).2.circs c).next_active_on_p_conn = (st.circs c).next_active_on_p_conn ∧
    ((PopCell st c d).2.circs c).package_window = (st.circs c).package_window ∧
    ((PopCell st c d).2.circs c).GetQueue d = ((st.circs c).GetQueue d).tail := by
  unfold PopCell
  cases hq : (st.circs c).GetQueue d with
  | nil => cases d <;> simp [PopQueue, SetQueue_eq, Circuit.GetQueue]
  | cons cell rest =>
    simp only [PopQueue]
    cases d <;> split_ifs <;>
      simp [SetQueue_eq, IncStatsBytes_eq, IncDeliverWindow_eq, Circuit.GetQueue,
        GetOppositeDirection]

/-- The deliver window and the opposite queue after a `PopCell` that dequeues a cell. -/
theorem PopCell_deliver (st : TorApp) (c : Nat) (d : CellDirection) (cell : Packet)
    (rest : List Packet) (hq : (st.circs c).GetQueue d = cell :: rest) :
    (PopCell st c d).1 = some cell ∧
    ((st.conns ((st.circs c).GetConnection d)).conn_type = EDGE_CONN →
      (st.circs c).deliver_window - 1 ≤ 900 →
        ((PopCell st c d).2.circs c).deliver_window
            = min ((st.circs c).deliver_window - 1 + 100) 1000 ∧
        ((PopCell st c d).2.circs c).GetQueue (GetOppositeDirection d)
            = (st.circs c).GetQueue (GetOppositeDirection d) ++ [(st.circs c).CreateSendme]) ∧
    ((st.conns ((st.circs c).GetConnection d)).conn_type = EDGE_CONN →
      ¬ (st.circs c).deliver_window - 1 ≤ 900 →
        ((PopCell st c d).2.circs c).deliver_window = (st.circs c).deliver_window - 1 ∧
        ((PopCell st c d).2.circs c).GetQueue (GetOppositeDirection d)
            = (st.circs c).GetQueue (GetOppositeDirection d)) ∧
    ((st.conns ((st.circs c).GetConnection d)).conn_type ≠ EDGE_CONN →
        ((PopCell st c d).2.circs c).deliver_window = (st.circs c).deliver_window ∧
        ((PopCell st c d).2.circs c).GetQueue (GetOppositeDirection d)
            = (st.circs c).GetQueue (GetOppositeDirection d)) := by
  unfold PopCell
  simp only [hq, PopQueue]
  refine ⟨trivial, ?_, ?_, ?_⟩
  · intro he hw
    cases d <;> split_ifs <;>
      simp_all [SetQueue_eq, IncStatsBytes_eq, IncDeliverWindow_eq, Circuit.GetQueue,
        GetOppositeDirection, Circuit.GetConnection, Circuit.CreateSendme, Circuit.GetId,
        CIRCWINDOW_START, CIRCWINDOW_INCREMENT]
  · intro he hw
    cases d <;> split_ifs <;>
      simp_all [SetQueue_eq, IncStatsBytes_eq, IncDeliverWindow_eq, Circuit.GetQueue,
        GetOppositeDirection, Circuit.GetConnection, Circuit.CreateSendme, Circuit.GetId,
        CIRCWINDOW_START, CIRCWINDOW_INCREMENT] <;> omega
  · intro he
    cases d <;> split_ifs <;>
      simp_all [SetQueue_eq, IncStatsBytes_eq, IncDeliverWindow_eq, Circuit.GetQueue,
        GetOppositeDirection, Circuit.GetConnection, Circuit.CreateSendme, Circuit.GetId,
        CIRCWINDOW_START, CIRCWINDOW_INCREMENT]

/-- Embedding of `PushCell` changes nothing of a connection but its blocked flag and its read event. -/
theorem PushCell_conns (st st' : TorApp) (c : Nat) (cell : Option Packet)
    (d : CellDirection) (h : PushCell st c cell d = some st') (k : Nat) :
    st'.conns k =
      { st.conns k with
        reading_blocked := (st'.conns k).reading_blocked
        read_event := (st'.conns k).read_event } := by
  unfold PushCell at h
  cases cell with
  | none => simp at h; rw [← h]
  | some pkt =>
    simp only at h
    split_ifs at h <;> first
      | (simp only [Option.some.injEq] at h; subst h
         simp [modConn_conns, SetBlocked_eq, ScheduleRead_eq] <;> split_ifs <;> simp_all)
      | (split at h
         · simp at h
         · simp only [Option.some.injEq] at h; subst h
           simp [modConn_conns, SetBlocked_eq, ScheduleRead_eq] <;> split_ifs <;> simp_all)

/-- What `PushCell` leaves alone in its own circuit. -/
theorem PushCell_circ_frame (st st' : TorApp) (c : Nat) (cell : Option Packet)
    (d : CellDirection) (h : PushCell st c cell d = some st') :
    (st'.circs c).circ_id = (st.circs c).circ_id ∧
    (st'.circs c).p_conn = (st.circs c).p_conn ∧
    (st'.circs c).n_conn = (st.circs c).n_conn ∧
    (st'.circs c).next_active_on_n_conn = (st.circs c).next_active_on_n_conn ∧
    (st'.circs c).next_active_on_p_conn = (st.circs c).next_active_on_p_conn ∧
    (st'.circs c).deliver_window = (st.circs c).deliver_window ∧
    (st'.circs c).GetQueue (GetOppositeDirection d)
      = (st.circs c).GetQueue (GetOppositeDirection d) := by
  unfold PushCell at h
  cases cell with
  | none => simp at h; rw [← h]; simp
  | some pkt =>
    simp only at h
    split_ifs at h <;> first
      | (simp only [Option.some.injEq] at h; subst h
         cases d <;>
           simp [SetQueue_eq, IncStatsBytes_eq, IncPackageWindow_eq, Circuit.GetQueue,
             GetOppositeDirection])
      | (split at h
         · simp at h
         · simp only [Option.some.injEq] at h; subst h
           cases d <;>
             simp [SetQueue_eq, IncStatsBytes_eq, IncPackageWindow_eq, Circuit.GetQueue,
               GetOppositeDirection])

/-- The package window after a `PushCell`: unchanged, or decremented for a cell packaged from an
edge connection, and then possibly topped up by a SENDME. -/
theorem PushCell_package (st st' : TorApp) (c : Nat) (cell : Option Packet)
    (d : CellDirection) (h : PushCell st c cell d = some st') :
    (st'.circs c).package_window = (st.circs c).package_window ∨
    (st'.circs c).package_window = min ((st.circs c).package_window + 100) 1000 ∨
    (cell.isSome ∧
      (st.conns ((st.circs c).GetOppositeConnection d)).conn_type = EDGE_CONN ∧
      ((st'.circs c).package_window = (st.circs c).package_window - 1 ∨
       (st'.circs c).package_window = min ((st.circs c).package_window - 1 + 100) 1000)) := by
  unfold PushCell at h
  cases cell with
  | none => simp at h; rw [← h]; simp
  | some pkt =>
    simp only at h
    split_ifs at h <;> first
      | (simp only [Option.some.injEq] at h; subst h
         simp_all [SetQueue_eq, IncStatsBytes_eq, IncPackageWindow_eq])
      | (split at h
         · simp at h
         · simp only [Option.some.injEq] at h; subst h
           simp_all [SetQueue_eq, IncStatsBytes_eq, IncPackageWindow_eq])

/-! ## Windows -/

/-- Embedding of `PopCell` on an empty queue returns null and leaves the circuit as it is. -/
theorem PopCell_nil (st : TorApp) (c : Nat) (d : CellDirection)
    (hq : (st.circs c).GetQueue d = []) :
    (PopCell st c d).1 = none ∧ (PopCell st c d).2.circs c = st.circs c := by
  unfold PopCell
  simp only [hq, PopQueue, modCirc_circs_same]
  refine ⟨trivial, ?_⟩
  cases d <;> (cases hx : st.circs c; simp_all [SetQueue_eq, Circuit.GetQueue])

/-- The deliver window after any `PopCell`, seen from any circuit. -/
theorem PopCell_deliver_cases (st : TorApp) (c : Nat) (d : CellDirection) (c' : Nat) :
    ((PopCell st c d).2.circs c').deliver_window = (st.circs c').deliver_window ∨
    (900 < (st.circs c').deliver_window - 1 ∧
      ((PopCell st c d).2.circs c').deliver_window = (st.circs c').deliver_window - 1) ∨
    ((st.circs c').deliver_window - 1 ≤ 900 ∧
      ((PopCell st c d).2.circs c').deliver_window
        = min ((st.circs c').deliver_window - 1 + 100) 1000) := by
  by_cases hc : c' = c
  · subst hc
    cases hq : (st.circs c').GetQueue d with
    | nil => left; rw [(PopCell_nil st c' d hq).2]
    | cons cell rest =>
      obtain ⟨_, h1, h2, h3⟩ := PopCell_deliver st c' d cell rest hq
      by_cases he : (st.conns ((st.circs c').GetConnection d)).conn_type = EDGE_CONN
      · by_cases hw : (st.circs c').deliver_window - 1 ≤ 900
        · right; right; exact ⟨hw, (h1 he hw).1⟩
        · right; left; exact ⟨by omega, (h2 he hw).1⟩
      · left; exact (h3 he).1
  · left; rw [PopCell_other_circ st c d c' hc]

/-- The package window is not touched by `PopCell`. -/
theorem PopCell_package (st : TorApp) (c : Nat) (d : CellDirection) (c' : Nat) :
    ((PopCell st c d).2.circs c').package_window = (st.circs c').package_window := by
  by_cases hc : c' = c
  · subst hc; exact (PopCell_circ_frame st c' d).2.2.2.2.2.1
  · rw [PopCell_other_circ st c d c' hc]

/-- The deliver window is not touched by `PushCell`. -/
theorem PushCell_deliver (st st' : TorApp) (c : Nat) (cell : Option Packet)
    (d : CellDirection) (h : PushCell st c cell d = some st') (c' : Nat) :
    (st'.circs c').deliver_window = (st.circs c').deliver_window := by
  by_cases hc : c' = c
  · subst hc; exact (PushCell_circ_frame st st' c' cell d h).2.2.2.2.2.1
  · rw [PushCell_other_circ st st' c cell d h c' hc]

/-- A call that respects the package window keeps it non-negative. -/
theorem runOp_package_nonneg (c : Nat) (st st' : TorApp) (op : CircOp)
    (h : runOp st op = some st') (hg : respectsWindow st c op = true)
    (hp : 0 ≤ (st.circs c).package_window) : 0 ≤ (st'.circs c).package_window := by
  cases op with
  | push c1 cell d =>
    simp only [runOp] at h
    by_cases hc : c = c1
    · subst hc
      rcases PushCell_package st st' c cell d h with h1 | h1 | ⟨hs, he, h1⟩
      · rw [h1]; exact hp
      · rw [h1]; omega
      · cases cell with
        | none => simp at hs
        | some pkt =>
          simp only [respectsWindow, he, decide_True, Bool.true_and, Bool.and_true,
            Bool.not_eq_true', decide_eq_false_iff_not, not_le] at hg
          rcases h1 with h1 | h1 <;> rw [h1] <;> omega
    · rw [PushCell_other_circ st st' c1 cell d h c hc]; exact hp
  | pop c1 d =>
    simp only [runOp, Option.some.injEq] at h
    subst h
    rw [PopCell_package]; exact hp

theorem runOps_package_nonneg (c : Nat) :
    ∀ (ops : List CircOp) (st st' : TorApp), runOps ops st = some st' →
      respectsWindowAll c ops st = true →
      0 ≤ (st.circs c).package_window → 0 ≤ (st'.circs c).package_window := by
  intro ops
  induction ops with
  | nil =>
    intro st st' h _ hp
    simp only [runOps, Option.some.injEq] at h
    subst h; exact hp
  | cons op ops ih =>
    intro st st' h hg hp
    simp only [runOps] at h
    cases h1 : runOp st op with
    | none => rw [h1] at h; simp at h
    | some st1 =>
      rw [h1] at h
      simp only [respectsWindowAll, h1, Bool.and_eq_true] at hg
      exact ih st1 st' h hg.2 (runOp_package_nonneg c st st1 op h1 hg.1 hp)

/-- The package window never exceeds 1000 once it is at most 1000. -/
theorem runOp_package_le (c : Nat) (st st' : TorApp) (op : CircOp)
    (h : runOp st op = some st') (hp : (st.circs c).package_window ≤ 1000) :
    (st'.circs c).package_window ≤ 1000 := by
  cases op with
  | push c1 cell d =>
    simp only [runOp] at h
    by_cases hc : c = c1
    · subst hc
      rcases PushCell_package st st' c cell d h with h1 | h1 | ⟨_, _, h1 | h1⟩ <;>
        rw [h1] <;> omega
    · rw [PushCell_other_circ st st' c1 cell d h c hc]; exact hp
  | pop c1 d =>
    simp only [runOp, Option.some.injEq] at h
    subst h
    rw [PopCell_package]; exact hp

theorem runOps_package_le (c : Nat) :
    ∀ (ops : List CircOp) (st st' : TorApp), runOps ops st = some st' →
      (st.circs c).package_window ≤ 1000 → (st'.circs c).package_window ≤ 1000 := by
  intro ops
  induction ops with
  | nil =>
    intro st st' h hp
    simp only [runOps, Option.some.injEq] at h
    subst h; exact hp
  | cons op ops ih =>
    intro st st' h hp
    simp only [runOps] at h
    cases h1 : runOp st op with
    | none => rw [h1] at h; simp at h
    | some st1 =>
      rw [h1] at h
      exact ih st1 st' h (runOp_package_le c st st1 op h1 hp)

/-- The deliver window stays between 901 and 1000. -/
theorem runOp_deliver_range (c : Nat) (st st' : TorApp) (op : CircOp)
    (h : runOp st op = some st')
    (hd : 901 ≤ (st.circs c).deliver_window ∧ (st.circs c).deliver_window ≤ 1000) :
    901 ≤ (st'.circs c).deliver_window ∧ (st'.circs c).deliver_window ≤ 1000 := by
  cases op with
  | push c1 cell d =>
    simp only [runOp] at h
    rw [PushCell_deliver st st' c1 cell d h c]; exact hd
  | pop c1 d =>
    simp only [runOp, Option.some.injEq] at h
    subst h
    rcases PopCell_deliver_cases st c1 d c with h1 | ⟨_, h1⟩ | ⟨_, h1⟩ <;> rw [h1] <;> omega

theorem runOps_deliver_range (c : Nat) :
    ∀ (ops : List CircOp) (st st' : TorApp), runOps ops st = some st' →
      901 ≤ (st.circs c).deliver_window ∧ (st.circs c).deliver_window ≤ 1000 →
      901 ≤ (st'.circs c).deliver_window ∧ (st'.circs c).deliver_window ≤ 1000 := by
  intro ops
  induction ops with
  | nil =>
    intro st st' h hd
    simp only [runOps, Option.some.injEq] at h
    subst h; exact hd
  | cons op ops ih =>
    intro st st' h hd
    simp only [runOps] at h
    cases h1 : runOp st op with
    | none => rw [h1] at h; simp at h
    | some st1 =>
      rw [h1] at h
      exact ih st1 st' h (runOp_deliver_range c st st1 op h1 hd)

/-! ## Packaged cells and SENDME receipt -/

/-- One packaged cell: `PushCell` of a cell read from an edge connection (the opposite
connection) toward an OR connection. -/
theorem PushCell_packaged (st : TorApp) (c : Nat) (pkt : Packet) (d : CellDirection)
    (hopp : (st.conns ((st.circs c).GetOppositeConnection d)).conn_type = EDGE_CONN)
    (hconn : (st.conns ((st.circs c).GetConnection d)).conn_type = OR_CONN) :
    ∃ st', PushCell st c (some pkt) d = some st' ∧
      (st'.circs c).package_window = (st.circs c).package_window - 1 ∧
      (st'.conns ((st.circs c).GetOppositeConnection d)).reading_blocked =
        ((st.conns ((st.circs c).GetOppositeConnection d)).reading_blocked
          || decide ((st.circs c).package_window - 1 ≤ 0)) ∧
      (st'.circs c).GetQueue d = (st.circs c).GetQueue d ++ [pkt] := by
  have hne : (st.conns ((st.circs c).GetOppositeConnection d)).conn_type ≠ OR_CONN := by
    rw [hopp]; decide
  have hk : (st.circs c).GetConnection d ≠ (st.circs c).GetOppositeConnection d := by
    intro h; rw [h] at hconn; exact hne hconn
  simp only [PushCell, hopp, if_true, modCirc_circs_same]
  by_cases hz : (st.circs c).package_window - 1 ≤ 0
  · simp only [hz, if_true, modConn_conns, hk, if_false, modCirc_conns, hconn, or_ne_edge]
    refine ⟨_, rfl, ?_, ?_, ?_⟩
    · simp [IncStatsBytes_eq, SetQueue_eq]
    · simp [SetBlocked_eq]
    · cases d <;> simp [IncStatsBytes_eq, SetQueue_eq, Circuit.GetQueue]
  · simp only [hz, if_false, modCirc_conns, hconn, or_ne_edge]
    refine ⟨_, rfl, ?_, ?_, ?_⟩
    · simp [IncStatsBytes_eq, SetQueue_eq]
    · simp [hz]
    · cases d <;> simp [IncStatsBytes_eq, SetQueue_eq, Circuit.GetQueue]

/-- A cell read from an edge connection, other than a SENDME heading into an edge connection:
the window falls by one and the edge connection is blocked once the window is exhausted. -/
theorem PushCell_packaging (st st' : TorApp) (c : Nat) (pkt : Packet) (d : CellDirection)
    (hopp : (st.conns ((st.circs c).GetOppositeConnection d)).conn_type = EDGE_CONN)
    (hns : ¬ ((st.conns ((st.circs c).GetConnection d)).conn_type = EDGE_CONN
      ∧ IsSendme (some pkt) = true))
    (h : PushCell st c (some pkt) d = some st') :
    (st'.circs c).package_window = (st.circs c).package_window - 1 ∧
    (st'.conns ((st.circs c).GetOppositeConnection d)).reading_blocked =
      ((st.conns ((st.circs c).GetOppositeConnection d)).reading_blocked
        || decide ((st.circs c).package_window - 1 ≤ 0)) := by
  unfold PushCell at h
  simp only [hopp, if_true, modCirc_circs_same] at h
  by_cases hz : (st.circs c).package_window - 1 ≤ 0
  · simp only [hz, if_true, modConn_conns, modCirc_conns] at h
    split_ifs at h <;> first
      | (simp only [Option.some.injEq] at h; subst h
         simp_all [SetQueue_eq, IncStatsBytes_eq, SetBlocked_eq, modConn_conns])
      | (split at h
         · simp at h
         · simp only [Option.some.injEq] at h; subst h
           simp_all [SetQueue_eq, IncStatsBytes_eq, SetBlocked_eq, modConn_conns])
  · simp only [hz, if_false, modCirc_conns] at h
    split_ifs at h <;> first
      | (simp only [Option.some.injEq] at h; subst h
         simp_all [SetQueue_eq, IncStatsBytes_eq, SetBlocked_eq, modConn_conns])
      | (split at h
         · simp at h
         · simp only [Option.some.injEq] at h; subst h
           simp_all [SetQueue_eq, IncStatsBytes_eq, SetBlocked_eq, modConn_conns])

/-- `PushCell` completes unless it has to strip the header from a cell that is too short. -/
theorem PushCell_completes (st : TorApp) (c : Nat) (pkt : Packet) (d : CellDirection)
    (hlen : (st.conns ((st.circs c).GetConnection d)).conn_type ≠ EDGE_CONN
      ∨ CELL_HEADER_SIZE ≤ pkt.length) :
    ∃ st', PushCell st c (some pkt) d = some st' := by
  unfold PushCell
  simp only
  split_ifs <;> first
    | exact ⟨_, rfl⟩
    | (simp_all [modConn_conns, SetBlocked_eq, RemoveHeader]; split_ifs at * <;> simp_all <;> omega)

theorem GetConnection_congr (x y : Circuit) (d : CellDirection) (hp : y.p_conn = x.p_conn)
    (hn : y.n_conn = x.n_conn) : y.GetConnection d = x.GetConnection d := by
  simp [Circuit.GetConnection, hp, hn]

theorem GetOppositeConnection_congr (x y : Circuit) (d : CellDirection)
    (hp : y.p_conn = x.p_conn) (hn : y.n_conn = x.n_conn) :
    y.GetOppositeConnection d = x.GetOppositeConnection d := by
  simp [Circuit.GetOppositeConnection, hp, hn]

theorem PushCell_conn_type (st st' : TorApp) (c : Nat) (cell : Option Packet)
    (d : CellDirection) (h : PushCell st c cell d = some st') (k : Nat) :
    (st'.conns k).conn_type = (st.conns k).conn_type := by
  rw [PushCell_conns st st' c cell d h k]

/-- A run of packaged cells: the window falls by one per cell and the edge connection is blocked
as soon as the window is exhausted. -/
theorem runOps_packaged (c : Nat) (d : CellDirection) :
    ∀ (cells : List Packet) (st : TorApp),
      (st.conns ((st.circs c).GetOppositeConnection d)).conn_type = EDGE_CONN →
      (st.conns ((st.circs c).GetConnection d)).conn_type = OR_CONN →
      ∃ st', runOps (cells.map (fun p => CircOp.push c (some p) d)) st = some st' ∧
        (st'.circs c).package_window = (st.circs c).package_window - cells.length ∧
        (st'.conns ((st.circs c).GetOppositeConnection d)).reading_blocked =
          ((st.conns ((st.circs c).GetOppositeConnection d)).reading_blocked
            || decide (cells ≠ [] ∧ (st.circs c).package_window - cells.length ≤ 0)) := by
  intro cells
  induction cells with
  | nil => intro st _ _; exact ⟨st, rfl, by simp, by simp⟩
  | cons p ps ih =>
    intro st hopp hconn
    obtain ⟨st1, h1, hpw, hbl, _⟩ := PushCell_packaged st c p d hopp hconn
    obtain ⟨_, hpc, hnc, _⟩ := PushCell_circ_frame st st1 c (some p) d h1
    have e1 := GetConnection_congr (st.circs c) (st1.circs c) d hpc hnc
    have e2 := GetOppositeConnection_congr (st.circs c) (st1.circs c) d hpc hnc
    have hopp1 : (st1.conns ((st1.circs c).GetOppositeConnection d)).conn_type = EDGE_CONN := by
      rw [e2, PushCell_conn_type st st1 c (some p) d h1]; exact hopp
    have hconn1 : (st1.conns ((st1.circs c).GetConnection d)).conn_type = OR_CONN := by
      rw [e1, PushCell_conn_type st st1 c (some p) d h1]; exact hconn
    obtain ⟨st2, h2, hpw2, hbl2⟩ := ih st1 hopp1 hconn1
    refine ⟨st2, ?_, ?_, ?_⟩
    · simp only [List.map_cons, runOps, runOp, h1]; exact h2
    · rw [hpw2, hpw]; simp only [List.length_cons]; push_cast; ring
    · rw [e2] at hbl2
      rw [hbl2, hbl, hpw]
      simp only [List.length_cons]
      push_cast
      cases hb : (st.conns ((st.circs c).GetOppositeConnection d)).reading_blocked <;>
        simp
      by_cases hps : ps = []
      · subst hps; simp
      · have : 0 < (ps.length : Int) := by
          have := List.length_pos.mpr hps
          omega
        simp [hps]
        intro h; omega

/-- A SENDME pushed toward a blocked edge connection: the window is topped up (after the
decrement, if the opposite connection is an edge connection too), the edge connection is
unblocked and `ScheduleRead` is called on it; the opposite connection is only ever blocked. -/
theorem PushCell_sendme_blocked (st : TorApp) (c : Nat) (pkt : Packet) (d : CellDirection)
    (hconn : (st.conns ((st.circs c).GetConnection d)).conn_type = EDGE_CONN)
    (hb : (st.conns ((st.circs c).GetConnection d)).reading_blocked = true)
    (hs : IsSendme (some pkt) = true) :
    ∃ st', PushCell st c (some pkt) d = some st' ∧
      st'.conns ((st.circs c).GetConnection d)
        = ((st.conns ((st.circs c).GetConnection d)).SetBlocked false).ScheduleRead 0 ∧
      ((st.conns ((st.circs c).GetOppositeConnection d)).conn_type ≠ EDGE_CONN →
        (st'.circs c).package_window = min ((st.circs c).package_window + 100) 1000) ∧
      ((st.circs c).GetOppositeConnection d ≠ (st.circs c).GetConnection d →
        (st'.conns ((st.circs c).GetOppositeConnection d)).reading_blocked =
          ((st.conns ((st.circs c).GetOppositeConnection d)).reading_blocked
            || (decide ((st.conns ((st.circs c).GetOppositeConnection d)).conn_type = EDGE_CONN)
                && decide ((st.circs c).package_window - 1 ≤ 0))) ∧
        (st'.conns ((st.circs c).GetOppositeConnection d)).read_event =
          (st.conns ((st.circs c).GetOppositeConnection d)).read_event) := by
  by_cases hopp : (st.conns ((st.circs c).GetOppositeConnection d)).conn_type = EDGE_CONN
  · by_cases hz : (st.circs c).package_window - 1 ≤ 0
    · by_cases hk : (st.circs c).GetConnection d = (st.circs c).GetOppositeConnection d
      · simp only [PushCell, hopp, if_true, modCirc_circs_same, hz, modConn_conns, hk,
          modCirc_conns, hs, SetBlocked_eq]
        refine ⟨_, rfl, ?_, ?_, ?_⟩
        · simp [modConn_conns, ScheduleRead_eq, SetBlocked_eq, hconn, hopp]
        · intro h; exact absurd rfl h
        · intro h; exact absurd rfl h
      · simp only [PushCell, hopp, if_true, modCirc_circs_same, hz, modConn_conns, hk,
          modCirc_conns, hs, SetBlocked_eq, hconn, hb, if_false]
        refine ⟨_, rfl, ?_, ?_, ?_⟩
        · simp [modConn_conns, ScheduleRead_eq, SetBlocked_eq, hk, hconn]
        · intro h; exact absurd rfl h
        · intro h
          simp [modConn_conns, ScheduleRead_eq, SetBlocked_eq, h]
    · simp only [PushCell, hopp, if_true, modCirc_circs_same, hz, modConn_conns,
          modCirc_conns, hs, SetBlocked_eq, hconn, hb, if_false]
      refine ⟨_, rfl, ?_, ?_, ?_⟩
      · simp [modConn_conns, ScheduleRead_eq, SetBlocked_eq, hconn, hopp]
      · intro h; exact absurd rfl h
      · intro h
        simp [modConn_conns, ScheduleRead_eq, SetBlocked_eq, h, hz]
  · simp only [PushCell, hopp, if_false, modCirc_circs_same, modConn_conns,
          modCirc_conns, hs, SetBlocked_eq, hconn, hb, if_true]
    refine ⟨_, rfl, ?_, ?_, ?_⟩
    · simp [modConn_conns, ScheduleRead_eq, SetBlocked_eq, hconn, hopp]
    · intro _; simp [IncPackageWindow_eq]
    · intro h
      simp [modConn_conns, ScheduleRead_eq, SetBlocked_eq, h, hopp]

/-! ## Deliveries -/

theorem CreateSendme_congr (x y : Circuit) (h : y.circ_id = x.circ_id) :
    y.CreateSendme = x.CreateSendme := by
  simp [Circuit.CreateSendme, Circuit.GetId, h]

theorem PopCell_conn_type (st : TorApp) (c : Nat) (d : CellDirection) (k : Nat) :
    ((PopCell st c d).2.conns k).conn_type = (st.conns k).conn_type := by
  rw [PopCell_conns st c d k]

/-- Embedding of `n` successive pops toward an edge connection, starting with `r` cells already delivered
since the last SENDME. -/
theorem runOps_pops (c : Nat) (d : CellDirection) :
    ∀ (n r : Nat) (st : TorApp),
      (st.conns ((st.circs c).GetConnection d)).conn_type = EDGE_CONN →
      r < 100 → (st.circs c).deliver_window = 1000 - (r : Int) →
      n ≤ ((st.circs c).GetQueue d).length →
      ∃ st', runOps (List.replicate n (CircOp.pop c d)) st = some st' ∧
        (st'.circs c).GetQueue (GetOppositeDirection d)
          = (st.circs c).GetQueue (GetOppositeDirection d)
            ++ List.replicate ((r + n) / 100) (st.circs c).CreateSendme ∧
        (st'.circs c).deliver_window = 1000 - (((r + n) % 100 : Nat) : Int) ∧
        (st'.circs c).GetQueue d = ((st.circs c).GetQueue d).drop n := by
  intro n
  induction n with
  | zero =>
    intro r st _ hr hd _
    refine ⟨st, rfl, ?_, ?_, rfl⟩
    · have : r / 100 = 0 := by omega
      simp [this]
    · have : r % 100 = r := by omega
      simp [this, hd]
  | succ n ih =>
    intro r st hconn hr hd hn
    cases hq : (st.circs c).GetQueue d with
    | nil => rw [hq] at hn; simp at hn
    | cons cell rest =>
      obtain ⟨_, h1, h2, _⟩ := PopCell_deliver st c d cell rest hq
      obtain ⟨hid, hpc, hnc, _, _, _, htl⟩ := PopCell_circ_frame st c d
      have hconn1 : ((PopCell st c d).2.conns
          (((PopCell st c d).2.circs c).GetConnection d)).conn_type = EDGE_CONN := by
        rw [GetConnection_congr _ _ d hpc hnc, PopCell_conn_type]; exact hconn
      have hlen : n ≤ (((PopCell st c d).2.circs c).GetQueue d).length := by
        rw [htl, hq]; rw [hq] at hn; simpa using hn
      have hsm := CreateSendme_congr _ _ hid
      by_cases hw : r = 99
      · subst hw
        obtain ⟨hdw, hoq⟩ := h1 hconn (by omega)
        obtain ⟨st', hrun, ho, hd', hq'⟩ := ih 0 (PopCell st c d).2 hconn1 (by omega)
          (by rw [hdw, hd]; simp) hlen
        refine ⟨st', ?_, ?_, ?_, ?_⟩
        · simp only [List.replicate_succ, runOps, runOp]; exact hrun
        · rw [ho, hoq, hsm, List.append_assoc]
          congr 1
          have : (99 + (n + 1)) / 100 = (0 + n) / 100 + 1 := by omega
          rw [this, List.replicate_succ]; rfl
        · rw [hd']
          have : (99 + (n + 1)) % 100 = (0 + n) % 100 := by omega
          rw [this]
        · rw [hq', htl, hq]; simp
      · obtain ⟨hdw, hoq⟩ := h2 hconn (by omega)
        obtain ⟨st', hrun, ho, hd', hq'⟩ := ih (r + 1) (PopCell st c d).2 hconn1 (by omega)
          (by rw [hdw, hd]; push_cast; ring) hlen
        refine ⟨st', ?_, ?_, ?_, ?_⟩
        · simp only [List.replicate_succ, runOps, runOp]; exact hrun
        · rw [ho, hoq, hsm]
          have : (r + (n + 1)) = (r + 1 + n) := by omega
          rw [this]
        · rw [hd']
          have : (r + (n + 1)) = (r + 1 + n) := by omega
          rw [this]
        · rw [hq', htl, hq]; simp

/-! ## Queue discipline -/

/-- What `PushCell` appends to the queue of its direction. -/
theorem PushCell_queue (st st' : TorApp) (c : Nat) (pkt : Packet) (d : CellDirection)
    (h : PushCell st c (some pkt) d = some st') :
    (st'.circs c).GetQueue d = (st.circs c).GetQueue d ++ enqueuedBy st c d (.push c (some pkt) d)
    := by
  unfold PushCell at h
  simp only [enqueuedBy, and_self, if_true]
  simp only at h
  split_ifs at h <;> first
    | (simp only [Option.some.injEq] at h; subst h
       cases d <;>
         simp_all [SetQueue_eq, IncStatsBytes_eq, IncPackageWindow_eq, Circuit.GetQueue,
           modConn_conns, SetBlocked_eq, Circuit.GetConnection,
           Circuit.GetOppositeConnection] <;>
         split_ifs at * <;> simp_all)
    | (split at h
       · simp at h
       · simp only [Option.some.injEq] at h; subst h
         cases d <;>
           simp_all [SetQueue_eq, IncStatsBytes_eq, IncPackageWindow_eq, Circuit.GetQueue,
             modConn_conns, SetBlocked_eq, Circuit.GetConnection,
             Circuit.GetOppositeConnection] <;>
           split_ifs at * <;> simp_all)

theorem opposite_of_ne (d d1 : CellDirection) (h : d1 ≠ d) : GetOppositeDirection d1 = d := by
  cases d <;> cases d1 <;> simp_all [GetOppositeDirection]

theorem opposite_ne (d : CellDirection) : GetOppositeDirection d ≠ d := by
  cases d <;> simp [GetOppositeDirection]

/-- One call keeps the queue `(c, d)` first-in first-out: what it returns from the queue comes
off the head, what it pushes goes to the tail, and nothing else changes. -/
theorem runOp_fifo (c : Nat) (d : CellDirection) (st st' : TorApp) (op : CircOp)
    (h : runOp st op = some st') :
    dequeuedBy st c d op ++ (st'.circs c).GetQueue d
      = (st.circs c).GetQueue d ++ enqueuedBy st c d op := by
  cases op with
  | push c1 cell d1 =>
    simp only [runOp] at h
    cases cell with
    | none =>
      simp only [PushCell, Option.some.injEq] at h
      subst h; simp [dequeuedBy, enqueuedBy]
    | some pkt =>
      by_cases hc : c1 = c
      · subst hc
        by_cases hd : d1 = d
        · subst hd
          simp only [dequeuedBy, List.nil_append]
          exact PushCell_queue st st' c1 pkt d1 h
        · have hq := (PushCell_circ_frame st st' c1 (some pkt) d1 h).2.2.2.2.2.2
          rw [opposite_of_ne d d1 hd] at hq
          simp [dequeuedBy, enqueuedBy, hd, hq]
      · have hc' : c ≠ c1 := fun e => hc e.symm
        rw [PushCell_other_circ st st' c1 (some pkt) d1 h c hc']
        simp [dequeuedBy, enqueuedBy, hc]
  | pop c1 d1 =>
    simp only [runOp, Option.some.injEq] at h
    subst h
    by_cases hc : c1 = c
    · subst hc
      by_cases hd : d1 = d
      · subst hd
        have htl := (PopCell_circ_frame st c1 d1).2.2.2.2.2.2
        simp only [dequeuedBy, enqueuedBy, and_self, if_true, opposite_ne, false_and, and_false,
          if_false, List.append_nil]
        rw [htl, PopCell_fst]
        cases (st.circs c1).GetQueue d1 <;> simp
      · have ho := opposite_of_ne d d1 hd
        simp only [dequeuedBy, hd, and_false, if_false, List.nil_append, enqueuedBy, ho,
          true_and, CIRCWINDOW_START, CIRCWINDOW_INCREMENT]
        cases hq : (st.circs c1).GetQueue d1 with
        | nil =>
          rw [(PopCell_nil st c1 d1 hq).2]; simp
        | cons cell rest =>
          obtain ⟨_, h1, h2, h3⟩ := PopCell_deliver st c1 d1 cell rest hq
          rw [ho] at h1 h2 h3
          by_cases he : (st.conns ((st.circs c1).GetConnection d1)).conn_type = EDGE_CONN
          · by_cases hw : (st.circs c1).deliver_window - 1 ≤ 900
            · rw [(h1 he hw).2]
              have hw' : (st.circs c1).deliver_window ≤ 901 := by omega
              simp [he, hw']
            · rw [(h2 he hw).2]
              have hw' : 901 < (st.circs c1).deliver_window := by omega
              simp [he, hw']
          · rw [(h3 he).2]; simp [he]
    · have hc' : c ≠ c1 := fun e => hc e.symm
      rw [PopCell_other_circ st c1 d1 c hc']
      simp [dequeuedBy, enqueuedBy, hc]

/-- A run keeps every queue first-in first-out. -/
theorem runOps_fifo (c : Nat) (d : CellDirection) :
    ∀ (ops : List CircOp) (st st' : TorApp), runOps ops st = some st' →
      dequeuedAll c d ops st ++ (st'.circs c).GetQueue d
        = (st.circs c).GetQueue d ++ enqueuedAll c d ops st := by
  intro ops
  induction ops with
  | nil =>
    intro st st' h
    simp only [runOps, Option.some.injEq] at h
    subst h; simp [dequeuedAll, enqueuedAll]
  | cons op ops ih =>
    intro st st' h
    simp only [runOps] at h
    cases h1 : runOp st op with
    | none => rw [h1] at h; simp at h
    | some st1 =>
      rw [h1] at h
      have e1 := runOp_fifo c d st st1 op h1
      have e2 := ih st1 st' h
      simp only [dequeuedAll, enqueuedAll, h1]
      rw [List.append_assoc, e2, ← List.append_assoc, e1, List.append_assoc]

/-! ## The round-robin budget -/

/-- Truncated rounding to a multiple of `base`, for a non-negative amount. -/
theorem round_nonneg (a base : Int) (ha : 0 ≤ a) (hb : 0 < base) :
    a - Int.tmod a base = a / base * base := by
  rw [Int.tmod_eq_emod ha (le_of_lt hb)]
  have := Int.emod_add_ediv a base
  have h2 : base * (a / base) = a / base * base := mul_comm _ _
  omega

theorem tdiv_nonpos (a b : Int) (ha : a ≤ 0) (hb : 0 ≤ b) : Int.tdiv a b ≤ 0 := by
  have : Int.tdiv a b = -(Int.tdiv (-a) b) := by
    rw [Int.neg_tdiv]; simp
  rw [this]
  have : 0 ≤ Int.tdiv (-a) b := Int.tdiv_nonneg (by omega) hb
  omega

/-- Truncated rounding of a non-positive amount stays non-positive. -/
theorem round_nonpos (a base : Int) (ha : a ≤ 0) (hb : 0 < base) :
    a - Int.tmod a base ≤ 0 := by
  have h1 := Int.tmod_add_tdiv a base
  have h2 : Int.tdiv a base ≤ 0 := tdiv_nonpos a base ha (le_of_lt hb)
  have h3 : base * Int.tdiv a base ≤ 0 := Int.mul_nonpos_of_nonneg_of_nonpos (le_of_lt hb) h2
  omega

theorem clamp_low_high (a lo hi : Int) (h : lo ≤ hi) :
    (if a > hi then hi else if a < lo then lo else a) = min (max a lo) hi := by
  simp only [max_def, min_def]; split_ifs <;> omega

theorem clamp_bucket (x b : Int) : (if x > b then b else x) = min x b := by
  simp only [min_def]; split_ifs <;> omega

theorem to_uint32 (m : Int) (h : m < 4294967296) :
    (if m < 0 then 0 else m % 4294967296) = max m 0 := by
  simp only [max_def]
  split_ifs <;> omega

/-- The budget computed by `RoundRobin` is the budget of the specification as long as
`32 * base` is below 2^32. -/
theorem RoundRobin_eq_spec (base bucket : Int) (hb : 0 < base) (hh : base < 134217728) :
    RoundRobin base bucket = RoundRobinSpec base bucket := by
  unfold RoundRobin RoundRobinSpec
  have eh : (32 * base) % 4294967296 = 32 * base := Int.emod_eq_of_lt (by omega) (by omega)
  have el : (4 * base) % 4294967296 = 4 * base := Int.emod_eq_of_lt (by omega) (by omega)
  simp only [eh, el]
  rw [clamp_low_high _ _ _ (by omega), clamp_bucket, to_uint32]
  · congr 2
    by_cases hneg : bucket < 0
    · have hr := round_nonpos (Int.tdiv bucket 8) base
        (tdiv_nonpos bucket 8 (by omega) (by omega)) hb
      have ha : bucket / 8 / base * base ≤ bucket / 8 := Int.ediv_mul_le _ (by omega)
      rw [max_eq_right (by omega), max_eq_right (by omega)]
    · have h8 : Int.tdiv bucket 8 = bucket / 8 := Int.tdiv_eq_ediv (by omega) (by omega)
      rw [h8, round_nonneg (bucket / 8) base (by omega) hb]
  · have : min (min (max (Int.tdiv bucket 8 - Int.tmod (Int.tdiv bucket 8) base) (4 * base))
        (32 * base)) bucket ≤ 32 * base := le_trans (min_le_left _ _) (min_le_right _ _)
    omega

/-- Rounding a non-negative amount down to a multiple of `base` stays between 0 and it. -/
theorem round_le (a base : Int) (ha : 0 ≤ a) (hb : 0 < base) :
    0 ≤ a - Int.tmod a base ∧ a - Int.tmod a base ≤ a := by
  rw [Int.tmod_eq_emod ha (le_of_lt hb)]
  have h1 := Int.emod_nonneg a (ne_of_gt hb)
  have h2 := Int.emod_lt_of_pos a hb
  have := Int.emod_add_ediv a base
  have h3 : 0 ≤ base * (a / base) := mul_nonneg (le_of_lt hb) (Int.ediv_nonneg ha (le_of_lt hb))
  omega

/-- The last clamp of `RoundRobin` keeps the budget within a non-negative bucket. -/
theorem RoundRobin_le_bucket (base bucket : Int) (h : 0 ≤ bucket) :
    RoundRobin base bucket ≤ bucket := by
  unfold RoundRobin
  simp only
  split_ifs <;> omega

/-- With nothing in the bucket the budget is 0. -/
theorem RoundRobin_empty (base bucket : Int) (hb : 0 < base) (h : bucket ≤ 0) :
    RoundRobin base bucket = 0 := by
  unfold RoundRobin
  have h1 : Int.tdiv bucket 8 ≤ 0 := tdiv_nonpos bucket 8 h (by omega)
  have h2 := round_nonpos (Int.tdiv bucket 8) base h1 hb
  generalize Int.tdiv bucket 8 - Int.tmod (Int.tdiv bucket 8) base = r at h2
  simp only
  split_ifs <;> omega

theorem RoundRobin_le_high (base bucket : Int) (hb : 0 < base) :
    RoundRobin base bucket ≤ 32 * base := by
  unfold RoundRobin
  simp only
  split_ifs <;> omega

/-- With at least four cells in the bucket the budget is a whole number of cells, between 4
and 32. -/
theorem RoundRobin_cells (base bucket : Int) (hb : 0 < base) (hh : base < 134217728)
    (h4 : 4 * base ≤ bucket) :
    ∃ k : Int, 4 ≤ k ∧ k ≤ 32 ∧ RoundRobin base bucket = k * base := by
  rw [RoundRobin_eq_spec base bucket hb hh]
  unfold RoundRobinSpec
  simp only
  have hq : bucket / 8 / base * base ≤ bucket / 8 := Int.ediv_mul_le _ (ne_of_gt hb)
  generalize bucket / 8 / base = q at hq
  refine ⟨min (max q 4) 32, le_min (le_max_right _ _) (by norm_num), min_le_right _ _, ?_⟩
  rcases le_total q 4 with h | h
  · have e1 : q * base ≤ 4 * base := mul_le_mul_of_nonneg_right h (le_of_lt hb)
    rw [max_eq_right e1, max_eq_right h]
    rw [min_eq_left (by omega : 4 * base ≤ 32 * base), min_eq_left h4, max_eq_left (by omega)]
    rw [min_eq_left (by norm_num : (4 : Int) ≤ 32)]
  · have e1 : 4 * base ≤ q * base := mul_le_mul_of_nonneg_right h (le_of_lt hb)
    rw [max_eq_left e1, max_eq_left h]
    rcases le_total q 32 with h' | h'
    · have e2 : q * base ≤ 32 * base := mul_le_mul_of_nonneg_right h' (le_of_lt hb)
      rw [min_eq_left e2, min_eq_left h', min_eq_left (by omega), max_eq_left (by omega)]
    · have e2 : 32 * base ≤ q * base := mul_le_mul_of_nonneg_right h' (le_of_lt hb)
      rw [min_eq_right e2, min_eq_right h', min_eq_left (by omega), max_eq_left (by omega)]

/-- A bucket of at least 32 cells gives a budget of at most one eighth of it. -/
theorem RoundRobin_eighth (base bucket : Int) (hb : 0 < base) (h : 32 * base ≤ bucket) :
    RoundRobin base bucket ≤ bucket / 8 := by
  unfold RoundRobin
  have h0 : (0 : Int) ≤ bucket / 8 := by omega
  have e : Int.tdiv bucket 8 = bucket / 8 := Int.tdiv_eq_ediv (by omega) (by omega)
  have h1 := round_le (bucket / 8) base h0 hb
  have l1 : (4 * base) % 4294967296 ≤ 4 * base := by omega
  have l2 : 0 ≤ (4 * base) % 4294967296 := by omega
  have l3 : 0 ≤ (32 * base) % 4294967296 := by omega
  simp only [e]
  generalize bucket / 8 - Int.tmod (bucket / 8) base = r at h1
  generalize (4 * base) % 4294967296 = lo at l1 l2
  generalize (32 * base) % 4294967296 = hi at l3
  have l4 : ∀ x : Int, 0 ≤ x → x % 4294967296 ≤ x := fun x hx => by omega
  have a1 := l4 hi l3
  have a2 := l4 lo l2
  have a3 := l4 r h1.1
  have a4 := l4 bucket (by omega)
  split_ifs <;> omega

/-- A non-negative bucket of less than 32 cells gives the 4-cell minimum, or the whole bucket
when it holds less than that. -/
theorem RoundRobin_small (base bucket : Int) (hb : 0 < base) (hh : base < 134217728)
    (h0 : 0 ≤ bucket) (h : bucket < 32 * base) :
    RoundRobin base bucket = min (4 * base) bucket := by
  unfold RoundRobin
  have h0' : (0 : Int) ≤ bucket / 8 := by omega
  have e : Int.tdiv bucket 8 = bucket / 8 := Int.tdiv_eq_ediv (by omega) (by omega)
  have h1 := round_nonneg (bucket / 8) base h0' hb
  have h2 : bucket / 8 / base * base ≤ bucket / 8 := Int.ediv_mul_le _ (ne_of_gt hb)
  have h3 : 0 ≤ bucket / 8 / base * base :=
    mul_nonneg (Int.ediv_nonneg h0' (le_of_lt hb)) (le_of_lt hb)
  simp only [e, h1]
  generalize bucket / 8 / base * base = r at h2 h3
  simp only [min_def]
  split_ifs <;> omega

/-! ## The active-circuit ring -/

theorem GetNextCirc_congr (x y : Circuit) (k : Nat) (hn : y.n_conn = x.n_conn)
    (h1 : y.next_active_on_n_conn = x.next_active_on_n_conn)
    (h2 : y.next_active_on_p_conn = x.next_active_on_p_conn) :
    y.GetNextCirc k = x.GetNextCirc k := by
  simp [Circuit.GetNextCirc, hn, h1, h2]

/-- Embedding of `PopCell` leaves every ring link as it is. -/
theorem PopCell_next (st : TorApp) (c : Nat) (d : CellDirection) (x k : Nat) :
    ((PopCell st c d).2.circs x).GetNextCirc k = (st.circs x).GetNextCirc k := by
  by_cases hc : x = c
  · subst hc
    obtain ⟨_, _, hn, h1, h2, _⟩ := PopCell_circ_frame st x d
    exact GetNextCirc_congr _ _ k hn h1 h2
  · rw [PopCell_other_circ st c d x hc]

theorem PopCell_active (st : TorApp) (c : Nat) (d : CellDirection) (k : Nat) :
    ((PopCell st c d).2.conns k).active_circuits = (st.conns k).active_circuits := by
  rw [PopCell_conns st c d k]

/-- Embedding of `PushCell` leaves every ring link as it is. -/
theorem PushCell_next (st st' : TorApp) (c : Nat) (cell : Option Packet) (d : CellDirection)
    (h : PushCell st c cell d = some st') (x k : Nat) :
    (st'.circs x).GetNextCirc k = (st.circs x).GetNextCirc k := by
  by_cases hc : x = c
  · subst hc
    obtain ⟨_, _, hn, h1, h2, _⟩ := PushCell_circ_frame st st' x cell d h
    exact GetNextCirc_congr _ _ k hn h1 h2
  · rw [PushCell_other_circ st st' c cell d h x hc]

theorem PushCell_active (st st' : TorApp) (c : Nat) (cell : Option Packet) (d : CellDirection)
    (h : PushCell st c cell d = some st') (k : Nat) :
    (st'.conns k).active_circuits = (st.conns k).active_circuits := by
  rw [PushCell_conns st st' c cell d h k]

/-- A `Connection::Write` call that has a result went through `WriteStage`, its un-sent tail
fits `outbuf.data`, and the tail is what `outbuf` holds afterwards. -/
theorem Write_some (fuel : Nat) (Send : List Nat → Int) (st : TorApp) (k max_write : Nat)
    (res : Nat × TorApp × List (Nat × Option Packet))
    (h : Write fuel Send st k max_write = some res) :
    ∃ r, WriteStage fuel Send st k max_write = some r ∧
      r.2.2.1.length - r.1 ≤ CELL_NETWORK_SIZE ∧
      res = (r.1, r.2.1.modConn k (fun x =>
          { x with outbuf := r.2.2.1.drop (r.2.2.1.length - (r.2.2.1.length - r.1)) }),
        r.2.2.2) := by
  unfold Write at h
  cases hs : WriteStage fuel Send st k max_write with
  | none => rw [hs] at h; simp at h
  | some r =>
    rw [hs] at h
    obtain ⟨w, st1, raw, visits⟩ := r
    simp only at h
    split_ifs at h with hfit
    simp only [Option.some.injEq] at h
    exact ⟨_, rfl, hfit, h.symm⟩

/-- When the un-sent tail fits `outbuf.data`, `Connection::Write` saves it and returns. -/
theorem Write_of_stage (fuel : Nat) (Send : List Nat → Int) (st : TorApp) (k max_write : Nat)
    (r : Nat × TorApp × List Nat × List (Nat × Option Packet))
    (hs : WriteStage fuel Send st k max_write = some r)
    (hfit : r.2.2.1.length - r.1 ≤ CELL_NETWORK_SIZE) :
    Write fuel Send st k max_write =
      some (r.1, r.2.1.modConn k (fun x =>
          { x with outbuf := r.2.2.1.drop (r.2.2.1.length - (r.2.2.1.length - r.1)) }),
        r.2.2.2) := by
  unfold Write
  rw [hs]
  obtain ⟨w, st1, raw, visits⟩ := r
  simp only at hfit ⊢
  rw [if_pos hfit]

/-- When the un-sent tail does not fit `outbuf.data`, `Connection::Write` has no result. -/
theorem Write_overflow (fuel : Nat) (Send : List Nat → Int) (st : TorApp) (k max_write : Nat)
    (r : Nat × TorApp × List Nat × List (Nat × Option Packet))
    (hs : WriteStage fuel Send st k max_write = some r)
    (hbig : CELL_NETWORK_SIZE < r.2.2.1.length - r.1) :
    Write fuel Send st k max_write = none := by
  unfold Write
  rw [hs]
  obtain ⟨w, st1, raw, visits⟩ := r
  simp only at hbig ⊢
  rw [if_neg (Nat.not_le.mpr hbig)]

theorem GetDirection_congr (x y : Circuit) (k : Nat) (hn : y.n_conn = x.n_conn) :
    y.GetDirection k = x.GetDirection k := by
  simp [Circuit.GetDirection, hn]

/-- A poll of an empty queue leaves every polled queue as long as it was. -/
theorem queueToward_PopCell_nil (st : TorApp) (k c : Nat) (d : CellDirection)
    (hq : (st.circs c).GetQueue d = []) (x : Nat) :
    queueToward (PopCell st c d).2 k x = queueToward st k x := by
  unfold queueToward
  by_cases hx : x = c
  · subst hx; rw [(PopCell_nil st x d hq).2]
  · rw [PopCell_other_circ st c d x hx]

/-- A poll never lengthens a polled queue. -/
theorem queueToward_PopCell_le (st : TorApp) (k c : Nat) (x : Nat) :
    queueToward (PopCell st c ((st.circs c).GetDirection k)).2 k x ≤ queueToward st k x := by
  unfold queueToward
  by_cases hx : x = c
  · subst hx
    obtain ⟨_, _, hn, _, _, _, htl⟩ := PopCell_circ_frame st x ((st.circs x).GetDirection k)
    rw [GetDirection_congr _ _ k hn, htl]
    simp
  · rw [PopCell_other_circ st c _ x hx]

/-- A poll that returns a cell shortens the polled queue of its circuit by one. -/
theorem queueToward_PopCell_cons (st : TorApp) (k c : Nat) (cell : Packet)
    (rest : List Packet)
    (hq : (st.circs c).GetQueue ((st.circs c).GetDirection k) = cell :: rest) :
    queueToward (PopCell st c ((st.circs c).GetDirection k)).2 k c + 1 = queueToward st k c := by
  unfold queueToward
  obtain ⟨_, _, hn, _, _, _, htl⟩ := PopCell_circ_frame st c ((st.circs c).GetDirection k)
  rw [GetDirection_congr _ _ k hn, htl, hq]
  simp

theorem sum_map_le (cs : List Nat) (f g : Nat → Nat) (h : ∀ x, f x ≤ g x) :
    (cs.map f).sum ≤ (cs.map g).sum := by
  induction cs with
  | nil => simp
  | cons a as ih => simp only [List.map_cons, List.sum_cons]; have := h a; omega

theorem sum_map_lt (cs : List Nat) (f g : Nat → Nat) (h : ∀ x, f x ≤ g x) (c : Nat)
    (hc : c ∈ cs) (hlt : f c + 1 ≤ g c) : (cs.map f).sum + 1 ≤ (cs.map g).sum := by
  induction cs with
  | nil => simp at hc
  | cons a as ih =>
    simp only [List.map_cons, List.sum_cons]
    rcases List.mem_cons.mp hc with e | e
    · subst e
      have := sum_map_le as f g h
      omega
    · have := ih e
      have := h a
      omega

theorem getD_mem (cs : List Nat) (i : Nat) (h : i < cs.length) : cs.getD i 0 ∈ cs := by
  rw [List.getD_eq_getElem _ _ h]; exact List.getElem_mem _

/-- The fill loop returns: on a ring, with `r` polls to go until the head is back at the
circuit the call started from, `r + N * (cells queued) (+ N after a pop)` iterations are
enough. -/
theorem WriteFill_returns (k max_write : Nat) (cs : List Nat) (h0 : Nat) :
    ∀ (fuel : Nat) (st : TorApp) (raw : List Nat) (fl : Bool)
      (visits : List (Nat × Option Packet)) (h r : Nat),
      RingAt st k cs h → (h + r) % cs.length = h0 % cs.length → 1 ≤ r → r ≤ cs.length →
      r + cs.length * queuedToward st k cs + (if fl = true then cs.length else 0) < fuel →
      ∃ res, WriteFill k max_write (cs.getD (h0 % cs.length) 0) fuel st raw fl visits
          = some res ∧
        (res.1.conns k).socket = (st.conns k).socket := by
  intro fuel
  induction fuel with
  | zero => intro st raw fl visits h r _ _ _ _ hb; omega
  | succ fuel ih =>
    intro st raw fl visits h r hr hal h1 hN hb
    obtain ⟨hpos, hlink, hhead⟩ := hr
    unfold WriteFill
    by_cases hlt : raw.length < max_write
    · have hi : h % cs.length < cs.length := Nat.mod_lt _ hpos
      have hnext : ((PopCell st (cs.getD (h % cs.length) 0)
            ((st.circs (cs.getD (h % cs.length) 0)).GetDirection k)).2.circs
              (cs.getD (h % cs.length) 0)).GetNextCirc k
            = some (cs.getD ((h + 1) % cs.length) 0) := by
        rw [PopCell_next, hlink _ hi, Nat.mod_add_mod]
      simp only [hlt, if_true, hhead, hnext]
      -- the state after the poll and the advance of the head
      generalize hst2 : ((PopCell st (cs.getD (h % cs.length) 0)
            ((st.circs (cs.getD (h % cs.length) 0)).GetDirection k)).2.modConn k
              (fun x => x.SetActiveCircuits (some (cs.getD ((h + 1) % cs.length) 0)))) = st2
      have hr2 : RingAt st2 k cs (h + 1) := by
        subst hst2
        refine ⟨hpos, fun i hi' => ?_, ?_⟩
        · rw [modConn_circs, PopCell_next]; exact hlink i hi'
        · simp [Connection.SetActiveCircuits]
      have hsock : (st2.conns k).socket = (st.conns k).socket := by
        subst hst2
        rw [modConn_conns_same]
        simp only [Connection.SetActiveCircuits]
        rw [PopCell_conns]
      have hq2 : ∀ x, queueToward st2 k x
          = queueToward (PopCell st (cs.getD (h % cs.length) 0)
              ((st.circs (cs.getD (h % cs.length) 0)).GetDirection k)).2 k x := by
        intro x; subst hst2; rfl
      -- the alignment after one more poll
      have hr' : ∃ r', (h + 1 + r') % cs.length = h0 % cs.length ∧ 1 ≤ r' ∧ r' ≤ cs.length ∧
          (r ≠ 1 → r' = r - 1) := by
        by_cases h1' : r = 1
        · subst h1'
          refine ⟨cs.length, ?_, hpos, le_refl _, fun hne => absurd rfl hne⟩
          rw [Nat.add_mod_right]; exact hal
        · refine ⟨r - 1, ?_, by omega, by omega, fun _ => rfl⟩
          have : h + 1 + (r - 1) = h + r := by omega
          rw [this]; exact hal
      obtain ⟨r', hal', h1', hN', hrr⟩ := hr'
      have hstart : r = 1 → cs.getD ((h + 1) % cs.length) 0 = cs.getD (h0 % cs.length) 0 := by
        intro e; subst e; rw [hal]
      cases hp : (PopCell st (cs.getD (h % cs.length) 0)
            ((st.circs (cs.getD (h % cs.length) 0)).GetDirection k)).1 with
      | none =>
        -- nothing popped: the queues are as long as before
        have hqe : (st.circs (cs.getD (h % cs.length) 0)).GetQueue
            ((st.circs (cs.getD (h % cs.length) 0)).GetDirection k) = [] := by
          rw [PopCell_fst] at hp
          cases hqq : (st.circs (cs.getD (h % cs.length) 0)).GetQueue
            ((st.circs (cs.getD (h % cs.length) 0)).GetDirection k) with
          | nil => rfl
          | cons a as => rw [hqq] at hp; simp at hp
        have hT : queuedToward st2 k cs = queuedToward st k cs := by
          unfold queuedToward
          congr 1
          apply List.map_congr_left
          intro x _
          rw [hq2, queueToward_PopCell_nil st k _ _ hqe]
        simp only []
        by_cases hs : cs.getD ((h + 1) % cs.length) 0 = cs.getD (h0 % cs.length) 0
        · simp only [hs, if_true]
          cases fl with
          | false => exact ⟨_, rfl, hsock⟩
          | true =>
            simp only [Bool.not_true, Bool.false_eq_true, if_false]
            have hs' := hs
            obtain ⟨res, e1, e2⟩ := ih st2 raw false
              (visits ++ [(cs.getD (h % cs.length) 0, none)]) (h + 1) r' hr2 hal' h1' hN'
              (by rw [hT]; simp only [Bool.false_eq_true, if_false] at hb ⊢
                  simp only [if_true] at hb; omega)
            exact ⟨res, e1, by rw [e2, hsock]⟩
        · simp only [hs, if_false]
          have hne : r ≠ 1 := fun e => hs (hstart e)
          obtain ⟨res, e1, e2⟩ := ih st2 raw fl
            (visits ++ [(cs.getD (h % cs.length) 0, none)]) (h + 1) r' hr2 hal' h1' hN'
            (by rw [hT, hrr hne]; omega)
          exact ⟨res, e1, by rw [e2, hsock]⟩
      | some cell =>
        have hqe : ∃ rest, (st.circs (cs.getD (h % cs.length) 0)).GetQueue
            ((st.circs (cs.getD (h % cs.length) 0)).GetDirection k) = cell :: rest := by
          rw [PopCell_fst] at hp
          cases hqq : (st.circs (cs.getD (h % cs.length) 0)).GetQueue
            ((st.circs (cs.getD (h % cs.length) 0)).GetDirection k) with
          | nil => rw [hqq] at hp; simp at hp
          | cons a as => rw [hqq] at hp; simp at hp; exact ⟨as, by rw [hp]⟩
        obtain ⟨rest, hqe⟩ := hqe
        have hT : queuedToward st2 k cs + 1 ≤ queuedToward st k cs := by
          unfold queuedToward
          apply sum_map_lt cs _ _ _ (cs.getD (h % cs.length) 0) (getD_mem cs _ hi)
          · rw [hq2, queueToward_PopCell_cons st k _ cell rest hqe]
          · intro x; rw [hq2]; exact queueToward_PopCell_le st k _ x
        have hmul : cs.length * queuedToward st2 k cs + cs.length
            ≤ cs.length * queuedToward st k cs := by
          calc cs.length * queuedToward st2 k cs + cs.length
              = cs.length * (queuedToward st2 k cs + 1) := by ring
            _ ≤ cs.length * queuedToward st k cs := Nat.mul_le_mul_left _ hT
        simp only []
        by_cases hs : cs.getD ((h + 1) % cs.length) 0 = cs.getD (h0 % cs.length) 0
        · simp only [hs, if_true, Bool.not_true, Bool.false_eq_true, if_false]
          obtain ⟨res, e1, e2⟩ := ih st2 (raw ++ cell) false
            (visits ++ [(cs.getD (h % cs.length) 0, some cell)]) (h + 1) r' hr2 hal' h1' hN'
            (by simp only [Bool.false_eq_true, if_false]
                have : 0 ≤ (if fl = true then cs.length else 0) := Nat.zero_le _
                omega)
          exact ⟨res, e1, by rw [e2, hsock]⟩
        · simp only [hs, if_false]
          have hne : r ≠ 1 := fun e => hs (hstart e)
          obtain ⟨res, e1, e2⟩ := ih st2 (raw ++ cell) true
            (visits ++ [(cs.getD (h % cs.length) 0, some cell)]) (h + 1) r' hr2 hal' h1' hN'
            (by simp only [if_true]
                have : 0 ≤ (if fl = true then cs.length else 0) := Nat.zero_le _
                rw [hrr hne]; omega)
          exact ⟨res, e1, by rw [e2, hsock]⟩
    · simp only [hlt, if_false]
      exact ⟨_, rfl, rfl⟩

/-- On a ring the first part of `Connection::Write` (the fill loop and the send) runs to its
end, given a socket and enough fuel. -/
theorem WriteStage_returns (k : Nat) (cs : List Nat) (st : TorApp) (h : Nat)
    (hr : RingAt st k cs h) (fuel : Nat) (Send : List Nat → Int) (max_write : Nat)
    (hf : cs.length * (queuedToward st k cs + 1) < fuel)
    (hsock : (st.conns k).socket.isSome = true) :
    ∃ r, WriteStage fuel Send st k max_write = some r := by
  have hpos := hr.1
  obtain ⟨res, e1, e2⟩ := WriteFill_returns k max_write cs h fuel st (st.conns k).outbuf false []
    h cs.length hr (Nat.add_mod_right _ _) hpos (le_refl _)
    (by simp only [Bool.false_eq_true, if_false]
        have : cs.length * (queuedToward st k cs + 1)
            = cs.length * queuedToward st k cs + cs.length := by ring
        omega)
  obtain ⟨st1, raw, visits⟩ := res
  simp only at e2
  unfold WriteStage
  rw [hr.2.2]
  simp only [e1, e2]
  cases hs : (st.conns k).socket with
  | none => rw [hs] at hsock; simp at hsock
  | some sock =>
    simp only []
    split_ifs <;> exact ⟨_, rfl⟩

/-- One call of `Connection::Write` on a ring returns, given a socket, enough fuel, and an
un-sent tail that fits the `CELL_NETWORK_SIZE` bytes of `outbuf.data`. -/
theorem Write_returns (k : Nat) (cs : List Nat) (st : TorApp) (h : Nat)
    (hr : RingAt st k cs h) (fuel : Nat) (Send : List Nat → Int) (max_write : Nat)
    (hf : cs.length * (queuedToward st k cs + 1) < fuel)
    (hsock : (st.conns k).socket.isSome = true)
    (hfit : ∀ r, WriteStage fuel Send st k max_write = some r →
      r.2.2.1.length - r.1 ≤ CELL_NETWORK_SIZE) :
    ∃ res, Write fuel Send st k max_write = some res := by
  obtain ⟨r, hs⟩ := WriteStage_returns k cs st h hr fuel Send max_write hf hsock
  exact ⟨_, Write_of_stage fuel Send st k max_write r hs (hfit r hs)⟩

/-! ## Slicing by `Connection::Read` -/

/-- The first `n` chunks of `base` elements of a list, concatenated, are its first `n * base`
elements. -/
theorem chunks_flatten (base : Nat) (l : List Nat) (n : Nat) :
    ((List.range n).map (fun i => (l.drop (i * base)).take base)).flatten = l.take (n * base) := by
  induction n with
  | zero => simp
  | succ n ih =>
    rw [List.range_succ, List.map_append, List.flatten_append, ih]
    simp only [List.map_cons, List.map_nil, List.flatten_cons, List.flatten_nil, List.append_nil]
    rw [Nat.succ_mul, List.take_add]

theorem chunks_length (base : Nat) (l : List Nat) (n : Nat) (h : n * base ≤ l.length) :
    ∀ p ∈ (List.range n).map (fun i => (l.drop (i * base)).take base), p.length = base := by
  intro p hp
  simp only [List.mem_map, List.mem_range] at hp
  obtain ⟨i, hi, rfl⟩ := hp
  simp only [List.length_take, List.length_drop]
  have : (i + 1) * base ≤ n * base := Nat.mul_le_mul_right base hi
  have e : (i + 1) * base = i * base + base := Nat.succ_mul i base
  omega

theorem Read_unblocked (Recv : Nat → List Nat) (st : TorApp) (k : Nat)
    (packet_list : List Packet) (max_read : Nat)
    (hb : (st.conns k).reading_blocked = false) (hs : (st.conns k).socket.isSome = true) :
    Read Recv st k packet_list max_read =
      (let base := if (st.conns k).conn_type = EDGE_CONN then CELL_PAYLOAD_SIZE
          else CELL_NETWORK_SIZE
       let raw_data := (st.conns k).inbuf ++ Recv max_read
       let datasize := (Recv max_read).length + (st.conns k).inbuf.length
       some ((Recv max_read).length,
        packet_list ++
          (List.range (datasize / base)).map (fun i => (raw_data.drop (i * base)).take base),
        st.modConn k (fun x =>
          { x with inbuf := (raw_data.drop (datasize - datasize % base)).take (datasize % base) }))) := by
  unfold Read
  rw [hb]
  obtain ⟨s, hs'⟩ := Option.isSome_iff_exists.mp hs
  simp [hs']

/-! ## The bytes staged by `Connection::Write` -/

theorem poppedBytes_append (a b : List (Nat × Option Packet)) :
    poppedBytes (a ++ b) = poppedBytes a ++ poppedBytes b := by
  simp [poppedBytes, List.filterMap_append]

theorem poppedBytes_cons (v : Nat × Option Packet) (b : List (Nat × Option Packet)) :
    poppedBytes (v :: b) = (match v.2 with | some cell => cell | none => []) ++ poppedBytes b := by
  obtain ⟨c, o⟩ := v
  cases o <;> simp [poppedBytes]

/-- The fill loop stages exactly the bytes of the cells it pops, in pop order. -/
theorem WriteFill_bytes (k max_write start_circ : Nat) :
    ∀ (fuel : Nat) (st : TorApp) (raw : List Nat) (fl : Bool)
      (visits : List (Nat × Option Packet))
      (res : TorApp × List Nat × List (Nat × Option Packet)),
      WriteFill k max_write start_circ fuel st raw fl visits = some res →
      ∃ more, res.2.2 = visits ++ more ∧ res.2.1 = raw ++ poppedBytes more := by
  intro fuel
  induction fuel with
  | zero => intro st raw fl visits res hres; simp [WriteFill] at hres
  | succ fuel ih =>
    intro st raw fl visits res hres
    unfold WriteFill at hres
    by_cases hlt : raw.length < max_write
    · simp only [hlt, if_true] at hres
      cases ha : (st.conns k).active_circuits with
      | none => simp [ha] at hres
      | some circ =>
        simp only [ha] at hres
        cases hn : ((PopCell st circ ((st.circs circ).GetDirection k)).2.circs circ).GetNextCirc k with
        | none => simp [hn] at hres
        | some next =>
          simp only [hn] at hres
          have key : ∀ (st1 : TorApp) (fl1 : Bool),
              WriteFill k max_write start_circ fuel st1
                (match (PopCell st circ ((st.circs circ).GetDirection k)).1 with
                  | some cell => raw ++ cell
                  | none => raw) fl1
                (visits ++ [(circ, (PopCell st circ ((st.circs circ).GetDirection k)).1)]) = some res →
              ∃ more, res.2.2 = visits ++ more ∧ res.2.1 = raw ++ poppedBytes more := by
            intro st1 fl1 h1
            obtain ⟨more, e1, e2⟩ := ih _ _ _ _ res h1
            refine ⟨(circ, (PopCell st circ ((st.circs circ).GetDirection k)).1) :: more, ?_, ?_⟩
            · rw [e1]; simp
            · rw [e2, poppedBytes_cons]
              cases (PopCell st circ ((st.circs circ).GetDirection k)).1 <;> simp
          split_ifs at hres with hs hf
          · simp only [Option.some.injEq] at hres
            subst hres
            refine ⟨[(circ, (PopCell st circ ((st.circs circ).GetDirection k)).1)], rfl, ?_⟩
            rw [poppedBytes_cons]
            cases (PopCell st circ ((st.circs circ).GetDirection k)).1 <;> simp [poppedBytes]
          · exact key _ _ hres
          · exact key _ _ hres
    · simp only [hlt, if_false, Option.some.injEq] at hres
      subst hres
      exact ⟨[], by simp, by simp [poppedBytes]⟩

/-- The first part of `Connection::Write` stages the old left-over followed by the bytes of
the cells it pops, and its result is what the socket accepted of the bytes offered. -/
theorem WriteStage_bytes (fuel : Nat) (Send : List Nat → Int) (st : TorApp) (k max_write : Nat)
    (res : Nat × TorApp × List Nat × List (Nat × Option Packet))
    (hres : WriteStage fuel Send st k max_write = some res) :
    let staged := (st.conns k).outbuf ++ poppedBytes res.2.2.2
    let offered := staged.take (min max_write staged.length)
    res.2.2.1 = staged ∧
    res.1 = (if 0 < offered.length then (max (Send offered) 0).toNat else 0) := by
  unfold WriteStage at hres
  cases ha : (st.conns k).active_circuits with
  | none => simp [ha] at hres
  | some start_circ =>
    simp only [ha] at hres
    cases hf : WriteFill k max_write start_circ fuel st (st.conns k).outbuf false [] with
    | none => simp [hf] at hres
    | some r =>
      obtain ⟨st1, raw, visits⟩ := r
      obtain ⟨more, e1, e2⟩ := WriteFill_bytes k max_write start_circ fuel st _ _ _ _ hf
      simp only [List.nil_append] at e1 e2
      subst e1
      simp only [hf] at hres
      by_cases hpos : min max_write raw.length > 0
      · simp only [hpos, if_true] at hres
        cases hs : (st1.conns k).socket with
        | none => simp [hs] at hres
        | some sock =>
          simp only [hs, Option.some.injEq] at hres
          subst hres
          simp only [← e2]
          have h2 : 0 < max_write ∧ 0 < raw.length := by
            have := hpos
            simp only [gt_iff_lt, lt_min_iff] at this
            exact this
          simp [h2]
      · simp only [hpos, if_false, Option.some.injEq] at hres
        subst hres
        simp only [← e2]
        have h2 : ¬ (0 < max_write ∧ 0 < raw.length) := by
          intro h3
          exact hpos (lt_min_iff.mpr h3)
        simp [h2]

/-- One call of `Connection::Write` stages the old left-over followed by the bytes of the cells
it pops, returns what the socket accepted, and keeps the staged bytes behind those. -/
theorem Write_bytes (fuel : Nat) (Send : List Nat → Int) (st : TorApp) (k max_write : Nat)
    (res : Nat × TorApp × List (Nat × Option Packet))
    (hres : Write fuel Send st k max_write = some res) :
    let staged := (st.conns k).outbuf ++ poppedBytes res.2.2
    let offered := staged.take (min max_write staged.length)
    res.1 = (if 0 < offered.length then (max (Send offered) 0).toNat else 0) ∧
    (res.2.1.conns k).outbuf = staged.drop (staged.length - (staged.length - res.1)) := by
  obtain ⟨r, hs, _, e⟩ := Write_some fuel Send st k max_write res hres
  obtain ⟨e1, e2⟩ := WriteStage_bytes fuel Send st k max_write r hs
  subst e
  simp only at e1 e2 ⊢
  refine ⟨e2, ?_⟩
  rw [modConn_conns, if_pos rfl, ← e1]

/-! ## The read callback on an edge connection -/

@[simp] theorem modCirc_relay (st : TorApp) (c : Nat) (f : Circuit → Circuit) :
    (st.modCirc c f).connections = st.connections ∧
    (st.modCirc c f).circuits = st.circuits ∧
    (st.modCirc c f).m_readbucket = st.m_readbucket ∧
    (st.modCirc c f).m_writebucket = st.m_writebucket := ⟨rfl, rfl, rfl, rfl⟩

@[simp] theorem modConn_relay (st : TorApp) (k : Nat) (f : Connection → Connection) :
    (st.modConn k f).connections = st.connections ∧
    (st.modConn k f).circuits = st.circuits ∧
    (st.modConn k f).m_readbucket = st.m_readbucket ∧
    (st.modConn k f).m_writebucket = st.m_writebucket := ⟨rfl, rfl, rfl, rfl⟩

theorem sameRelay_refl (st : TorApp) : sameRelay st st := ⟨rfl, rfl, rfl, rfl⟩

theorem sameRelay_trans {a b c : TorApp} (h1 : sameRelay a b) (h2 : sameRelay b c) :
    sameRelay a c :=
  ⟨h2.1.trans h1.1, h2.2.1.trans h1.2.1, h2.2.2.1.trans h1.2.2.1, h2.2.2.2.trans h1.2.2.2⟩

theorem sameRelay_modCirc (st : TorApp) (c : Nat) (f : Circuit → Circuit) :
    sameRelay st (st.modCirc c f) := ⟨rfl, rfl, rfl, rfl⟩

theorem sameRelay_modConn (st : TorApp) (k : Nat) (f : Connection → Connection) :
    sameRelay st (st.modConn k f) := ⟨rfl, rfl, rfl, rfl⟩

theorem PushCell_relay (st st' : TorApp) (c : Nat) (cell : Option Packet) (d : CellDirection)
    (h : PushCell st c cell d = some st') : sameRelay st st' := by
  unfold PushCell at h
  cases cell with
  | none => simp only [Option.some.injEq] at h; subst h; exact sameRelay_refl _
  | some pkt =>
    simp only at h
    split_ifs at h <;>
    first
    | (simp only [Option.some.injEq] at h; subst h
       exact ⟨rfl, rfl, rfl, rfl⟩)
    | (split at h
       · simp at h
       · simp only [Option.some.injEq] at h; subst h
         exact ⟨rfl, rfl, rfl, rfl⟩)

theorem PackageRelayCellImpl_length (circ_id : Int) (cell : Packet) :
    (PackageRelayCellImpl circ_id cell).length = CELL_HEADER_SIZE + cell.length := by
  simp [PackageRelayCellImpl, AddHeader, CellHeader.Serialize, CELL_HEADER_SIZE]
  omega

theorem PackageRelayCellImpl_not_sendme (circ_id : Int) (cell : Packet) :
    IsSendme (some (PackageRelayCellImpl circ_id cell)) = false := by
  simp [IsSendme, PackageRelayCellImpl, PeekHeader, AddHeader, CellHeader.Deserialize,
    CellHeader.Serialize, RELAY_SENDME, RELAY_DATA]

theorem PackageRelayCellImpl_header (circ_id : Int) (cell : Packet) :
    (PeekHeader (PackageRelayCellImpl circ_id cell)).cmd = RELAY_DATA ∧
    (PeekHeader (PackageRelayCellImpl circ_id cell)).cellType = RELAY ∧
    (PeekHeader (PackageRelayCellImpl circ_id cell)).circId = (circ_id % 65536).toNat ∧
    (PeekHeader (PackageRelayCellImpl circ_id cell)).length = cell.length % 65536 ∧
    (PackageRelayCellImpl circ_id cell).drop CELL_HEADER_SIZE = cell := by
  simp [PackageRelayCellImpl, PeekHeader, AddHeader, CellHeader.Deserialize,
    CellHeader.Serialize, RELAY_DATA, RELAY, CELL_HEADER_SIZE]
  constructor <;> omega

/-- A data cell (not a SENDME) costs one unit of the package window when it comes from an edge
connection and none otherwise. -/
theorem PushCell_data_window (st st' : TorApp) (c : Nat) (pkt : Packet) (d : CellDirection)
    (hns : IsSendme (some pkt) = false)
    (h : PushCell st c (some pkt) d = some st') :
    (st'.circs c).package_window =
      (if (st.conns ((st.circs c).GetOppositeConnection d)).conn_type = EDGE_CONN
        then (st.circs c).package_window - 1 else (st.circs c).package_window) := by
  unfold PushCell at h
  simp only [hns] at h
  cases hx : st.circs c
  cases d <;>
  simp only [hx, Circuit.GetOppositeConnection, Circuit.GetConnection] at h ⊢ <;>
  split_ifs at h <;>
  first
  | (simp only [Option.some.injEq] at h; subst h
     simp_all [SetQueue_eq, IncStatsBytes_eq, SetBlocked_eq, modCirc_circs, modConn_conns])
  | (split at h
     · simp at h
     · simp only [Option.some.injEq] at h; subst h
       simp_all [SetQueue_eq, IncStatsBytes_eq, SetBlocked_eq, modCirc_circs, modConn_conns])

/-- A data cell goes to the back of the queue, without its header when it heads into an edge
connection. -/
theorem PushCell_data_queue (st st' : TorApp) (c : Nat) (pkt : Packet) (d : CellDirection)
    (hns : IsSendme (some pkt) = false) (hlen : CELL_HEADER_SIZE ≤ pkt.length)
    (h : PushCell st c (some pkt) d = some st') :
    (st'.circs c).GetQueue d = (st.circs c).GetQueue d ++
      [if (st.conns ((st.circs c).GetConnection d)).conn_type = EDGE_CONN
        then pkt.drop CELL_HEADER_SIZE else pkt] := by
  rw [PushCell_queue st st' c pkt d h]
  have hr : RemoveHeader pkt = some (CellHeader.Deserialize pkt, pkt.drop CELL_HEADER_SIZE) := by
    simp [RemoveHeader, Nat.not_lt.mpr hlen]
  simp only [enqueuedBy, hns, hr, and_self, if_true]
  split_ifs <;> first | contradiction | simp

theorem sameConn_refl (x : Connection) : sameConn x x := ⟨rfl, rfl, rfl, rfl, rfl⟩

theorem sameConn_trans {a b c : Connection} (h1 : sameConn a b) (h2 : sameConn b c) :
    sameConn a c :=
  ⟨h2.1.trans h1.1, h2.2.1.trans h1.2.1, h2.2.2.1.trans h1.2.2.1,
    h2.2.2.2.1.trans h1.2.2.2.1, h2.2.2.2.2.trans h1.2.2.2.2⟩

theorem sameConn_SetBlocked (x : Connection) (b : Bool) : sameConn x (x.SetBlocked b) :=
  ⟨rfl, rfl, rfl, rfl, rfl⟩

theorem sameConn_ScheduleWrite (x : Connection) (delay : Nat) :
    sameConn x (x.ScheduleWrite delay) := by
  rw [ScheduleWrite_eq]; exact ⟨rfl, rfl, rfl, rfl, rfl⟩

theorem sameConn_ScheduleRead (x : Connection) (delay : Nat) :
    sameConn x (x.ScheduleRead delay) := by
  rw [ScheduleRead_eq]; exact ⟨rfl, rfl, rfl, rfl, rfl⟩

theorem sameConn_modConn (st : TorApp) (k : Nat) (f : Connection → Connection)
    (hf : ∀ x, sameConn x (f x)) (k' : Nat) :
    sameConn (st.conns k') ((st.modConn k f).conns k') := by
  rw [modConn_conns]
  split_ifs with h
  · subst h; exact hf _
  · exact sameConn_refl _

theorem PushCell_sameConn (st st' : TorApp) (c : Nat) (cell : Option Packet)
    (d : CellDirection) (h : PushCell st c cell d = some st') (k : Nat) :
    sameConn (st.conns k) (st'.conns k) := by
  have hc := PushCell_conns st st' c cell d h k
  unfold sameConn
  rw [hc]
  exact ⟨rfl, rfl, rfl, rfl, rfl⟩

theorem GetPackageWindow_zero (x : Circuit) (h : x.package_window = 0) :
    x.GetPackageWindow = 0 := by
  simp [Circuit.GetPackageWindow, h]

/-- What one call of `PackageRelayCell` on a connection with an active circuit does. -/
theorem PackageRelayCell_spec (st : TorApp) (conn circ : Nat) (cell : Packet)
    (ha : (st.conns conn).active_circuits = some circ) :
    ∃ st', PackageRelayCell st (some conn) (some cell) = some st' ∧
      sameRelay st st' ∧
      (∀ k, sameConn (st.conns k) (st'.conns k)) ∧
      (st'.circs circ).circ_id = (st.circs circ).circ_id ∧
      (st'.circs circ).p_conn = (st.circs circ).p_conn ∧
      (st'.circs circ).n_conn = (st.circs circ).n_conn ∧
      (st'.circs circ).package_window =
        (if (st.conns ((st.circs circ).GetOppositeConnection
              ((st.circs circ).GetOppositeDirectionOf conn))).conn_type = EDGE_CONN
          then (st.circs circ).package_window - 1 else (st.circs circ).package_window) ∧
      ((st'.circs circ).package_window = 0 → (st'.conns conn).reading_blocked = true) ∧
      (st'.circs circ).GetQueue ((st.circs circ).GetOppositeDirectionOf conn) =
        (st.circs circ).GetQueue ((st.circs circ).GetOppositeDirectionOf conn) ++
          [if (st.conns ((st.circs circ).GetConnection
                ((st.circs circ).GetOppositeDirectionOf conn))).conn_type = EDGE_CONN
            then cell else PackageRelayCellImpl (st.circs circ).GetId cell] := by
  have hlen := PackageRelayCellImpl_length (st.circs circ).GetId cell
  have hns := PackageRelayCellImpl_not_sendme (st.circs circ).GetId cell
  obtain ⟨st1, h1⟩ := PushCell_completes st circ (PackageRelayCellImpl (st.circs circ).GetId cell)
    ((st.circs circ).GetOppositeDirectionOf conn) (Or.inr (by omega))
  have hw := PushCell_data_window st st1 circ _ _ hns h1
  have hq := PushCell_data_queue st st1 circ _ _ hns (by omega) h1
  have hrel := PushCell_relay st st1 circ _ _ h1
  have hfr := PushCell_circ_frame st st1 circ _ _ h1
  have hc := PushCell_sameConn st st1 circ _ _ h1
  rw [(PackageRelayCellImpl_header (st.circs circ).GetId cell).2.2.2.2] at hq
  unfold PackageRelayCell AppendCellToCircuitQueue
  simp only [ha, h1]
  by_cases hz : ((st1.modConn ((st.circs circ).GetConnection
      ((st.circs circ).GetOppositeDirectionOf conn)) (fun k => k.ScheduleWrite 0)).circs
        circ).GetPackageWindow ≤ 0
  · rw [if_pos hz]
    refine ⟨_, rfl, ?_, ?_, ?_, ?_, ?_, ?_, ?_, ?_⟩
    · exact sameRelay_trans hrel (sameRelay_trans (sameRelay_modConn _ _ _) (sameRelay_modConn _ _ _))
    · intro k
      exact sameConn_trans (hc k) (sameConn_trans
        (sameConn_modConn _ _ _ (fun x => sameConn_ScheduleWrite x 0) k)
        (sameConn_modConn _ _ _ (fun x => sameConn_SetBlocked x true) k))
    · simpa using hfr.1
    · simpa using hfr.2.1
    · simpa using hfr.2.2.1
    · simpa using hw
    · intro _; simp [SetBlocked_eq]
    · simpa using hq
  · rw [if_neg hz]
    refine ⟨_, rfl, ?_, ?_, ?_, ?_, ?_, ?_, ?_, ?_⟩
    · exact sameRelay_trans hrel (sameRelay_modConn _ _ _)
    · intro k
      exact sameConn_trans (hc k) (sameConn_modConn _ _ _ (fun x => sameConn_ScheduleWrite x 0) k)
    · simpa using hfr.1
    · simpa using hfr.2.1
    · simpa using hfr.2.2.1
    · simpa using hw
    · intro h0
      exfalso
      apply hz
      simp only [modConn_circs] at h0 ⊢
      rw [GetPackageWindow_zero _ h0]
    · simpa using hq

theorem GetOppositeDirectionOf_congr (x y : Circuit) (conn : Nat) (hn : y.n_conn = x.n_conn) :
    y.GetOppositeDirectionOf conn = x.GetOppositeDirectionOf conn := by
  simp [Circuit.GetOppositeDirectionOf, hn]

theorem GetId_congr (x y : Circuit) (h : y.circ_id = x.circ_id) : y.GetId = x.GetId := by
  simp [Circuit.GetId, h]

/-- The loop of `ConnReadCallback` on an edge connection packages every cell: it runs to
completion, takes one unit of the package window per cell when the circuit is attached to the
connection, and queues the cells in order. -/
theorem ConnReadDispatch_edge (conn circ : Nat) (st0 : TorApp) (x : Circuit)
    (he : (st0.conns conn).conn_type = EDGE_CONN)
    (ha : (st0.conns conn).active_circuits = some circ) :
    ∀ (cells : List Packet) (st : TorApp),
      (∀ k, sameConn (st0.conns k) (st.conns k)) →
      (st.circs circ).circ_id = x.circ_id → (st.circs circ).p_conn = x.p_conn →
      (st.circs circ).n_conn = x.n_conn →
      ∃ st', ConnReadDispatch conn cells st = some st' ∧
        sameRelay st st' ∧
        (∀ k, sameConn (st0.conns k) (st'.conns k)) ∧
        (st'.circs circ).circ_id = x.circ_id ∧ (st'.circs circ).p_conn = x.p_conn ∧
        (st'.circs circ).n_conn = x.n_conn ∧
        (st'.circs circ).package_window =
          (if (st0.conns (x.GetOppositeConnection (x.GetOppositeDirectionOf conn))).conn_type
              = EDGE_CONN
            then (st.circs circ).package_window - cells.length
            else (st.circs circ).package_window) ∧
        (cells ≠ [] → (st'.circs circ).package_window = 0 →
          (st'.conns conn).reading_blocked = true) ∧
        (cells = [] → st' = st) ∧
        (st'.circs circ).GetQueue (x.GetOppositeDirectionOf conn) =
          (st.circs circ).GetQueue (x.GetOppositeDirectionOf conn) ++
            cells.map (fun cell =>
              if (st0.conns (x.GetConnection (x.GetOppositeDirectionOf conn))).conn_type
                  = EDGE_CONN
              then cell else PackageRelayCellImpl x.GetId cell) := by
  intro cells
  induction cells with
  | nil =>
    intro st hc hid hp hn
    exact ⟨st, rfl, sameRelay_refl _, hc, hid, hp, hn, by simp, by simp, by simp, by simp⟩
  | cons cell rest ih =>
    intro st hc hid hp hn
    have ha' : (st.conns conn).active_circuits = some circ := by rw [(hc conn).2.1, ha]
    have he' : (st.conns conn).conn_type = EDGE_CONN := by rw [(hc conn).1, he]
    obtain ⟨st1, h1, r1, c1, i1, p1, n1, w1, b1, q1⟩ := PackageRelayCell_spec st conn circ cell ha'
    have ed : (st.circs circ).GetOppositeDirectionOf conn = x.GetOppositeDirectionOf conn :=
      GetOppositeDirectionOf_congr _ _ conn hn
    have eo : ∀ d, (st.circs circ).GetOppositeConnection d = x.GetOppositeConnection d :=
      fun d => GetOppositeConnection_congr _ _ d hp hn
    have ec : ∀ d, (st.circs circ).GetConnection d = x.GetConnection d :=
      fun d => GetConnection_congr _ _ d hp hn
    have ei : (st.circs circ).GetId = x.GetId := GetId_congr _ _ hid
    rw [ed, eo, (hc _).1] at w1
    rw [ed, ec, (hc _).1, ei] at q1
    have hc1 : ∀ k, sameConn (st0.conns k) (st1.conns k) :=
      fun k => sameConn_trans (hc k) (c1 k)
    obtain ⟨st2, h2, r2, c2, i2, p2, n2, w2, b2, z2, q2⟩ :=
      ih st1 hc1 (i1.trans hid) (p1.trans hp) (n1.trans hn)
    refine ⟨st2, ?_, sameRelay_trans r1 r2, c2, i2, p2, n2, ?_, ?_, by simp, ?_⟩
    · simp only [ConnReadDispatch, he', if_true, h1, h2]
    · rw [w2, w1]
      split_ifs
      · simp only [List.length_cons]; push_cast; ring
      · rfl
    · intro _ h0
      by_cases hr : rest = []
      · have := z2 hr
        subst this
        exact b1 h0
      · exact b2 hr h0
    · rw [q2, q1]
      simp

theorem LookupConn_socket (st : TorApp) (socket : Option Nat) (conn : Nat)
    (h : LookupConn st socket = some conn) : (st.conns conn).socket = socket := by
  unfold LookupConn at h
  have := List.find?_some h
  simpa using this

theorem LookupConn_mem (st : TorApp) (socket : Option Nat) (conn : Nat)
    (h : LookupConn st socket = some conn) : conn ∈ st.connections := by
  unfold LookupConn at h
  exact List.mem_of_find?_eq_some h

/-- The request of `ConnReadCallback` on an edge connection stays within the package window. -/
theorem window_clamp (w : Int) (hw : 0 ≤ w) (m : Nat) :
    ((min ((((w % 4294967296).toNat) * 498) % 4294967296) m : Nat) : Int) ≤ w * 498 := by
  have h1 : ((w % 4294967296).toNat : Int) = w % 4294967296 :=
    Int.toNat_of_nonneg (Int.emod_nonneg _ (by norm_num))
  have h2 : w % 4294967296 ≤ w := by omega
  have h3 : (min ((((w % 4294967296).toNat) * 498) % 4294967296) m : Nat)
      ≤ ((w % 4294967296).toNat) * 498 :=
    le_trans (min_le_left _ _) (Nat.mod_le _ _)
  have h4 : ((min ((((w % 4294967296).toNat) * 498) % 4294967296) m : Nat) : Int)
      ≤ (((w % 4294967296).toNat * 498 : Nat) : Int) := by exact_mod_cast h3
  push_cast at h4
  omega

theorem cellBase_pos (k : Connection) : 0 < cellBase k := by
  unfold cellBase; split <;> decide

/-- What `Connection::Read` does on an unblocked connection with a socket. -/
theorem Read_spec (Recv : Nat → List Nat) (st : TorApp) (k : Nat)
    (packet_list : List Packet) (max_read : Nat)
    (hb : (st.conns k).reading_blocked = false) (hs : (st.conns k).socket.isSome = true) :
    ∃ cells st', Read Recv st k packet_list max_read
        = some ((Recv max_read).length, packet_list ++ cells, st') ∧
      cells.length = ((st.conns k).inbuf.length + (Recv max_read).length) / cellBase (st.conns k) ∧
      (∀ c ∈ cells, c.length = cellBase (st.conns k)) ∧
      cells.flatten ++ (st'.conns k).inbuf = (st.conns k).inbuf ++ Recv max_read ∧
      (st'.conns k).inbuf.length
        = ((st.conns k).inbuf.length + (Recv max_read).length) % cellBase (st.conns k) ∧
      st'.circs = st.circs ∧ sameRelay st st' ∧
      (∀ k', sameButInbuf (st.conns k') (st'.conns k')) := by
  have hpos := cellBase_pos (st.conns k)
  rw [Read_unblocked Recv st k packet_list max_read hb hs]
  simp only
  have hcb : (if (st.conns k).conn_type = EDGE_CONN then CELL_PAYLOAD_SIZE else CELL_NETWORK_SIZE)
      = cellBase (st.conns k) := rfl
  rw [hcb]
  generalize cellBase (st.conns k) = base at hpos
  generalize hR : Recv max_read = R
  generalize hI : (st.conns k).inbuf = I
  have hdm := Nat.div_add_mod (R.length + I.length) base
  have hmul : base * ((R.length + I.length) / base) = (R.length + I.length) / base * base :=
    Nat.mul_comm _ _
  have hml := Nat.mod_lt (R.length + I.length) hpos
  refine ⟨_, _, rfl, ?_, ?_, ?_, ?_, rfl, sameRelay_modConn _ _ _, ?_⟩
  · simp [Nat.add_comm]
  · apply chunks_length
    simp only [List.length_append]
    omega
  · rw [chunks_flatten]
    simp only [modConn_conns_same]
    have e : R.length + I.length - (R.length + I.length) % base
        = (R.length + I.length) / base * base := by omega
    have ht : List.take ((R.length + I.length) % base)
        (List.drop ((R.length + I.length) / base * base) (I ++ R))
        = List.drop ((R.length + I.length) / base * base) (I ++ R) := by
      apply List.take_of_length_le
      simp only [List.length_drop, List.length_append]
      omega
    rw [e, ht, List.take_append_drop]
  · simp only [modConn_conns_same, List.length_take, List.length_drop, List.length_append]
    rw [Nat.add_comm I.length R.length]
    omega
  · intro k'
    rw [modConn_conns]
    split_ifs with h
    · subst h; exact ⟨rfl, rfl, rfl, rfl, rfl⟩
    · exact ⟨rfl, rfl, rfl, rfl, rfl⟩

/-- What `ConnReadCallback` does on an unblocked edge connection with an active circuit: it
runs to completion; with a budget of `min (RoundRobin, rx available)` bytes, clamped to the
package window, it reads, slices and packages. -/
theorem ConnReadCallback_edge (sock : ReadSocket) (st : TorApp) (s conn circ : Nat)
    (hl : LookupConn st (some s) = some conn)
    (he : (st.conns conn).conn_type = EDGE_CONN)
    (hb : (st.conns conn).reading_blocked = false)
    (ha : (st.conns conn).active_circuits = some circ) :
    ∃ st' log, ConnReadCallback sock st (some s) = some (st', log) ∧
      (min (RoundRobin CELL_PAYLOAD_SIZE st.m_readbucket.GetSize).toNat sock.GetRxAvailable = 0 →
        st' = st ∧ log.max_read = 0 ∧ log.read_bytes = 0 ∧ log.packet_list = []) ∧
      (min (RoundRobin CELL_PAYLOAD_SIZE st.m_readbucket.GetSize).toNat sock.GetRxAvailable ≠ 0 →
        log.max_read = min (((st.circs circ).GetPackageWindow * CELL_PAYLOAD_SIZE) % 4294967296)
          (min (RoundRobin CELL_PAYLOAD_SIZE st.m_readbucket.GetSize).toNat sock.GetRxAvailable) ∧
        EdgeReadPost sock st conn circ st' log) := by
  have hs : (st.conns conn).socket = some s := LookupConn_socket st _ conn hl
  unfold ConnReadCallback
  simp only [hl, hb, he, if_true, ha, Bool.false_eq_true, if_false]
  by_cases hz : min (RoundRobin CELL_PAYLOAD_SIZE st.m_readbucket.GetSize).toNat
      sock.GetRxAvailable = 0
  · simp only [hz, le_refl, if_true]
    exact ⟨_, _, rfl, fun _ => ⟨rfl, rfl, rfl, rfl⟩, fun h => absurd rfl h⟩
  · have hz' : ¬ (min (RoundRobin CELL_PAYLOAD_SIZE st.m_readbucket.GetSize).toNat
        sock.GetRxAvailable ≤ 0) := by omega
    simp only [hz', if_false]
    generalize hmr : min (((st.circs circ).GetPackageWindow * CELL_PAYLOAD_SIZE) % 4294967296)
      (min (RoundRobin CELL_PAYLOAD_SIZE st.m_readbucket.GetSize).toNat sock.GetRxAvailable)
      = mr
    obtain ⟨cells, st1, hread, hlen, hsz, hcat, hin, hcirc, hrel, hfr⟩ :=
      Read_spec sock.Recv st conn [] mr hb (by rw [hs]; rfl)
    have hcb : cellBase (st.conns conn) = CELL_PAYLOAD_SIZE := by simp [cellBase, he]
    rw [hcb] at hlen hsz hin
    simp only [List.nil_append] at hread
    simp only [hread]
    obtain ⟨st2, h2, r2, c2, i2, p2, n2, w2, b2, _, q2⟩ :=
      ConnReadDispatch_edge conn circ st1 (st.circs circ)
        (by rw [(hfr conn).1, he]) (by rw [(hfr conn).2.1, ha]) cells st1
        (fun k => sameConn_refl _) (by rw [hcirc]) (by rw [hcirc]) (by rw [hcirc])
    simp only [h2]
    rw [(hfr _).1, hcirc] at w2
    rw [(hfr _).1, hcirc] at q2
    have hfin : ∀ st' : TorApp, st'.circs = st2.circs →
        (st'.conns conn).reading_blocked = (st2.conns conn).reading_blocked →
        (st'.conns conn).inbuf = (st2.conns conn).inbuf →
        EdgeReadPost sock st conn circ st'
          { max_read := mr, read_bytes := (sock.Recv mr).length, packet_list := cells } := by
      intro st' e1 e2 e3
      have e4 : (st'.conns conn).inbuf = (st1.conns conn).inbuf := by
        rw [e3, (c2 conn).2.2.2.1]
      refine ⟨rfl, hlen, hsz, ?_, ?_, ?_, ?_, ?_⟩
      · rw [e4]; exact hcat
      · rw [e4]; exact hin
      · rw [e1]; exact w2
      · rw [e1, e2]; exact b2
      · rw [e1]; exact q2
    split_ifs
    · exact ⟨_, _, rfl, fun h => absurd h hz, fun _ => ⟨rfl, hfin _ rfl
        (by simp [GlobalBucketsDecrement, ScheduleRead_eq])
        (by simp [GlobalBucketsDecrement, ScheduleRead_eq])⟩⟩
    · exact ⟨_, _, rfl, fun h => absurd h hz, fun _ => ⟨rfl, hfin _ rfl rfl rfl⟩⟩
    · exact ⟨_, _, rfl, fun h => absurd h hz, fun _ => ⟨rfl, hfin _ rfl rfl rfl⟩⟩

/-- With at least `256 * base` bytes in the bucket the budget is the maximum of 32 cells. -/
theorem RoundRobin_full (base bucket : Int) (hb : 0 < base) (hh : base < 134217728)
    (h : 256 * base ≤ bucket) : RoundRobin base bucket = 32 * base := by
  rw [RoundRobin_eq_spec base bucket hb hh]
  unfold RoundRobinSpec
  simp only
  have h1 : 32 * base ≤ bucket / 8 := by omega
  have h2 : 32 ≤ bucket / 8 / base := by
    rw [Int.le_ediv_iff_mul_le hb]; exact h1
  have h3 : 32 * base ≤ bucket / 8 / base * base := mul_le_mul_of_nonneg_right h2 (le_of_lt hb)
  rw [max_eq_left (by omega), max_eq_left (by omega), min_eq_right h3, min_eq_left (by omega)]

theorem opposite_of_attached (x : Circuit) (conn : Nat)
    (h : x.n_conn = conn ∨ x.p_conn = conn) :
    x.GetOppositeConnection (x.GetOppositeDirectionOf conn) = conn := by
  unfold Circuit.GetOppositeConnection Circuit.GetOppositeDirectionOf
  by_cases hn : x.n_conn = conn
  · simp [hn]
  · rcases h with h | h
    · exact absurd h hn
    · simp [hn, h]

/-! ## The token buckets -/

theorem GlobalBucketsDecrement_size (st : TorApp) (r w : Nat) :
    (GlobalBucketsDecrement st r w).m_readbucket.size = st.m_readbucket.size - r ∧
    (GlobalBucketsDecrement st r w).m_writebucket.size = st.m_writebucket.size - w ∧
    (GlobalBucketsDecrement st r w).conns = st.conns ∧
    (GlobalBucketsDecrement st r w).circs = st.circs ∧
    (GlobalBucketsDecrement st r w).connections = st.connections := ⟨rfl, rfl, rfl, rfl, rfl⟩

theorem foldl_modConn_relay (f : Nat → Connection → Connection) :
    ∀ (l : List Nat) (st : TorApp),
      sameRelay st (l.foldl (fun s conn => s.modConn conn (f conn)) st) := by
  intro l
  induction l with
  | nil => intro st; exact sameRelay_refl _
  | cons a l ih =>
    intro st
    exact sameRelay_trans (sameRelay_modConn st a (f a)) (ih _)

theorem RefillReadCallback_relay (st : TorApp) (prev : Int) :
    sameRelay st (RefillReadCallback st prev) := by
  unfold RefillReadCallback
  split_ifs
  · exact foldl_modConn_relay (fun _ k => k.ScheduleRead 10) _ _
  · exact sameRelay_refl _

theorem RefillWriteCallback_relay (st : TorApp) (prev : Int) :
    sameRelay st (RefillWriteCallback st prev) := by
  unfold RefillWriteCallback
  split_ifs
  · exact foldl_modConn_relay (fun _ k => k.ScheduleWrite 0) _ _
  · exact sameRelay_refl _

theorem sum_const_length (pl : List Packet) (n : Nat) (h : ∀ c ∈ pl, c.length = n) :
    (pl.map List.length).sum = pl.length * n := by
  induction pl with
  | nil => simp
  | cons a pl ih =>
    simp only [List.map_cons, List.sum_cons, List.length_cons]
    rw [ih (fun c hc => h c (List.mem_cons_of_mem _ hc)), h a (List.mem_cons_self _ _)]
    ring

/-- Packaging one 10,000-byte request read from an edge connection in a single callback. -/
theorem ConnReadCallback_request (sock : ReadSocket) (req : List Nat) (st : TorApp)
    (s conn circ : Nat)
    (hreq : req.length = 10000)
    (hrx : sock.GetRxAvailable = 10000)
    (hrecv : ∀ n, sock.Recv n = req.take n)
    (hl : LookupConn st (some s) = some conn)
    (he : (st.conns conn).conn_type = EDGE_CONN)
    (hb : (st.conns conn).reading_blocked = false)
    (hi : (st.conns conn).inbuf = [])
    (ha : (st.conns conn).active_circuits = some circ)
    (hid : (st.circs circ).circ_id = 1)
    (hp : (st.circs circ).p_conn = conn)
    (hn : (st.conns (st.circs circ).n_conn).conn_type = OR_CONN)
    (hw : (st.circs circ).package_window = CIRCWINDOW_START)
    (hbucket : 127488 ≤ st.m_readbucket.size) :
    ∃ st' log, ConnReadCallback sock st (some s) = some (st', log) ∧
      log.max_read = 10000 ∧ log.read_bytes = 10000 ∧ log.packet_list.length = 20 ∧
      (∀ c ∈ log.packet_list, c.length = 498) ∧
      log.packet_list.flatten ++ (st'.conns conn).inbuf = req ∧
      (st'.conns conn).inbuf.length = 40 ∧
      (st'.circs circ).package_window = 980 ∧
      (st'.circs circ).GetQueue OUTBOUND = (st.circs circ).GetQueue OUTBOUND ++
        log.packet_list.map (PackageRelayCellImpl 1) := by
  obtain ⟨st', log, hrun, _, h1⟩ := ConnReadCallback_edge sock st s conn circ hl he hb ha
  have hrr : RoundRobin CELL_PAYLOAD_SIZE st.m_readbucket.GetSize = 15936 := by
    have := RoundRobin_full 498 st.m_readbucket.size (by norm_num) (by norm_num)
      (by omega)
    simpa [CELL_PAYLOAD_SIZE, TokenBucket.GetSize] using this
  have hbud : min (RoundRobin CELL_PAYLOAD_SIZE st.m_readbucket.GetSize).toNat
      sock.GetRxAvailable = 10000 := by
    rw [hrr, hrx]; decide
  have hne : (st.circs circ).n_conn ≠ conn := by
    intro h
    rw [h, he] at hn
    exact or_ne_edge hn.symm
  have hd : (st.circs circ).GetOppositeDirectionOf conn = OUTBOUND := by
    simp [Circuit.GetOppositeDirectionOf, hne]
  have hgid : (st.circs circ).GetId = 1 := by
    simp [Circuit.GetId, hid]
  have hgpw : (st.circs circ).GetPackageWindow = 1000 := by
    simp [Circuit.GetPackageWindow, hw, CIRCWINDOW_START]
  obtain ⟨e1, e2, e3, e4, e5, e6, e7, _, e9⟩ := h1 (by rw [hbud]; decide)
  rw [hbud, hgpw] at e1
  have hmr : log.max_read = 10000 := by rw [e1]; decide
  have hR : sock.Recv log.max_read = req := by
    rw [hmr, hrecv, ← hreq, List.take_length]
  rw [hR] at e2 e5
  rw [hreq] at e2
  rw [hi, e2] at e3 e6
  rw [hi] at e5
  rw [hd] at e7 e9
  simp only [List.nil_append, List.length_nil, Nat.zero_add] at e3 e5 e6
  have hcg : (st.circs circ).GetConnection OUTBOUND = (st.circs circ).n_conn := by
    simp [Circuit.GetConnection]
  have hog : (st.circs circ).GetOppositeConnection OUTBOUND = conn := by
    simp [Circuit.GetOppositeConnection, hp]
  rw [hcg, hn, hgid] at e9
  rw [hog, he, e3, hw] at e7
  simp only [or_ne_edge, if_false, if_true] at e9 e7
  refine ⟨st', log, hrun, hmr, e2, e3, e4, e5, e6, ?_, e9⟩
  rw [e7]; decide

/-- The cells that packaging one 10,000-byte request leaves on the queue toward the OR
connection. -/
theorem ConnReadCallback_request_cells (sock : ReadSocket) (req : List Nat) (st : TorApp)
    (s conn circ : Nat)
    (hreq : req.length = 10000)
    (hrx : sock.GetRxAvailable = 10000)
    (hrecv : ∀ n, sock.Recv n = req.take n)
    (hl : LookupConn st (some s) = some conn)
    (he : (st.conns conn).conn_type = EDGE_CONN)
    (hb : (st.conns conn).reading_blocked = false)
    (hi : (st.conns conn).inbuf = [])
    (ha : (st.conns conn).active_circuits = some circ)
    (hid : (st.circs circ).circ_id = 1)
    (hp : (st.circs circ).p_conn = conn)
    (hn : (st.conns (st.circs circ).n_conn).conn_type = OR_CONN)
    (hw : (st.circs circ).package_window = CIRCWINDOW_START)
    (hbucket : 127488 ≤ st.m_readbucket.size) :
    ∃ res cells, ConnReadCallback sock st (some s) = some res ∧
      res.2.read_bytes = 10000 ∧
      (st.circs circ).GetConnection OUTBOUND = (st.circs circ).n_conn ∧
      (res.1.circs circ).GetQueue OUTBOUND = (st.circs circ).GetQueue OUTBOUND ++ cells ∧
      cells.length = 20 ∧
      (∀ c ∈ cells, (PeekHeader c).cmd = RELAY_DATA ∧ (PeekHeader c).circId = 1 ∧
        (PeekHeader c).length = 498 ∧ c.length = 512) ∧
      (cells.map (fun c => c.drop CELL_HEADER_SIZE)).flatten ++ (res.1.conns conn).inbuf = req ∧
      (cells.map (fun c => (c.drop CELL_HEADER_SIZE).length)).sum = 9960 ∧
      (res.1.conns conn).inbuf.length = 40 := by
  obtain ⟨st', log, hrun, _, h2, h3, h4, h5, h6, _, h8⟩ :=
    ConnReadCallback_request sock req st s conn circ hreq hrx hrecv hl he hb hi ha hid hp hn hw
      hbucket
  have hdrop : log.packet_list.map (fun c => (PackageRelayCellImpl 1 c).drop CELL_HEADER_SIZE)
      = log.packet_list := by
    conv_rhs => rw [← List.map_id log.packet_list]
    apply List.map_congr_left
    intro c _
    exact (PackageRelayCellImpl_header 1 c).2.2.2.2
  refine ⟨(st', log), log.packet_list.map (PackageRelayCellImpl 1), hrun, h2, ?_, h8, ?_, ?_, ?_,
    ?_, h6⟩
  · simp [Circuit.GetConnection]
  · simp [h3]
  · intro c hc
    simp only [List.mem_map] at hc
    obtain ⟨p, hp', rfl⟩ := hc
    have hh := PackageRelayCellImpl_header 1 p
    have hl' := PackageRelayCellImpl_length 1 p
    rw [h4 p hp'] at hh hl'
    exact ⟨hh.1, by simpa using hh.2.2.1, by simpa using hh.2.2.2.1,
      by simpa [CELL_HEADER_SIZE] using hl'⟩
  · rw [List.map_map]
    simp only [Function.comp_def]
    rw [hdrop]
    exact h5
  · rw [List.map_map]
    simp only [Function.comp_def]
    have : log.packet_list.map (fun c => ((PackageRelayCellImpl 1 c).drop CELL_HEADER_SIZE).length)
        = log.packet_list.map List.length := by
      apply List.map_congr_left
      intro c _
      rw [(PackageRelayCellImpl_header 1 c).2.2.2.2]
    rw [this, sum_const_length _ 498 h4, h3]

/-! ## Relaying a cell -/

/-- `AppendCellToCircuitQueue` is `PushCell` followed by `ScheduleWrite` on the connection of
the direction. -/
theorem AppendCellToCircuitQueue_eq (st : TorApp) (circ : Nat) (cell : Packet)
    (d : CellDirection) :
    AppendCellToCircuitQueue st (some circ) (some cell) d =
      (PushCell st circ (some cell) d).map
        (fun s => s.modConn ((st.circs circ).GetConnection d) (fun k => k.ScheduleWrite 0)) := by
  unfold AppendCellToCircuitQueue
  cases h : PushCell st circ (some cell) d <;> simp [h]

/-- `PushCell` touches no connection other than edge connections. -/
theorem PushCell_nonedge (st st' : TorApp) (c : Nat) (cell : Option Packet)
    (d : CellDirection) (h : PushCell st c cell d = some st') (k : Nat)
    (hk : (st.conns k).conn_type ≠ EDGE_CONN) : st'.conns k = st.conns k := by
  unfold PushCell at h
  cases cell with
  | none => simp at h; rw [← h]
  | some pkt =>
    simp only at h
    split_ifs at h <;> first
      | (simp only [Option.some.injEq] at h; subst h
         all_goals (try simp only [modConn_conns, modCirc_conns, SetBlocked_eq, ScheduleRead_eq] at *)
         all_goals (try split_ifs at *)
         all_goals (try simp_all)
         )
      | (split at h
         · simp at h
         · simp only [Option.some.injEq] at h; subst h
           all_goals (try simp only [modConn_conns, modCirc_conns, SetBlocked_eq, ScheduleRead_eq] at *)
           all_goals (try split_ifs at *)
           all_goals (try simp_all)
           )

/-- A cell pushed toward a connection that is not an edge connection: the call completes and
puts the cell, as it is, at the back of the queue of the direction. -/
theorem PushCell_relayed (st : TorApp) (c : Nat) (pkt : Packet) (d : CellDirection)
    (hconn : (st.conns ((st.circs c).GetConnection d)).conn_type ≠ EDGE_CONN) :
    ∃ st', PushCell st c (some pkt) d = some st' ∧
      (st'.circs c).GetQueue d = (st.circs c).GetQueue d ++ [pkt] ∧
      (st'.circs c).GetQueue (GetOppositeDirection d)
        = (st.circs c).GetQueue (GetOppositeDirection d) ∧
      (st'.circs c).deliver_window = (st.circs c).deliver_window ∧
      (st'.circs c).package_window =
        (if (st.conns ((st.circs c).GetOppositeConnection d)).conn_type = EDGE_CONN
          then (st.circs c).package_window - 1 else (st.circs c).package_window) ∧
      (∀ k, (st.conns k).conn_type ≠ EDGE_CONN → st'.conns k = st.conns k) := by
  obtain ⟨st', h⟩ := PushCell_completes st c pkt d (Or.inl hconn)
  have hq := PushCell_queue st st' c pkt d h
  have hfr := PushCell_circ_frame st st' c (some pkt) d h
  simp only [enqueuedBy, and_self, if_true, hconn, if_false] at hq
  refine ⟨st', h, hq, hfr.2.2.2.2.2.2, hfr.2.2.2.2.2.1, ?_, PushCell_nonedge st st' c _ d h⟩
  by_cases hopp : (st.conns ((st.circs c).GetOppositeConnection d)).conn_type = EDGE_CONN
  · rw [if_pos hopp]
    exact (PushCell_packaging st st' c pkt d hopp (fun hh => hconn hh.1) h).1
  · rw [if_neg hopp]
    unfold PushCell at h
    simp only [if_neg hopp, if_neg hconn, Option.some.injEq] at h
    subst h
    cases d <;> simp [SetQueue_eq, IncStatsBytes_eq, modCirc_circs]

/-! ## Blocked connections -/

/-- `Connection::Read` on a blocked connection returns 0 and touches nothing. -/
theorem Read_blocked (Recv : Nat → List Nat) (st : TorApp) (k : Nat) (packet_list : List Packet)
    (max_read : Nat) (hb : (st.conns k).reading_blocked = true) :
    Read Recv st k packet_list max_read = some (0, packet_list, st) := by
  simp [Read, hb]

/-- `TorApp::ConnReadCallback` on a blocked connection returns at once. -/
theorem ConnReadCallback_blocked (sock : ReadSocket) (st : TorApp) (s k : Nat)
    (hl : LookupConn st (some s) = some k) (hb : (st.conns k).reading_blocked = true) :
    ConnReadCallback sock st (some s)
      = some (st, { max_read := 0, read_bytes := 0, packet_list := [] }) := by
  simp [ConnReadCallback, hl, hb]

/-- `PushCell` changes the read event of a connection only when it unblocks it. -/
theorem PushCell_read_event (st st' : TorApp) (c : Nat) (cell : Option Packet)
    (d : CellDirection) (h : PushCell st c cell d = some st') (k : Nat)
    (hk : (st'.conns k).read_event ≠ (st.conns k).read_event) :
    (st'.conns k).reading_blocked = false := by
  unfold PushCell at h
  cases cell with
  | none => simp at h; subst h; exact absurd rfl hk
  | some pkt =>
    simp only at h
    split_ifs at h <;> first
      | (simp only [Option.some.injEq] at h; subst h
         all_goals (try simp only [modConn_conns, modCirc_conns, SetBlocked_eq, ScheduleRead_eq] at *)
         all_goals (try split_ifs at *)
         all_goals (try simp_all)
         )
      | (split at h
         · simp at h
         · simp only [Option.some.injEq] at h; subst h
           all_goals (try simp only [modConn_conns, modCirc_conns, SetBlocked_eq, ScheduleRead_eq] at *)
           all_goals (try split_ifs at *)
           all_goals (try simp_all)
           )

/-! ## Packaging a payload -/

/-- The circuit id kept by the header of a packaged cell, as a natural number. -/
theorem PackageRelayCellImpl_circId (id : Nat) (cell : Packet) :
    (PeekHeader (PackageRelayCellImpl id cell)).circId = id % 65536 := by
  rw [(PackageRelayCellImpl_header id cell).2.2.1]
  omega

/-! ## Waking the connections after a refill -/

/-- Applying an idempotent update to each connection of a list: the listed connections are
updated once, the others are as before. -/
theorem foldl_modConn_conns (f : Connection → Connection) (hf : ∀ x, f (f x) = f x) :
    ∀ (l : List Nat) (st : TorApp) (k : Nat),
      (l.foldl (fun s conn => s.modConn conn f) st).conns k =
        if k ∈ l then f (st.conns k) else st.conns k := by
  intro l
  induction l with
  | nil => intro st k; simp
  | cons a l ih =>
    intro st k
    rw [List.foldl_cons, ih, modConn_conns]
    by_cases hka : k = a
    · subst hka
      simp [hf]
    · by_cases hkl : k ∈ l
      · simp [hka, hkl]
      · simp [hka, hkl]

theorem foldl_modConn_circs (f : Connection → Connection) :
    ∀ (l : List Nat) (st : TorApp),
      (l.foldl (fun s conn => s.modConn conn f) st).circs = st.circs := by
  intro l
  induction l with
  | nil => intro st; rfl
  | cons a l ih => intro st; rw [List.foldl_cons, ih]; rfl

theorem ScheduleRead_idem (x : Connection) (delay : Nat) :
    (x.ScheduleRead delay).ScheduleRead delay = x.ScheduleRead delay := by
  unfold Connection.ScheduleRead
  cases hs : x.socket <;> cases hr : x.read_event <;> simp [hs, hr]

theorem ScheduleWrite_idem (x : Connection) (delay : Nat) :
    (x.ScheduleWrite delay).ScheduleWrite delay = x.ScheduleWrite delay := by
  unfold Connection.ScheduleWrite
  cases hs : x.socket <;> cases hr : x.write_event <;> simp [hs, hr]

/-- A pending read event is left alone by `ScheduleRead`. -/
theorem ScheduleRead_pending (x : Connection) (delay : Nat) (h : x.read_event ≠ none) :
    x.ScheduleRead delay = x := by
  unfold Connection.ScheduleRead
  cases hr : x.read_event with
  | none => exact absurd hr h
  | some e => simp

/-- A pending write event is left alone by `ScheduleWrite`. -/
theorem ScheduleWrite_pending (x : Connection) (delay : Nat) (h : x.write_event ≠ none) :
    x.ScheduleWrite delay = x := by
  unfold Connection.ScheduleWrite
  cases hr : x.write_event with
  | none => exact absurd hr h
  | some e => simp

/-- Closed form of `RefillReadCallback` on the connections. -/
theorem RefillReadCallback_conns (st : TorApp) (prev : Int) (k : Nat) :
    (RefillReadCallback st prev).conns k =
      if (prev ≤ 0 ∧ st.m_readbucket.GetSize > 0) ∧ k ∈ st.connections
        then (st.conns k).ScheduleRead 10 else st.conns k := by
  unfold RefillReadCallback
  by_cases hc : prev ≤ 0 ∧ st.m_readbucket.GetSize > 0
  · rw [if_pos hc, foldl_modConn_conns _ (fun x => ScheduleRead_idem x 10)]
    simp [hc]
  · rw [if_neg hc]
    simp [hc]

/-- Closed form of `RefillWriteCallback` on the connections. -/
theorem RefillWriteCallback_conns (st : TorApp) (prev : Int) (k : Nat) :
    (RefillWriteCallback st prev).conns k =
      if (prev ≤ 0 ∧ st.m_writebucket.GetSize > 0) ∧ k ∈ st.connections
        then (st.conns k).ScheduleWrite 0 else st.conns k := by
  unfold RefillWriteCallback
  by_cases hc : prev ≤ 0 ∧ st.m_writebucket.GetSize > 0
  · rw [if_pos hc, foldl_modConn_conns _ (fun x => ScheduleWrite_idem x 0)]
    simp [hc]
  · rw [if_neg hc]
    simp [hc]

/-- A second `RefillReadCallback` changes no connection that the first one has woken. -/
theorem RefillReadCallback_again (st : TorApp) (prev prev' : Int) (k : Nat)
    (hc : prev ≤ 0 ∧ st.m_readbucket.GetSize > 0) :
    (RefillReadCallback (RefillReadCallback st prev) prev').conns k
      = (RefillReadCallback st prev).conns k := by
  rw [RefillReadCallback_conns (RefillReadCallback st prev) prev', RefillReadCallback_conns st prev,
    (RefillReadCallback_relay st prev).1]
  split_ifs <;> simp_all [ScheduleRead_idem]

/-- A second `RefillWriteCallback` changes no connection that the first one has woken. -/
theorem RefillWriteCallback_again (st : TorApp) (prev prev' : Int) (k : Nat)
    (hc : prev ≤ 0 ∧ st.m_writebucket.GetSize > 0) :
    (RefillWriteCallback (RefillWriteCallback st prev) prev').conns k
      = (RefillWriteCallback st prev).conns k := by
  rw [RefillWriteCallback_conns (RefillWriteCallback st prev) prev',
    RefillWriteCallback_conns st prev, (RefillWriteCallback_relay st prev).1]
  split_ifs <;> simp_all [ScheduleWrite_idem]

/-! ## `Circuit::SendCell` -/

/-- `SendCell` returns 0 and leaves the relay as it is when the queue of the direction is
empty, when the target connection is blocked, or when the socket of the target connection
cannot take a whole cell. -/
theorem SendCell_idle (GetTxAvailable : Nat) (Send : List Nat → Int) (st : TorApp) (c : Nat)
    (d : CellDirection)
    (h : (st.circs c).GetQueue d = [] ∨
      (st.conns ((st.circs c).GetConnection d)).reading_blocked = true ∨
      ((st.conns ((st.circs c).GetConnection d)).socket ≠ none ∧
        GetTxAvailable < CELL_NETWORK_SIZE)) :
    SendCell GetTxAvailable Send st c d = some (0, st) := by
  unfold SendCell
  simp only
  by_cases h1 : ((st.circs c).GetQueue d).length ≤ 0
  · rw [if_pos h1]
  · rw [if_neg h1]
    by_cases h2 : (st.conns ((st.circs c).GetConnection d)).reading_blocked = true
    · rw [if_pos h2]
    · rw [if_neg h2]
      rcases h with h | h | ⟨hs, ht⟩
      · rw [h] at h1; simp at h1
      · exact absurd h h2
      · cases hsock : (st.conns ((st.circs c).GetConnection d)).socket with
        | none => exact absurd hsock hs
        | some s => simp only []; rw [if_pos ht]

/-- Otherwise `SendCell` pops the head of the queue, hands it to `Send` and returns the `int`
that `Send` answers, as a `uint32_t`. -/
theorem SendCell_sends (GetTxAvailable : Nat) (Send : List Nat → Int) (st : TorApp) (c : Nat)
    (d : CellDirection) (cell : Packet) (rest : List Packet)
    (hq : (st.circs c).GetQueue d = cell :: rest)
    (hb : (st.conns ((st.circs c).GetConnection d)).reading_blocked = false)
    (hs : (st.conns ((st.circs c).GetConnection d)).socket ≠ none)
    (ht : CELL_NETWORK_SIZE ≤ GetTxAvailable) :
    SendCell GetTxAvailable Send st c d
      = some ((Send cell % 4294967296).toNat, (PopCell st c d).2) ∧
    (PopCell st c d).1 = some cell ∧
    ((PopCell st c d).2.circs c).GetQueue d = rest ∧
    (0 ≤ Send cell → Send cell < 4294967296 →
      (((Send cell % 4294967296).toNat : Nat) : Int) = Send cell) := by
  have hp : (PopCell st c d).1 = some cell := by
    unfold PopCell
    simp [hq, PopQueue]
  refine ⟨?_, hp, ?_, ?_⟩
  · unfold SendCell
    cases hsock : (st.conns ((st.circs c).GetConnection d)).socket with
    | none => exact absurd hsock hs
    | some s =>
      simp only [hq, hb, hp, hsock]
      simp [Nat.not_lt.mpr ht]
  · rw [(PopCell_circ_frame st c d).2.2.2.2.2.2, hq]
    rfl
  · intro h0 h1
    omega

/-! ## Configuration: connections -/

theorem le_foldl_max (l : List Nat) : ∀ (init : Nat),
    init ≤ l.foldl max init ∧ ∀ x ∈ l, x ≤ l.foldl max init := by
  induction l with
  | nil => intro init; simp
  | cons a l ih =>
    intro init
    rw [List.foldl_cons]
    have h := ih (max init a)
    refine ⟨le_trans (le_max_left _ _) h.1, ?_⟩
    intro x hx
    rcases List.mem_cons.mp hx with hx | hx
    · subst hx
      exact le_trans (le_max_right _ _) h.1
    · exact h.2 x hx

/-- The identity that `Create<Connection>` returns is the identity of no live connection. -/
theorem freshConn_not_mem (st : TorApp) : freshConn st ∉ st.connections := by
  intro h
  have := (le_foldl_max st.connections 0).2 _ h
  unfold freshConn at this
  omega

/-- `AddConnection` with an invalid type aborts. -/
theorem AddConnection_invalid (st : TorApp) (ip : Nat) (t : Int)
    (ht : ¬ (t = OR_CONN ∨ t = EDGE_CONN)) : AddConnection st ip t = none := by
  unfold AddConnection
  rw [if_neg ht]

/-- `AddConnection` for an address that a listed connection has: the first such connection is
returned and the relay is unchanged. -/
theorem AddConnection_found (st : TorApp) (ip : Nat) (t : Int)
    (ht : t = OR_CONN ∨ t = EDGE_CONN) (k : Nat)
    (hf : st.connections.find? (fun k => decide ((st.conns k).remote = ip)) = some k) :
    AddConnection st ip t = some (k, st) := by
  unfold AddConnection
  rw [if_pos ht, hf]

/-- `AddConnection` for an address that no listed connection has. -/
theorem AddConnection_fresh (st : TorApp) (ip : Nat) (t : Int)
    (ht : t = OR_CONN ∨ t = EDGE_CONN)
    (hf : st.connections.find? (fun k => decide ((st.conns k).remote = ip)) = none) :
    AddConnection st ip t = some (freshConn st,
      { st with
        conns := setAt st.conns (freshConn st) (Connection.new ip t.toNat)
        connections := st.connections ++ [freshConn st] }) := by
  unfold AddConnection
  rw [if_pos ht, hf]

/-- With distinct remote addresses, the connection that `find?` meets first for an address is
the only listed connection with that address. -/
theorem find_remote (st : TorApp) (ip k : Nat) (hd : remotesDistinct st)
    (hk : k ∈ st.connections) (hr : (st.conns k).remote = ip) :
    st.connections.find? (fun k => decide ((st.conns k).remote = ip)) = some k := by
  cases hf : st.connections.find? (fun k => decide ((st.conns k).remote = ip)) with
  | none =>
    have := List.find?_eq_none.mp hf k hk
    simp [hr] at this
  | some j =>
    have hj := List.mem_of_find?_eq_some hf
    have hjr := List.find?_some hf
    simp only [decide_eq_true_eq] at hjr
    have := List.inj_on_of_nodup_map hd hj hk (by rw [hjr, hr])
    rw [this]

/-- `AddConnection` keeps the remote addresses distinct. -/
theorem AddConnection_distinct (st st' : TorApp) (ip : Nat) (t : Int) (k : Nat)
    (hd : remotesDistinct st) (h : AddConnection st ip t = some (k, st')) :
    remotesDistinct st' := by
  by_cases ht : t = OR_CONN ∨ t = EDGE_CONN
  · cases hf : st.connections.find? (fun k => decide ((st.conns k).remote = ip)) with
    | some j =>
      rw [AddConnection_found st ip t ht j hf] at h
      simp only [Option.some.injEq, Prod.mk.injEq] at h
      rw [← h.2]; exact hd
    | none =>
      rw [AddConnection_fresh st ip t ht hf] at h
      simp only [Option.some.injEq, Prod.mk.injEq] at h
      rw [← h.2]
      unfold remotesDistinct
      simp only [List.map_append, List.map_cons, List.map_nil, setAt_same]
      have hmap : st.connections.map
          (fun k => (setAt st.conns (freshConn st) (Connection.new ip t.toNat) k).remote)
          = st.connections.map (fun k => (st.conns k).remote) := by
        apply List.map_congr_left
        intro j hj
        rw [setAt_other]
        intro hjf
        exact freshConn_not_mem st (hjf ▸ hj)
      rw [hmap]
      refine List.Nodup.append hd (List.nodup_singleton _) ?_
      intro x hmem hx
      rw [List.mem_singleton] at hx
      subst hx
      obtain ⟨j, hj, hjr⟩ := List.mem_map.mp hmem
      have := List.find?_eq_none.mp hf j hj
      simp [hjr] at this
  · rw [AddConnection_invalid st ip t ht] at h
    exact absurd h (by simp)

/-- `AddConnection` with a valid type returns. -/
theorem AddConnection_returns (st : TorApp) (ip : Nat) (t : Int)
    (ht : t = OR_CONN ∨ t = EDGE_CONN) : ∃ k st', AddConnection st ip t = some (k, st') := by
  cases hf : st.connections.find? (fun k => decide ((st.conns k).remote = ip)) with
  | some j => exact ⟨_, _, AddConnection_found st ip t ht j hf⟩
  | none => exact ⟨_, _, AddConnection_fresh st ip t ht hf⟩

/-- `AddConnection` touches no circuit, no bucket and not the circuit map. -/
theorem AddConnection_frame (st st' : TorApp) (ip : Nat) (t : Int) (k : Nat)
    (h : AddConnection st ip t = some (k, st')) :
    st'.circs = st.circs ∧ st'.circuits = st.circuits ∧
    st'.m_readbucket = st.m_readbucket ∧ st'.m_writebucket = st.m_writebucket := by
  by_cases ht : t = OR_CONN ∨ t = EDGE_CONN
  · cases hf : st.connections.find? (fun k => decide ((st.conns k).remote = ip)) with
    | some j =>
      rw [AddConnection_found st ip t ht j hf] at h
      simp only [Option.some.injEq, Prod.mk.injEq] at h
      rw [← h.2]; exact ⟨rfl, rfl, rfl, rfl⟩
    | none =>
      rw [AddConnection_fresh st ip t ht hf] at h
      simp only [Option.some.injEq, Prod.mk.injEq] at h
      rw [← h.2]; exact ⟨rfl, rfl, rfl, rfl⟩
  · rw [AddConnection_invalid st ip t ht] at h
    exact absurd h (by simp)

/-- The connection that `AddConnection` returns is listed and has the address asked for. -/
theorem AddConnection_result (st st' : TorApp) (ip : Nat) (t : Int) (k : Nat)
    (h : AddConnection st ip t = some (k, st')) :
    k ∈ st'.connections ∧ (st'.conns k).remote = ip := by
  by_cases ht : t = OR_CONN ∨ t = EDGE_CONN
  · cases hf : st.connections.find? (fun k => decide ((st.conns k).remote = ip)) with
    | some j =>
      rw [AddConnection_found st ip t ht j hf] at h
      simp only [Option.some.injEq, Prod.mk.injEq] at h
      rw [← h.2, ← h.1]
      have hjr := List.find?_some hf
      simp only [decide_eq_true_eq] at hjr
      exact ⟨List.mem_of_find?_eq_some hf, hjr⟩
    | none =>
      rw [AddConnection_fresh st ip t ht hf] at h
      simp only [Option.some.injEq, Prod.mk.injEq] at h
      rw [← h.2, ← h.1]
      simp [Connection.new]
  · rw [AddConnection_invalid st ip t ht] at h
    exact absurd h (by simp)

/-- Closed form of `AddActiveCircuit` on a connection and a circuit. -/
theorem AddActiveCircuit_eq (st : TorApp) (conn circ : Nat) :
    AddActiveCircuit st (some conn) (some circ) =
      some (match (st.conns conn).active_circuits with
        | none =>
          (st.modConn conn (fun k => k.SetActiveCircuits (some circ))).modCirc circ
            (fun x => x.SetNextCirc conn (some circ))
        | some head =>
          (st.modCirc circ (fun x => x.SetNextCirc conn ((st.circs head).GetNextCirc conn))).modCirc
            head (fun x => x.SetNextCirc conn (some circ))) := by
  unfold AddActiveCircuit
  cases h : (st.conns conn).active_circuits <;> simp [h]

/-- `AddActiveCircuit` changes the ring head of the connection and nothing else of the
connections, the list of connections, the circuit map and the buckets. -/
theorem AddActiveCircuit_frame (st st' : TorApp) (conn circ : Nat)
    (h : AddActiveCircuit st (some conn) (some circ) = some st') :
    sameRelay st st' ∧
    (∀ k, st'.conns k = { st.conns k with active_circuits := (st'.conns k).active_circuits }) ∧
    (∀ k, k ≠ conn → st'.conns k = st.conns k) := by
  rw [AddActiveCircuit_eq] at h
  simp only [Option.some.injEq] at h
  subst h
  cases ha : (st.conns conn).active_circuits with
  | none =>
    refine ⟨sameRelay_trans (sameRelay_modConn _ _ _) (sameRelay_modCirc _ _ _), ?_, ?_⟩
    · intro k
      simp only [modCirc_conns, modConn_conns]
      split_ifs with hk
      · subst hk; rfl
      · rfl
    · intro k hk
      simp [modConn_conns, hk]
  | some head =>
    refine ⟨sameRelay_trans (sameRelay_modCirc _ _ _) (sameRelay_modCirc _ _ _), ?_, ?_⟩
    · intro k; rfl
    · intro k _; rfl

/-- `AddActiveCircuit` keeps the remote addresses distinct. -/
theorem AddActiveCircuit_distinct (st st' : TorApp) (conn circ : Nat)
    (hd : remotesDistinct st) (h : AddActiveCircuit st (some conn) (some circ) = some st') :
    remotesDistinct st' := by
  obtain ⟨hr, hc, _⟩ := AddActiveCircuit_frame st st' conn circ h
  unfold remotesDistinct at hd ⊢
  rw [hr.1]
  have : (fun k => (st'.conns k).remote) = (fun k => (st.conns k).remote) := by
    funext k
    rw [hc k]
  rw [this]
  exact hd

/-! ## Configuration: circuits -/

/-- `AddCircuit` aborts when the id is taken or a connection type is invalid. -/
theorem AddCircuit_abort (circ : Nat) (st : TorApp) (id : Int) (n_ip : Nat) (nt : Int)
    (p_ip : Nat) (pt : Int)
    (h : st.circuits (id % 65536).toNat ≠ none ∨ ¬ (nt = OR_CONN ∨ nt = EDGE_CONN)
      ∨ ¬ (pt = OR_CONN ∨ pt = EDGE_CONN)) :
    AddCircuit circ st id n_ip nt p_ip pt = none := by
  unfold AddCircuit
  by_cases h1 : st.circuits (id % 65536).toNat ≠ none
  · rw [if_pos h1]
  · rw [if_neg h1]
    by_cases h2 : ¬ (nt = OR_CONN ∨ nt = EDGE_CONN)
    · rw [if_pos h2]
    · rw [if_neg h2]
      by_cases h3 : ¬ (pt = OR_CONN ∨ pt = EDGE_CONN)
      · rw [if_pos h3]
      · rcases h with h | h | h
        · exact absurd h h1
        · exact absurd h h2
        · exact absurd h h3

/-- The steps of an `AddCircuit` whose id is free and whose connection types are valid: the
call returns. -/
theorem AddCircuit_steps (circ : Nat) (st : TorApp) (id : Int) (n_ip : Nat) (nt : Int)
    (p_ip : Nat) (pt : Int) (hreg : st.circuits (id % 65536).toNat = none)
    (hn : nt = OR_CONN ∨ nt = EDGE_CONN) (hp : pt = OR_CONN ∨ pt = EDGE_CONN) :
    ∃ p_conn st1 n_conn st2 st3 st4,
      AddConnection st p_ip pt = some (p_conn, st1) ∧
      AddConnection st1 n_ip nt = some (n_conn, st2) ∧
      AddActiveCircuit
        { st2 with circs := setAt st2.circs circ (Circuit.new id n_conn p_conn) }
        (some p_conn) (some circ) = some st3 ∧
      AddActiveCircuit st3 (some n_conn) (some circ) = some st4 ∧
      AddCircuit circ st id n_ip nt p_ip pt =
        some { st4 with circuits := setAt st4.circuits (id % 65536).toNat (some circ) } := by
  obtain ⟨p_conn, st1, h1⟩ := AddConnection_returns st p_ip pt hp
  obtain ⟨n_conn, st2, h2⟩ := AddConnection_returns st1 n_ip nt hn
  obtain ⟨st3, h3⟩ : ∃ st3, AddActiveCircuit
      { st2 with circs := setAt st2.circs circ (Circuit.new id n_conn p_conn) }
      (some p_conn) (some circ) = some st3 := ⟨_, AddActiveCircuit_eq _ p_conn circ⟩
  obtain ⟨st4, h4⟩ : ∃ st4, AddActiveCircuit st3 (some n_conn) (some circ) = some st4 :=
    ⟨_, AddActiveCircuit_eq st3 n_conn circ⟩
  refine ⟨p_conn, st1, n_conn, st2, st3, st4, h1, h2, h3, h4, ?_⟩
  unfold AddCircuit
  simp only [hreg, h1, h2, h3, h4]
  simp [hn, hp]

/-- An `AddCircuit` that returns had a free id and valid connection types. -/
theorem AddCircuit_valid (circ : Nat) (st st' : TorApp) (id : Int) (n_ip : Nat) (nt : Int)
    (p_ip : Nat) (pt : Int) (h : AddCircuit circ st id n_ip nt p_ip pt = some st') :
    st.circuits (id % 65536).toNat = none ∧ (nt = OR_CONN ∨ nt = EDGE_CONN) ∧
      (pt = OR_CONN ∨ pt = EDGE_CONN) := by
  by_contra hc
  have : st.circuits (id % 65536).toNat ≠ none ∨ ¬ (nt = OR_CONN ∨ nt = EDGE_CONN)
      ∨ ¬ (pt = OR_CONN ∨ pt = EDGE_CONN) := by
    by_cases h1 : st.circuits (id % 65536).toNat = none
    · by_cases h2 : nt = OR_CONN ∨ nt = EDGE_CONN
      · right; right
        intro h3
        exact hc ⟨h1, h2, h3⟩
      · exact Or.inr (Or.inl h2)
    · exact Or.inl h1
  rw [AddCircuit_abort circ st id n_ip nt p_ip pt this] at h
  exact absurd h (by simp)

/-- `AddCircuit` keeps the remote addresses distinct. -/
theorem AddCircuit_distinct (circ : Nat) (st st' : TorApp) (id : Int) (n_ip : Nat) (nt : Int)
    (p_ip : Nat) (pt : Int) (hd : remotesDistinct st)
    (h : AddCircuit circ st id n_ip nt p_ip pt = some st') : remotesDistinct st' := by
  obtain ⟨hreg, hn, hp⟩ := AddCircuit_valid circ st st' id n_ip nt p_ip pt h
  obtain ⟨p_conn, st1, n_conn, st2, st3, st4, h1, h2, h3, h4, h5⟩ :=
    AddCircuit_steps circ st id n_ip nt p_ip pt hreg hn hp
  rw [h5] at h
  simp only [Option.some.injEq] at h
  subst h
  have d1 := AddConnection_distinct st st1 p_ip pt p_conn hd h1
  have d2 := AddConnection_distinct st1 st2 n_ip nt n_conn d1 h2
  have d3 := AddActiveCircuit_distinct _ st3 p_conn circ (show remotesDistinct
    { st2 with circs := setAt st2.circs circ (Circuit.new id n_conn p_conn) } from d2) h3
  exact AddActiveCircuit_distinct _ st4 n_conn circ d3 h4

/-- A sequence of configuration calls keeps the remote addresses distinct. -/
theorem runConfig_distinct (ops : List ConfigOp) : ∀ (st st' : TorApp),
    remotesDistinct st → runConfig ops st = some st' → remotesDistinct st' := by
  induction ops with
  | nil =>
    intro st st' hd h
    simp only [runConfig, Option.some.injEq] at h
    rw [← h]; exact hd
  | cons op ops ih =>
    intro st st' hd h
    cases op with
    | addConnection ip t =>
      simp only [runConfig] at h
      cases h1 : AddConnection st ip t with
      | none => rw [h1] at h; simp at h
      | some r =>
        obtain ⟨k, s⟩ := r
        rw [h1] at h
        exact ih s st' (AddConnection_distinct st s ip t k hd h1) h
    | addCircuit circ id n_ip nt p_ip pt =>
      simp only [runConfig] at h
      cases h1 : AddCircuit circ st id n_ip nt p_ip pt with
      | none => rw [h1] at h; simp at h
      | some s =>
        rw [h1] at h
        exact ih s st' (AddCircuit_distinct circ st s id n_ip nt p_ip pt hd h1) h

theorem sameButRing_refl (x : Circuit) : sameButRing x x :=
  ⟨rfl, rfl, rfl, rfl, rfl, rfl, rfl, rfl, rfl, rfl, rfl⟩

theorem sameButRing_trans {x y z : Circuit} (h1 : sameButRing x y) (h2 : sameButRing y z) :
    sameButRing x z := by
  unfold sameButRing at *
  obtain ⟨a1, a2, a3, a4, a5, a6, a7, a8, a9, a10, a11⟩ := h1
  obtain ⟨b1, b2, b3, b4, b5, b6, b7, b8, b9, b10, b11⟩ := h2
  exact ⟨b1.trans a1, b2.trans a2, b3.trans a3, b4.trans a4, b5.trans a5, b6.trans a6,
    b7.trans a7, b8.trans a8, b9.trans a9, b10.trans a10, b11.trans a11⟩

theorem sameButRing_SetNextCirc (x : Circuit) (conn : Nat) (c : Option Nat) :
    sameButRing x (x.SetNextCirc conn c) := by
  unfold Circuit.SetNextCirc
  split_ifs <;> exact ⟨rfl, rfl, rfl, rfl, rfl, rfl, rfl, rfl, rfl, rfl, rfl⟩

/-- `AddActiveCircuit` changes ring pointers only. -/
theorem AddActiveCircuit_circs (st st' : TorApp) (conn circ : Nat)
    (h : AddActiveCircuit st (some conn) (some circ) = some st') (c : Nat) :
    sameButRing (st.circs c) (st'.circs c) := by
  rw [AddActiveCircuit_eq] at h
  simp only [Option.some.injEq] at h
  subst h
  cases ha : (st.conns conn).active_circuits with
  | none =>
    simp only [modCirc_circs, modConn_circs]
    split_ifs with hc
    · subst hc; exact sameButRing_SetNextCirc _ _ _
    · exact sameButRing_refl _
  | some head =>
    simp only [modCirc_circs]
    split_ifs with h1 h2 h2
    · subst h1; subst h2
      exact sameButRing_trans (sameButRing_SetNextCirc _ _ _) (sameButRing_SetNextCirc _ _ _)
    · subst h1; exact sameButRing_SetNextCirc _ _ _
    · subst h2; exact sameButRing_SetNextCirc _ _ _
    · exact sameButRing_refl _

/-- `AddConnection` keeps the listed connections, as they are. -/
theorem AddConnection_old (st st' : TorApp) (ip : Nat) (t : Int) (k : Nat)
    (h : AddConnection st ip t = some (k, st')) (j : Nat) (hj : j ∈ st.connections) :
    j ∈ st'.connections ∧ st'.conns j = st.conns j := by
  by_cases ht : t = OR_CONN ∨ t = EDGE_CONN
  · cases hf : st.connections.find? (fun k => decide ((st.conns k).remote = ip)) with
    | some i =>
      rw [AddConnection_found st ip t ht i hf] at h
      simp only [Option.some.injEq, Prod.mk.injEq] at h
      rw [← h.2]; exact ⟨hj, rfl⟩
    | none =>
      rw [AddConnection_fresh st ip t ht hf] at h
      simp only [Option.some.injEq, Prod.mk.injEq] at h
      rw [← h.2]
      refine ⟨List.mem_append_left _ hj, setAt_other _ _ _ _ ?_⟩
      intro hjf
      exact freshConn_not_mem st (hjf ▸ hj)
  · rw [AddConnection_invalid st ip t ht] at h
    exact absurd h (by simp)

/-- What a returning `AddCircuit` leaves behind. -/
theorem AddCircuit_spec (circ : Nat) (st : TorApp) (id : Int) (n_ip : Nat) (nt : Int)
    (p_ip : Nat) (pt : Int) (hreg : st.circuits (id % 65536).toNat = none)
    (hn : nt = OR_CONN ∨ nt = EDGE_CONN) (hp : pt = OR_CONN ∨ pt = EDGE_CONN) :
    ∃ st' p_conn n_conn, AddCircuit circ st id n_ip nt p_ip pt = some st' ∧
      st'.circuits = setAt st.circuits (id % 65536).toNat (some circ) ∧
      sameButRing (Circuit.new id n_conn p_conn) (st'.circs circ) ∧
      (∀ c, c ≠ circ → sameButRing (st.circs c) (st'.circs c)) ∧
      p_conn ∈ st'.connections ∧ (st'.conns p_conn).remote = p_ip ∧
      n_conn ∈ st'.connections ∧ (st'.conns n_conn).remote = n_ip := by
  obtain ⟨p_conn, st1, n_conn, st2, st3, st4, h1, h2, h3, h4, h5⟩ :=
    AddCircuit_steps circ st id n_ip nt p_ip pt hreg hn hp
  have f1 := AddConnection_frame st st1 p_ip pt p_conn h1
  have f2 := AddConnection_frame st1 st2 n_ip nt n_conn h2
  have f3 := AddActiveCircuit_frame _ st3 p_conn circ h3
  have f4 := AddActiveCircuit_frame st3 st4 n_conn circ h4
  have c3 := AddActiveCircuit_circs _ st3 p_conn circ h3
  have c4 := AddActiveCircuit_circs st3 st4 n_conn circ h4
  have r1 := AddConnection_result st st1 p_ip pt p_conn h1
  have r2 := AddConnection_result st1 st2 n_ip nt n_conn h2
  refine ⟨_, p_conn, n_conn, h5, ?_, ?_, ?_, ?_, ?_, ?_, ?_⟩
  · show setAt st4.circuits _ _ = _
    rw [f4.1.2.1, f3.1.2.1]
    show setAt st2.circuits _ _ = _
    rw [f2.2.1, f1.2.1]
  · have := sameButRing_trans (c3 circ) (c4 circ)
    simpa using this
  · intro c hc
    have := sameButRing_trans (c3 c) (c4 c)
    simp only [setAt_other _ _ _ _ hc] at this
    rw [f2.1, f1.1] at this
    exact this
  · show p_conn ∈ st4.connections
    rw [f4.1.1, f3.1.1]
    exact (AddConnection_old st1 st2 n_ip nt n_conn h2 p_conn r1.1).1
  · show (st4.conns p_conn).remote = p_ip
    rw [f4.2.1 p_conn, f3.2.1 p_conn]
    show (st2.conns p_conn).remote = p_ip
    rw [(AddConnection_old st1 st2 n_ip nt n_conn h2 p_conn r1.1).2]
    exact r1.2
  · show n_conn ∈ st4.connections
    rw [f4.1.1, f3.1.1]
    exact r2.1
  · show (st4.conns n_conn).remote = n_ip
    rw [f4.2.1 n_conn, f3.2.1 n_conn]
    exact r2.2

/-! ## Configuration: the rings of a new circuit -/

theorem GetNextCirc_SetNextCirc (x : Circuit) (k : Nat) (v : Option Nat) :
    (x.SetNextCirc k v).GetNextCirc k = v := by
  unfold Circuit.SetNextCirc Circuit.GetNextCirc
  split_ifs with h <;> simp [h]

/-- Setting the ring pointer of one connection to `c` leaves the pointer read for another
connection as it is, or makes it `c`. -/
theorem GetNextCirc_SetNextCirc_other (x : Circuit) (n p c : Nat) (hpn : p ≠ n)
    (h : x.GetNextCirc p = some c) : (x.SetNextCirc n (some c)).GetNextCirc p = some c := by
  unfold Circuit.SetNextCirc Circuit.GetNextCirc at *
  by_cases h1 : x.n_conn = n
  · have h2 : ¬ x.n_conn = p := fun e => hpn (e.symm.trans h1)
    simp only [h1, if_true]
    rw [if_neg (by rw [← h1]; exact h2)]
    rw [if_neg h2] at h
    exact h
  · simp only [if_neg h1]
    by_cases h2 : x.n_conn = p
    · rw [if_pos h2] at h
      rw [if_pos h2]
      exact h
    · rw [if_neg h2]

/-- A circuit is among the first two of a ring when it is the head or the one after it. -/
theorem mem_ringHead_two (st : TorApp) (k circ : Nat) :
    circ ∈ ringHead st k 2 ↔
      ∃ h, (st.conns k).active_circuits = some h ∧
        (circ = h ∨ (st.circs h).GetNextCirc k = some circ) := by
  unfold ringHead
  cases ha : (st.conns k).active_circuits with
  | none => simp [ringFrom]
  | some h =>
    cases hn : (st.circs h).GetNextCirc k with
    | none => simp [ringFrom, hn]
    | some c =>
      simp only [ringFrom, hn, List.mem_cons, List.mem_singleton, List.not_mem_nil, or_false,
        Option.some.injEq, exists_eq_left']
      constructor
      · rintro (h1 | h1)
        · exact Or.inl h1
        · exact Or.inr h1.symm
      · rintro (h1 | h1)
        · exact Or.inl h1
        · exact Or.inr h1.symm

/-- `AddActiveCircuit` puts the circuit among the first two of the ring of the connection. -/
theorem AddActiveCircuit_member (st st' : TorApp) (k circ : Nat)
    (h : AddActiveCircuit st (some k) (some circ) = some st') : circ ∈ ringHead st' k 2 := by
  rw [AddActiveCircuit_eq] at h
  simp only [Option.some.injEq] at h
  subst h
  rw [mem_ringHead_two]
  cases ha : (st.conns k).active_circuits with
  | none =>
    refine ⟨circ, ?_, Or.inl rfl⟩
    simp [modConn_conns, Connection.SetActiveCircuits]
  | some head =>
    refine ⟨head, ?_, Or.inr ?_⟩
    · simpa using ha
    · simp only [modCirc_circs, if_true]
      exact GetNextCirc_SetNextCirc _ _ _

/-- `AddActiveCircuit` on one connection keeps the circuit among the first two of the ring of
another connection. -/
theorem AddActiveCircuit_member_other (st st' : TorApp) (n p circ : Nat) (hpn : p ≠ n)
    (hm : circ ∈ ringHead st p 2)
    (h : AddActiveCircuit st (some n) (some circ) = some st') : circ ∈ ringHead st' p 2 := by
  rw [mem_ringHead_two] at hm ⊢
  obtain ⟨hp, hhead, hm⟩ := hm
  have hc := (AddActiveCircuit_frame st st' n circ h).2.2 p hpn
  refine ⟨hp, by rw [hc]; exact hhead, ?_⟩
  rcases hm with hm | hm
  · exact Or.inl hm
  · by_cases hcp : circ = hp
    · exact Or.inl hcp
    · right
      rw [AddActiveCircuit_eq] at h
      simp only [Option.some.injEq] at h
      subst h
      have hne : hp ≠ circ := fun e => hcp e.symm
      cases ha : (st.conns n).active_circuits with
      | none =>
        simp only [modCirc_circs, modConn_circs, if_neg hne]
        exact hm
      | some hn =>
        simp only [modCirc_circs]
        by_cases e : hp = hn
        · rw [if_pos e]
          subst e
          rw [if_neg hne]
          exact GetNextCirc_SetNextCirc_other _ n p circ hpn hm
        · rw [if_neg e, if_neg hne]
          exact hm

/-- The walk along a ring depends on the ring pointers only. -/
theorem ringFrom_congr (st st' : TorApp) (k : Nat)
    (h : ∀ x, (st'.circs x).GetNextCirc k = (st.circs x).GetNextCirc k) :
    ∀ (n : Nat) (o : Option Nat), ringFrom st' k n o = ringFrom st k n o := by
  intro n
  induction n with
  | zero => intro o; rfl
  | succ n ih =>
    intro o
    cases o with
    | none => rfl
    | some c => simp only [ringFrom, h c, ih]

/-- The rings depend on the two heaps only. -/
theorem ringHead_congr (st st' : TorApp) (hc : st'.conns = st.conns) (hs : st'.circs = st.circs)
    (k n : Nat) : ringHead st' k n = ringHead st k n := by
  unfold ringHead
  rw [hc]
  exact ringFrom_congr st st' k (fun x => by rw [hs]) n _

/-- `PushCell` changes no ring. -/
theorem PushCell_ringHead (st st' : TorApp) (c : Nat) (cell : Option Packet)
    (d : CellDirection) (h : PushCell st c cell d = some st') (k n : Nat) :
    ringHead st' k n = ringHead st k n := by
  unfold ringHead
  rw [PushCell_active st st' c cell d h k]
  exact ringFrom_congr st st' k (fun x => PushCell_next st st' c cell d h x k) n _

/-- `PopCell` changes no ring. -/
theorem PopCell_ringHead (st : TorApp) (c : Nat) (d : CellDirection) (k n : Nat) :
    ringHead (PopCell st c d).2 k n = ringHead st k n := by
  unfold ringHead
  rw [PopCell_active st c d k]
  exact ringFrom_congr st _ k (fun x => PopCell_next st c d x k) n _

/-- The new circuit of an `AddCircuit` is among the first two of the rings of both its
connections, and its queues are empty. -/
theorem AddCircuit_rings (circ : Nat) (st : TorApp) (id : Int) (n_ip : Nat) (nt : Int)
    (p_ip : Nat) (pt : Int) (hreg : st.circuits (id % 65536).toNat = none)
    (hn : nt = OR_CONN ∨ nt = EDGE_CONN) (hp : pt = OR_CONN ∨ pt = EDGE_CONN) :
    ∃ st', AddCircuit circ st id n_ip nt p_ip pt = some st' ∧
      circ ∈ ringHead st' (st'.circs circ).p_conn 2 ∧
      circ ∈ ringHead st' (st'.circs circ).n_conn 2 ∧
      (st'.circs circ).p_cellQ = [] ∧ (st'.circs circ).n_cellQ = [] := by
  obtain ⟨p_conn, st1, n_conn, st2, st3, st4, h1, h2, h3, h4, h5⟩ :=
    AddCircuit_steps circ st id n_ip nt p_ip pt hreg hn hp
  have c3 := AddActiveCircuit_circs _ st3 p_conn circ h3 circ
  have c4 := AddActiveCircuit_circs st3 st4 n_conn circ h4 circ
  have hnew := sameButRing_trans c3 c4
  simp only [setAt_same] at hnew
  have m3 := AddActiveCircuit_member _ st3 p_conn circ h3
  have m4 := AddActiveCircuit_member st3 st4 n_conn circ h4
  have hpc : (st4.circs circ).p_conn = p_conn := hnew.2.2.2.1
  have hnc : (st4.circs circ).n_conn = n_conn := hnew.2.2.2.2.1
  have e := ringHead_congr st4
    { st4 with circuits := setAt st4.circuits (id % 65536).toNat (some circ) } rfl rfl
  refine ⟨_, h5, ?_, ?_, hnew.2.1, hnew.2.2.1⟩
  · rw [e]
    show circ ∈ ringHead st4 (st4.circs circ).p_conn 2
    rw [hpc]
    by_cases e : p_conn = n_conn
    · rw [e]; exact m4
    · exact AddActiveCircuit_member_other st3 st4 n_conn p_conn circ e m3 h4
  · rw [e]
    show circ ∈ ringHead st4 (st4.circs circ).n_conn 2
    rw [hnc]
    exact m4

/-! ## Shutdown -/

theorem Host_eq (a b : Host) (h1 : a.app = b.app) (h2 : a.listen_socket = b.listen_socket)
    (h3 : a.sockets = b.sockets) : a = b := by
  cases a
  cases b
  simp only at h1 h2 h3
  subst h1 h2 h3
  rfl

/-- Closed form of the loop of `StopApplication`. -/
theorem closeConnections_apply (app : TorApp) : ∀ (l : List Nat) (socks : Nat → SocketState)
    (s : Nat), closeConnections app l socks s =
      if l.any (fun k => decide ((app.conns k).socket = some s)) = true
      then { closed := true, recv_callback := false, data_sent_callback := false }
      else socks s := by
  intro l
  induction l with
  | nil => intro socks s; simp [closeConnections]
  | cons a l ih =>
    intro socks s
    unfold closeConnections
    cases ha : (app.conns a).socket with
    | none =>
      simp only [ih, List.any_cons, ha]
      simp
    | some s' =>
      simp only [ih, List.any_cons, ha]
      by_cases hl : l.any (fun k => decide ((app.conns k).socket = some s)) = true
      · simp [hl]
      · by_cases hs : s = s'
        · subst hs
          simp [hl, SocketState.closeConn]
        · have hs' : ¬ s' = s := fun e => hs e.symm
          simp [hl, hs, hs', setAt_other]

/-- Closed form of `StopApplication` on the sockets. -/
theorem StopApplication_sockets (h : Host) (s : Nat) :
    (StopApplication h).sockets s =
      if h.app.connections.any (fun k => decide ((h.app.conns k).socket = some s)) = true
      then { closed := true, recv_callback := false, data_sent_callback := false }
      else if h.listen_socket = some s then (h.sockets s).closeListen
      else h.sockets s := by
  unfold StopApplication
  simp only
  rw [closeConnections_apply]
  split_ifs with h1 h2
  · rfl
  · rw [h2]; simp
  · cases hl : h.listen_socket with
    | none => rfl
    | some s' =>
      have hne : s ≠ s' := fun e => h2 (by rw [hl, e])
      simp [setAt_other _ _ _ _ hne]

/-! ## The size of the staging buffer of `Connection::Write` -/

/-- Polling a circuit for connection `k` keeps the cells queued toward `k` of one size. -/
theorem cellsOfSize_PopCell (st : TorApp) (k base c : Nat) (h : cellsOfSize st k base) :
    cellsOfSize (PopCell st c ((st.circs c).GetDirection k)).2 k base := by
  intro c' cell hmem
  by_cases hc : c' = c
  · subst hc
    obtain ⟨_, _, hn, _, _, _, hq⟩ := PopCell_circ_frame st c' ((st.circs c').GetDirection k)
    rw [GetDirection_congr _ _ k hn, hq] at hmem
    exact h c' cell (List.mem_of_mem_tail hmem)
  · rw [PopCell_other_circ st c _ c' hc] at hmem
    exact h c' cell hmem

/-- A cell that `PopCell` returns was in the queue. -/
theorem PopCell_mem (st : TorApp) (c : Nat) (d : CellDirection) (cell : Packet)
    (h : (PopCell st c d).1 = some cell) : cell ∈ (st.circs c).GetQueue d := by
  rw [PopCell_fst] at h
  exact List.mem_of_mem_head? h

/-- The bytes staged by the fill loop when every cell is `base` bytes long: nothing is staged
once `max_write` bytes are there, and the bytes added are `n` cells, the last of which was
popped while fewer than `max_write` bytes were staged. -/
theorem WriteFill_staged (k max_write start_circ base : Nat) :
    ∀ (fuel : Nat) (st : TorApp) (raw : List Nat) (fl : Bool)
      (visits : List (Nat × Option Packet))
      (res : TorApp × List Nat × List (Nat × Option Packet)),
      cellsOfSize st k base →
      WriteFill k max_write start_circ fuel st raw fl visits = some res →
      (max_write ≤ raw.length → res.2.1 = raw) ∧
      ∃ n, res.2.1.length = raw.length + n * base ∧
        (n = 0 ∨ raw.length + (n - 1) * base < max_write) := by
  intro fuel
  induction fuel with
  | zero => intro st raw fl visits res _ h; simp [WriteFill] at h
  | succ fuel ih =>
    intro st raw fl visits res hq h
    unfold WriteFill at h
    by_cases hlt : raw.length < max_write
    · rw [if_pos hlt] at h
      refine ⟨fun hle => absurd hlt (Nat.not_lt.mpr hle), ?_⟩
      cases ha : (st.conns k).active_circuits with
      | none => rw [ha] at h; simp at h
      | some circ =>
        rw [ha] at h
        simp only at h
        have hq2 := cellsOfSize_PopCell st k base circ hq
        cases hn : ((PopCell st circ ((st.circs circ).GetDirection k)).2.circs circ).GetNextCirc k
          with
        | none => rw [hn] at h; simp at h
        | some next =>
          rw [hn] at h
          simp only at h
          have hq3 : ∀ f, cellsOfSize
              ((PopCell st circ ((st.circs circ).GetDirection k)).2.modConn k f) k base :=
            fun f => hq2
          cases hp : (PopCell st circ ((st.circs circ).GetDirection k)).1 with
          | none =>
            rw [hp] at h
            simp only at h
            split_ifs at h with h1 h2
            · simp only [Option.some.injEq] at h
              rw [← h]
              exact ⟨0, by simp, Or.inl rfl⟩
            · exact (ih _ _ _ _ _ (hq3 _) h).2
            · exact (ih _ _ _ _ _ (hq3 _) h).2
          | some cell =>
            rw [hp] at h
            simp only at h
            have hlen : cell.length = base := hq circ cell (PopCell_mem st circ _ cell hp)
            have step : ∀ res' : List Nat, (∃ n, res'.length = (raw ++ cell).length + n * base ∧
                (n = 0 ∨ (raw ++ cell).length + (n - 1) * base < max_write)) →
                ∃ n, res'.length = raw.length + n * base ∧
                  (n = 0 ∨ raw.length + (n - 1) * base < max_write) := by
              rintro res' ⟨n, e, hn'⟩
              refine ⟨n + 1, ?_, Or.inr ?_⟩
              · rw [e, List.length_append, hlen]; ring
              · rcases hn' with hn' | hn'
                · subst hn'; simpa using hlt
                · rw [List.length_append, hlen] at hn'
                  rcases Nat.eq_zero_or_pos n with h0 | h0
                  · subst h0; simpa using hlt
                  · have e2 : n + 1 - 1 = (n - 1) + 1 := by omega
                    rw [e2, Nat.add_mul, Nat.one_mul]
                    omega
            split_ifs at h with h1 h2
            · simp at h2
            · exact step _ (ih _ _ _ _ _ (hq3 _) h).2
            · exact step _ (ih _ _ _ _ _ (hq3 _) h).2
    · rw [if_neg hlt] at h
      simp only [Option.some.injEq] at h
      rw [← h]
      exact ⟨fun _ => rfl, 0, by simp, Or.inl rfl⟩

set_option maxRecDepth 1000000 in
/-- The cells queued toward the edge connection of `exBacklog` are 498 bytes long. -/
theorem exBacklog_cells : cellsOfSize exBacklog 0 (cellBase (exBacklog.conns 0)) := by
  intro c cell hmem
  have hb : cellBase (exBacklog.conns 0) = 498 := by decide
  rw [hb]
  by_cases hc : c = 0
  · subst hc
    have hq : (exBacklog.circs 0).GetQueue ((exBacklog.circs 0).GetDirection 0)
        = List.replicate 3 (List.replicate 498 7) := by decide
    rw [hq] at hmem
    rw [List.eq_of_mem_replicate hmem, List.length_replicate]
  · have e : exBacklog.circs c = exRelay.circs 0 := by
      unfold exBacklog
      rw [modCirc_circs, if_neg hc]
      rfl
    have hq : (exRelay.circs 0).GetQueue ((exRelay.circs 0).GetDirection 0) = [] := by decide
    rw [e, hq] at hmem
    exact absurd hmem (List.not_mem_nil _)

/-- The fill loop keeps the cells queued toward the connection of one size. -/
theorem WriteFill_cells (k max_write start_circ base : Nat) :
    ∀ (fuel : Nat) (st : TorApp) (raw : List Nat) (fl : Bool)
      (visits : List (Nat × Option Packet))
      (res : TorApp × List Nat × List (Nat × Option Packet)),
      cellsOfSize st k base →
      WriteFill k max_write start_circ fuel st raw fl visits = some res →
      cellsOfSize res.1 k base := by
  intro fuel
  induction fuel with
  | zero => intro st raw fl visits res _ h; simp [WriteFill] at h
  | succ fuel ih =>
    intro st raw fl visits res hq h
    unfold WriteFill at h
    by_cases hlt : raw.length < max_write
    · rw [if_pos hlt] at h
      cases ha : (st.conns k).active_circuits with
      | none => rw [ha] at h; simp at h
      | some circ =>
        rw [ha] at h
        simp only at h
        have hq2 := cellsOfSize_PopCell st k base circ hq
        cases hn : ((PopCell st circ ((st.circs circ).GetDirection k)).2.circs circ).GetNextCirc k
          with
        | none => rw [hn] at h; simp at h
        | some next =>
          rw [hn] at h
          simp only at h
          have hq3 : ∀ f, cellsOfSize
              ((PopCell st circ ((st.circs circ).GetDirection k)).2.modConn k f) k base :=
            fun f => hq2
          split_ifs at h with h1 h2
          · simp only [Option.some.injEq] at h
            rw [← h]
            exact hq2
          · exact ih _ _ _ _ _ (hq3 _) h
          · exact ih _ _ _ _ _ (hq3 _) h
    · rw [if_neg hlt] at h
      simp only [Option.some.injEq] at h
      rw [← h]
      exact hq

/-- The result of the fill loop that `WriteStage` hands on. -/
theorem WriteStage_fill (fuel : Nat) (Send : List Nat → Int) (st : TorApp) (k max_write : Nat)
    (res : Nat × TorApp × List Nat × List (Nat × Option Packet))
    (hres : WriteStage fuel Send st k max_write = some res) :
    ∃ start_circ, (st.conns k).active_circuits = some start_circ ∧
      WriteFill k max_write start_circ fuel st (st.conns k).outbuf false []
        = some (res.2.1, res.2.2.1, res.2.2.2) := by
  unfold WriteStage at hres
  cases ha : (st.conns k).active_circuits with
  | none => simp [ha] at hres
  | some start_circ =>
    simp only [ha] at hres
    cases hf : WriteFill k max_write start_circ fuel st (st.conns k).outbuf false [] with
    | none => simp [hf] at hres
    | some r =>
      obtain ⟨st1, raw, visits⟩ := r
      simp only [hf] at hres
      split at hres
      · simp at hres
      · simp only [Option.some.injEq] at hres
        subst hres
        exact ⟨start_circ, rfl, hf⟩

/-- `Connection::Write` keeps the cells queued toward the connection of one size. -/
theorem Write_cells (fuel : Nat) (Send : List Nat → Int) (st : TorApp) (k max_write base : Nat)
    (res : Nat × TorApp × List (Nat × Option Packet))
    (hq : cellsOfSize st k base) (h : Write fuel Send st k max_write = some res) :
    cellsOfSize res.2.1 k base := by
  obtain ⟨r, hs, _, e⟩ := Write_some fuel Send st k max_write res h
  obtain ⟨start_circ, _, hf⟩ := WriteStage_fill fuel Send st k max_write r hs
  have hc := WriteFill_cells k max_write start_circ base fuel st _ _ _ _ hq hf
  subst e
  exact hc

theorem ringOrder_append (l : List Nat) (c : Nat) :
    ringOrder (l ++ [c]) = insertAfterHead (ringOrder l) c := by
  cases l with
  | nil => rfl
  | cons a t => simp [ringOrder, insertAfterHead]

theorem ringOrder_perm (l : List Nat) : (ringOrder l).Perm l := by
  cases l with
  | nil => exact List.Perm.refl _
  | cons a t => exact List.Perm.cons a (List.reverse_perm t)

theorem ringOrder_nodup (l : List Nat) (h : l.Nodup) : (ringOrder l).Nodup :=
  (ringOrder_perm l).nodup_iff.mpr h

theorem mem_ringOrder (l : List Nat) (c : Nat) : c ∈ ringOrder l ↔ c ∈ l :=
  (ringOrder_perm l).mem_iff

/-- The pointers of a list depend on the circuits of the list only. -/
theorem follows_congr (st st' : TorApp) (k : Nat) (z : Nat) :
    ∀ (l : List Nat), (∀ x ∈ l, (st'.circs x).GetNextCirc k = (st.circs x).GetNextCirc k) →
      follows st k l z → follows st' k l z := by
  intro l
  induction l with
  | nil => intro _ _; trivial
  | cons a t ih =>
    intro h hf
    refine ⟨?_, ih (fun x hx => h x (List.mem_cons_of_mem _ hx)) hf.2⟩
    rw [h a (List.mem_cons_self _ _)]
    exact hf.1

/-- The ring of a connection depends on its head and on the pointers of its circuits. -/
theorem ringOn_congr (st st' : TorApp) (k : Nat) (cs : List Nat)
    (hc : (st'.conns k).active_circuits = (st.conns k).active_circuits)
    (hp : ∀ x ∈ cs, (st'.circs x).GetNextCirc k = (st.circs x).GetNextCirc k)
    (h : ringOn st k cs) : ringOn st' k cs := by
  cases cs with
  | nil => exact hc.trans h
  | cons a t => exact ⟨hc.trans h.1, follows_congr st st' k a _ hp h.2⟩

/-- Walking the pointers of a ring from its head meets the circuits of the ring in order and
comes back to the head. -/
theorem follows_ringFrom (st : TorApp) (k : Nat) (z : Nat) :
    ∀ (l : List Nat) (a : Nat), follows st k (a :: l) z →
      ringFrom st k (l.length + 2) (some a) = (a :: l) ++ [z] := by
  intro l
  induction l with
  | nil =>
    intro a hf
    simp only [follows, List.headD_nil] at hf
    simp [ringFrom, hf.1]
  | cons b t ih =>
    intro a hf
    have h1 := hf.1
    simp only [List.headD_cons] at h1
    have := ih b hf.2
    simp only [List.length_cons] at this ⊢
    rw [ringFrom, h1, this]
    simp

theorem SetNextCirc_n_conn (x : Circuit) (k : Nat) (v : Option Nat) :
    (x.SetNextCirc k v).n_conn = x.n_conn := by
  unfold Circuit.SetNextCirc
  split_ifs <;> rfl

/-- Setting the pointer for one connection of a circuit leaves the pointer for the other
connection as it is. -/
theorem GetNextCirc_SetNextCirc_ne (x : Circuit) (k k2 : Nat) (v : Option Nat) (hk : k2 ≠ k)
    (hx : x.n_conn = k ∨ x.n_conn = k2) :
    (x.SetNextCirc k v).GetNextCirc k2 = x.GetNextCirc k2 := by
  unfold Circuit.SetNextCirc Circuit.GetNextCirc
  rcases hx with hx | hx
  · have h2 : ¬ x.n_conn = k2 := fun e => hk (e.symm.trans hx)
    simp [hx, h2, hk.symm]
  · simp [hx, hk]

/-- `AddActiveCircuit` on a ring of distinct circuits puts the new circuit right after the
head; on an empty ring it makes it the head. -/
theorem AddActiveCircuit_ringOn (st st' : TorApp) (k circ : Nat) (cs : List Nat)
    (hr : ringOn st k cs) (hnd : cs.Nodup) (hc : circ ∉ cs)
    (h : AddActiveCircuit st (some k) (some circ) = some st') :
    ringOn st' k (insertAfterHead cs circ) := by
  rw [AddActiveCircuit_eq] at h
  simp only [Option.some.injEq] at h
  subst h
  cases cs with
  | nil =>
    have ha : (st.conns k).active_circuits = none := hr
    rw [ha]
    refine ⟨by simp [modConn_conns, Connection.SetActiveCircuits], ?_, trivial⟩
    simp only [modCirc_circs, if_true, List.headD_nil]
    exact GetNextCirc_SetNextCirc _ _ _
  | cons a t =>
    obtain ⟨ha, hfa, hft⟩ := hr
    rw [ha]
    have hca : circ ≠ a := fun e => hc (e ▸ List.mem_cons_self _ _)
    have hat : a ∉ t := (List.nodup_cons.mp hnd).1
    refine ⟨by simpa using ha, ?_, ?_, ?_⟩
    · simp only [modCirc_circs, if_true, List.headD_cons]
      exact GetNextCirc_SetNextCirc _ _ _
    · simp only [modCirc_circs, if_neg hca, if_true]
      rw [GetNextCirc_SetNextCirc]
      exact hfa
    · refine follows_congr st _ k a t (fun x hx => ?_) hft
      have hxa : x ≠ a := fun e => hat (e ▸ hx)
      have hxc : x ≠ circ := fun e => hc (e ▸ List.mem_cons_of_mem _ hx)
      simp only [modCirc_circs, if_neg hxa, if_neg hxc]

/-- `AddActiveCircuit` on connection `k` leaves the ring of another connection as it is, when
the circuits it rewrites lie between the two connections. -/
theorem AddActiveCircuit_ringOn_other (st st' : TorApp) (k k2 circ : Nat) (cs : List Nat)
    (hk : k2 ≠ k) (hr : ringOn st k2 cs)
    (hx : ∀ x ∈ cs, (x = circ ∨ (st.conns k).active_circuits = some x) →
      ((st.circs x).n_conn = k ∨ (st.circs x).n_conn = k2))
    (h : AddActiveCircuit st (some k) (some circ) = some st') :
    ringOn st' k2 cs := by
  have hfr := (AddActiveCircuit_frame st st' k circ h).2.2 k2 hk
  refine ringOn_congr st st' k2 cs (by rw [hfr]) (fun x hxm => ?_) hr
  rw [AddActiveCircuit_eq] at h
  simp only [Option.some.injEq] at h
  subst h
  cases ha : (st.conns k).active_circuits with
  | none =>
    simp only [modCirc_circs, modConn_circs]
    by_cases hxc : x = circ
    · rw [if_pos hxc]
      subst hxc
      exact GetNextCirc_SetNextCirc_ne _ k k2 _ hk (hx x hxm (Or.inl rfl))
    · rw [if_neg hxc]
  | some head =>
    simp only [modCirc_circs]
    by_cases hxh : x = head
    · rw [if_pos hxh]
      subst hxh
      have hn := hx x hxm (Or.inr ha)
      by_cases hxc : x = circ
      · subst hxc
        rw [if_pos rfl]
        rw [GetNextCirc_SetNextCirc_ne _ k k2 _ hk (by rw [SetNextCirc_n_conn]; exact hn)]
        exact GetNextCirc_SetNextCirc_ne _ k k2 _ hk hn
      · rw [if_neg hxc]
        exact GetNextCirc_SetNextCirc_ne _ k k2 _ hk hn
    · rw [if_neg hxh]
      by_cases hxc : x = circ
      · rw [if_pos hxc]
        subst hxc
        exact GetNextCirc_SetNextCirc_ne _ k k2 _ hk (hx x hxm (Or.inl rfl))
      · rw [if_neg hxc]

theorem att_congr (st st' : TorApp) (k c : Nat)
    (hn : (st'.circs c).n_conn = (st.circs c).n_conn)
    (hp : (st'.circs c).p_conn = (st.circs c).p_conn) : att st' k c = att st k c := by
  unfold att
  rw [hn, hp]

theorem filter_att_congr (st st' : TorApp) (k : Nat) (cr : List Nat)
    (h : ∀ c ∈ cr, (st'.circs c).n_conn = (st.circs c).n_conn ∧
      (st'.circs c).p_conn = (st.circs c).p_conn) :
    cr.filter (att st' k) = cr.filter (att st k) := by
  apply List.filter_congr
  intro c hc
  exact att_congr st st' k c (h c hc).1 (h c hc).2

/-- `AddConnection` keeps the invariant of the configuration calls. -/
theorem AddConnection_inv (st st' : TorApp) (ip : Nat) (t : Int) (k0 : Nat) (cr : List Nat)
    (hi : configInv st cr) (h : AddConnection st ip t = some (k0, st')) :
    configInv st' cr := by
  by_cases ht : t = OR_CONN ∨ t = EDGE_CONN
  · cases hf : st.connections.find? (fun k => decide ((st.conns k).remote = ip)) with
    | some j =>
      rw [AddConnection_found st ip t ht j hf] at h
      simp only [Option.some.injEq, Prod.mk.injEq] at h
      rw [← h.2]; exact hi
    | none =>
      rw [AddConnection_fresh st ip t ht hf] at h
      simp only [Option.some.injEq, Prod.mk.injEq] at h
      obtain ⟨hnd, hends, hring⟩ := hi
      rw [← h.2]
      refine ⟨hnd, ?_, ?_⟩
      · intro c hc
        obtain ⟨h1, h2, h3⟩ := hends c hc
        exact ⟨h1, List.mem_append_left _ h2, List.mem_append_left _ h3⟩
      · intro k
        have hfil : cr.filter (att
            { st with
              conns := setAt st.conns (freshConn st) (Connection.new ip t.toNat)
              connections := st.connections ++ [freshConn st] } k)
            = cr.filter (att st k) :=
          filter_att_congr st _ k cr (fun c _ => ⟨rfl, rfl⟩)
        rw [hfil]
        by_cases hk : k = freshConn st
        · have hnil : cr.filter (att st k) = [] := by
            rw [List.filter_eq_nil_iff]
            intro c hc hatt
            obtain ⟨_, h2, h3⟩ := hends c hc
            unfold att at hatt
            rw [decide_eq_true_eq] at hatt
            rcases hatt with e | e
            · exact freshConn_not_mem st (hk ▸ e ▸ h2)
            · exact freshConn_not_mem st (hk ▸ e ▸ h3)
          rw [hnil]
          show (setAt st.conns (freshConn st) (Connection.new ip t.toNat) k).active_circuits
            = none
          rw [hk, setAt_same]
          rfl
        · refine ringOn_congr st _ k _ ?_ (fun x _ => rfl) (hring k)
          show (setAt st.conns (freshConn st) (Connection.new ip t.toNat) k).active_circuits
            = (st.conns k).active_circuits
          rw [setAt_other _ _ _ _ hk]
  · rw [AddConnection_invalid st ip t ht] at h
    exact absurd h (by simp)

/-- The head of a ring is one of its circuits. -/
theorem ringOn_head_mem (st : TorApp) (k x : Nat) (cs : List Nat) (hr : ringOn st k cs)
    (ha : (st.conns k).active_circuits = some x) : x ∈ cs := by
  cases cs with
  | nil =>
    have hn : (st.conns k).active_circuits = none := hr
    rw [hn] at ha
    exact absurd ha (by simp)
  | cons a t =>
    have h1 : (st.conns k).active_circuits = some a := hr.1
    rw [h1] at ha
    simp only [Option.some.injEq] at ha
    rw [← ha]
    exact List.mem_cons_self _ _

/-- A circuit attached to two different connections has one of them as its next connection. -/
theorem att_both (st : TorApp) (k k2 x : Nat) (hk : k2 ≠ k) (h1 : att st k x = true)
    (h2 : att st k2 x = true) : (st.circs x).n_conn = k ∨ (st.circs x).n_conn = k2 := by
  unfold att at h1 h2
  rw [decide_eq_true_eq] at h1 h2
  rcases h1 with e1 | e1
  · exact Or.inl e1
  · rcases h2 with e2 | e2
    · exact Or.inr e2
    · exact absurd (e2.symm.trans e1) hk

theorem mem_ring_att (st : TorApp) (k x : Nat) (cr : List Nat)
    (h : x ∈ ringOrder (cr.filter (att st k))) : x ∈ cr ∧ att st k x = true := by
  rw [mem_ringOrder, List.mem_filter] at h
  exact h

/-- `AddCircuit` with a new circuit identity and two different remote addresses keeps the
invariant of the configuration calls: the new circuit comes right after the head on the rings
of its two connections, and every other ring is as before. -/
theorem AddCircuit_inv (circ : Nat) (st st' : TorApp) (id : Int) (n_ip : Nat) (nt : Int)
    (p_ip : Nat) (pt : Int) (cr : List Nat) (hi : configInv st cr) (hc : circ ∉ cr)
    (hip : n_ip ≠ p_ip) (h : AddCircuit circ st id n_ip nt p_ip pt = some st') :
    configInv st' (cr ++ [circ]) := by
  obtain ⟨hreg, hn, hp⟩ := AddCircuit_valid circ st st' id n_ip nt p_ip pt h
  obtain ⟨p_conn, st1, n_conn, st2, st3, st4, h1, h2, h3, h4, h5⟩ :=
    AddCircuit_steps circ st id n_ip nt p_ip pt hreg hn hp
  rw [h5] at h
  simp only [Option.some.injEq] at h
  subst h
  have i2 := AddConnection_inv st1 st2 n_ip nt n_conn cr
    (AddConnection_inv st st1 p_ip pt p_conn cr hi h1) h2
  have r1 := AddConnection_result st st1 p_ip pt p_conn h1
  have r2 := AddConnection_result st1 st2 n_ip nt n_conn h2
  have old := AddConnection_old st1 st2 n_ip nt n_conn h2 p_conn r1.1
  have hpn : p_conn ≠ n_conn := by
    intro e
    apply hip
    rw [← r2.2, ← e, old.2, r1.2]
  obtain ⟨hnd, hends, hring⟩ := i2
  -- the state with the new circuit object
  generalize hs0 : ({ st2 with circs := setAt st2.circs circ (Circuit.new id n_conn p_conn) }
    : TorApp) = s0 at h3
  have hs0conns : s0.conns = st2.conns := by rw [← hs0]
  have hs0old : ∀ c ∈ cr, s0.circs c = st2.circs c := by
    intro c hcm
    rw [← hs0]
    exact setAt_other _ _ _ _ (fun e => hc (e ▸ hcm))
  have hs0new : s0.circs circ = Circuit.new id n_conn p_conn := by
    rw [← hs0]
    exact setAt_same _ _ _
  have hRnd : ∀ k, (ringOrder (cr.filter (att st2 k))).Nodup :=
    fun k => ringOrder_nodup _ (hnd.filter _)
  have hcR : ∀ k, circ ∉ ringOrder (cr.filter (att st2 k)) :=
    fun k hm => hc (mem_ring_att st2 k circ cr hm).1
  have ring0 : ∀ k, ringOn s0 k (ringOrder (cr.filter (att st2 k))) := by
    intro k
    refine ringOn_congr st2 s0 k _ (by rw [hs0conns]) (fun x hx => ?_) (hring k)
    rw [hs0old x (mem_ring_att st2 k x cr hx).1]
  -- the first `AddActiveCircuit`, on the previous connection
  have f3 := AddActiveCircuit_frame s0 st3 p_conn circ h3
  have c3 := AddActiveCircuit_circs s0 st3 p_conn circ h3
  have ring3p := AddActiveCircuit_ringOn s0 st3 p_conn circ _ (ring0 p_conn) (hRnd p_conn)
    (hcR p_conn) h3
  have ring3 : ∀ k, k ≠ p_conn → ringOn st3 k (ringOrder (cr.filter (att st2 k))) := by
    intro k hk
    refine AddActiveCircuit_ringOn_other s0 st3 p_conn k circ _ hk (ring0 k) (fun x hx hm => ?_) h3
    obtain ⟨hxc, hxa⟩ := mem_ring_att st2 k x cr hx
    rcases hm with e | e
    · exact absurd (e ▸ hxc) hc
    · have hxp := (mem_ring_att st2 p_conn x cr (ringOn_head_mem s0 p_conn x _ (ring0 p_conn) e)).2
      rw [hs0old x hxc]
      exact att_both st2 p_conn k x hk hxp hxa
  -- the second `AddActiveCircuit`, on the next connection
  have f4 := AddActiveCircuit_frame st3 st4 n_conn circ h4
  have c4 := AddActiveCircuit_circs st3 st4 n_conn circ h4
  have hn3 : ∀ c ∈ cr, (st3.circs c).n_conn = (st2.circs c).n_conn := by
    intro c hcm
    rw [(c3 c).2.2.2.2.1, hs0old c hcm]
  have hhead3 : ∀ x, (st3.conns n_conn).active_circuits = some x →
      x ∈ cr ∧ att st2 n_conn x = true := by
    intro x e
    rw [f3.2.2 n_conn (fun e2 => hpn e2.symm)] at e
    exact mem_ring_att st2 n_conn x cr (ringOn_head_mem s0 n_conn x _ (ring0 n_conn) e)
  have ring4n := AddActiveCircuit_ringOn st3 st4 n_conn circ _
    (ring3 n_conn (fun e => hpn e.symm)) (hRnd n_conn) (hcR n_conn) h4
  have ring4p : ringOn st4 p_conn (insertAfterHead (ringOrder (cr.filter (att st2 p_conn))) circ)
      := by
    refine AddActiveCircuit_ringOn_other st3 st4 n_conn p_conn circ _ hpn ring3p
      (fun x hx hm => ?_) h4
    by_cases hxc : x = circ
    · left
      rw [hxc, (c3 circ).2.2.2.2.1, hs0new]
      rfl
    · rcases hm with e | e
      · exact absurd e hxc
      · obtain ⟨hxcr, hxa⟩ := hhead3 x e
        have hxm : x ∈ ringOrder (cr.filter (att st2 p_conn)) := by
          cases hl : ringOrder (cr.filter (att st2 p_conn)) with
          | nil =>
            rw [hl] at hx
            simp only [insertAfterHead, List.mem_singleton] at hx
            exact absurd hx hxc
          | cons a t =>
            rw [hl] at hx
            simp only [insertAfterHead, List.mem_cons] at hx
            rcases hx with e1 | e1 | e1
            · rw [e1]; exact List.mem_cons_self _ _
            · exact absurd e1 hxc
            · exact List.mem_cons_of_mem _ e1
        rw [hn3 x hxcr]
        exact att_both st2 n_conn p_conn x hpn hxa (mem_ring_att st2 p_conn x cr hxm).2
  have ring4 : ∀ k, k ≠ p_conn → k ≠ n_conn →
      ringOn st4 k (ringOrder (cr.filter (att st2 k))) := by
    intro k hkp hkn
    refine AddActiveCircuit_ringOn_other st3 st4 n_conn k circ _ hkn (ring3 k hkp)
      (fun x hx hm => ?_) h4
    obtain ⟨hxc, hxa⟩ := mem_ring_att st2 k x cr hx
    rcases hm with e | e
    · exact absurd (e ▸ hxc) hc
    · rw [hn3 x hxc]
      exact att_both st2 n_conn k x hkn (hhead3 x e).2 hxa
  -- the fields of the circuits in the final state
  have hfield : ∀ c ∈ cr, (st4.circs c).n_conn = (st2.circs c).n_conn ∧
      (st4.circs c).p_conn = (st2.circs c).p_conn := by
    intro c hcm
    have a3 := c3 c
    have a4 := c4 c
    rw [hs0old c hcm] at a3
    exact ⟨a4.2.2.2.2.1.trans a3.2.2.2.2.1, a4.2.2.2.1.trans a3.2.2.2.1⟩
  have hnewn : (st4.circs circ).n_conn = n_conn := by
    rw [(c4 circ).2.2.2.2.1, (c3 circ).2.2.2.2.1, hs0new]; rfl
  have hnewp : (st4.circs circ).p_conn = p_conn := by
    rw [(c4 circ).2.2.2.1, (c3 circ).2.2.2.1, hs0new]; rfl
  have hconns : st4.connections = st2.connections := by
    rw [f4.1.1, f3.1.1, ← hs0]
  refine ⟨?_, ?_, ?_⟩
  · exact List.Nodup.append hnd (List.nodup_singleton _)
      (fun x hx hx2 => hc ((List.mem_singleton.mp hx2) ▸ hx))
  · intro c hcm
    show (st4.circs c).n_conn ≠ (st4.circs c).p_conn ∧ (st4.circs c).n_conn ∈ st4.connections
      ∧ (st4.circs c).p_conn ∈ st4.connections
    rw [hconns]
    rcases List.mem_append.mp hcm with hcm | hcm
    · rw [(hfield c hcm).1, (hfield c hcm).2]
      exact hends c hcm
    · rw [List.mem_singleton] at hcm
      rw [hcm, hnewn, hnewp]
      exact ⟨fun e => hpn e.symm, r2.1, old.1⟩
  · intro k
    refine ringOn_congr st4 _ k _ rfl (fun _ _ => rfl) ?_
    have hfil : (cr ++ [circ]).filter (att
        { st4 with circuits := setAt st4.circuits (id % 65536).toNat (some circ) } k)
        = cr.filter (att st2 k) ++ (if k = p_conn ∨ k = n_conn then [circ] else []) := by
      rw [List.filter_append]
      congr 1
      · exact filter_att_congr st2 _ k cr (fun c hcm => hfield c hcm)
      · have hatt : att { st4 with circuits := setAt st4.circuits (id % 65536).toNat (some circ) }
            k circ = decide (k = p_conn ∨ k = n_conn) := by
          unfold att
          show decide ((st4.circs circ).n_conn = k ∨ (st4.circs circ).p_conn = k) = _
          rw [hnewn, hnewp]
          by_cases e1 : k = p_conn
          · simp [e1]
          · by_cases e2 : k = n_conn
            · simp [e2]
            · have e1' : ¬ p_conn = k := fun e => e1 e.symm
              have e2' : ¬ n_conn = k := fun e => e2 e.symm
              simp [e1, e2, e1', e2']
        simp only [List.filter_cons, List.filter_nil, hatt]
        by_cases e : k = p_conn ∨ k = n_conn
        · simp [e]
        · simp [e]
    rw [hfil]
    by_cases e1 : k = p_conn
    · rw [if_pos (Or.inl e1), ringOrder_append, e1]
      exact ring4p
    · by_cases e2 : k = n_conn
      · rw [if_pos (Or.inr e2), ringOrder_append, e2]
        exact ring4n
      · rw [if_neg (by simp [e1, e2]), List.append_nil]
        exact ring4 k e1 e2

/-- A new relay satisfies the invariant of the configuration calls. -/
theorem configInv_new : configInv TorApp.new [] := by
  refine ⟨List.nodup_nil, fun c hc => absurd hc (List.not_mem_nil _), fun k => ?_⟩
  show (TorApp.new.conns k).active_circuits = none
  rfl

/-- A sequence of configuration calls that create distinct circuits, each between two different
remote addresses, keeps the invariant. -/
theorem runConfig_inv (ops : List ConfigOp) : ∀ (st st' : TorApp) (cr : List Nat),
    configInv st cr → (cr ++ created ops).Nodup → distinctEnds ops = true →
    runConfig ops st = some st' → configInv st' (cr ++ created ops) := by
  induction ops with
  | nil =>
    intro st st' cr hi _ _ h
    simp only [runConfig, Option.some.injEq] at h
    rw [← h]
    simpa [created] using hi
  | cons op ops ih =>
    intro st st' cr hi hnd hd h
    cases op with
    | addConnection ip t =>
      simp only [runConfig] at h
      cases h1 : AddConnection st ip t with
      | none => rw [h1] at h; simp at h
      | some r =>
        obtain ⟨k, s⟩ := r
        rw [h1] at h
        exact ih s st' cr (AddConnection_inv st s ip t k cr hi h1) hnd hd h
    | addCircuit circ id n_ip nt p_ip pt =>
      simp only [runConfig] at h
      simp only [created] at hnd ⊢
      simp only [distinctEnds, Bool.and_eq_true, decide_eq_true_eq] at hd
      have hc : circ ∉ cr := by
        intro hm
        have := (List.nodup_append.mp hnd).2.2
        exact this hm (List.mem_cons_self _ _)
      have e : cr ++ circ :: created ops = (cr ++ [circ]) ++ created ops := by simp
      cases h1 : AddCircuit circ st id n_ip nt p_ip pt with
      | none => rw [h1] at h; simp at h
      | some s =>
        rw [h1] at h
        rw [e] at hnd ⊢
        exact ih s st' (cr ++ [circ])
          (AddCircuit_inv circ st s id n_ip nt p_ip pt cr hi hc hd.1 h1) hnd hd.2 h

/-! ## Conservation of the bytes by `Connection::Write` -/

/-- A `Connection::Write (max_write)` call on a connection with a well-formed ring (and a
socket) whose un-sent tail fits the `CELL_NETWORK_SIZE` bytes of `outbuf.data` returns; it
offers the socket the first `min (max_write, staged)` of the staged bytes, which are the old
`outbuf` followed by the bytes of the cells popped during the call in pop order; it returns the
number `s` of bytes the socket accepted (0 if `Send` reports an error or nothing is offered);
and if `s` is at most the number of bytes offered, the `s` bytes sent followed by the new
`outbuf` are the staged bytes. -/
theorem Write_conserves (k : Nat) (cs : List Nat) (st : TorApp) (h : Nat)
    (fuel : Nat) (Send : List Nat → Int) (max_write : Nat)
    (hr : RingAt st k cs h)
    (hf : cs.length * (queuedToward st k cs + 1) < fuel)
    (hsock : (st.conns k).socket.isSome = true)
    (hfit : ∀ r, WriteStage fuel Send st k max_write = some r →
      r.2.2.1.length - r.1 ≤ CELL_NETWORK_SIZE) :
    ∃ res, Write fuel Send st k max_write = some res ∧
      res.1 =
        (if 0 < (((st.conns k).outbuf ++ poppedBytes res.2.2).take
              (min max_write ((st.conns k).outbuf ++ poppedBytes res.2.2).length)).length
          then (max (Send (((st.conns k).outbuf ++ poppedBytes res.2.2).take
              (min max_write ((st.conns k).outbuf ++ poppedBytes res.2.2).length))) 0).toNat
          else 0) ∧
      (res.1 ≤ min max_write ((st.conns k).outbuf ++ poppedBytes res.2.2).length →
        ((((st.conns k).outbuf ++ poppedBytes res.2.2).take
            (min max_write ((st.conns k).outbuf ++ poppedBytes res.2.2).length)).take res.1)
          ++ (res.2.1.conns k).outbuf
          = (st.conns k).outbuf ++ poppedBytes res.2.2) ∧
      (res.2.1.conns k).outbuf.length ≤ CELL_NETWORK_SIZE := by
  obtain ⟨res, hres⟩ := Write_returns k cs st h hr fuel Send max_write hf hsock hfit
  obtain ⟨h1, h2⟩ := Write_bytes fuel Send st k max_write res hres
  obtain ⟨r, hs, hle2, e⟩ := Write_some fuel Send st k max_write res hres
  refine ⟨res, hres, h1, fun hle => ?_, ?_⟩
  · rw [h2, List.take_take, min_eq_left hle]
    have e : ((st.conns k).outbuf ++ poppedBytes res.2.2).length
        - (((st.conns k).outbuf ++ poppedBytes res.2.2).length - res.1) = res.1 := by
      have := min_le_right max_write ((st.conns k).outbuf ++ poppedBytes res.2.2).length
      omega
    rw [e, List.take_append_drop]
  · have e3 : (res.2.1.conns k).outbuf
        = r.2.2.1.drop (r.2.2.1.length - (r.2.2.1.length - r.1)) := by
      rw [e]
      simp only []
      rw [modConn_conns, if_pos rfl]
    rw [e3, List.length_drop]
    omega

set_option maxRecDepth 1000000 in
/-- A short write that `outbuf` can take: two 512-byte cells are staged, the socket accepts 700
of the 1024 bytes offered, and the other 324 bytes are kept in `outbuf`. -/
theorem Write_conserves_short :
    ∃ res, Write 11 exShortSend exTwo 0 1024 = some res ∧ res.1 = 700 ∧
      (res.2.1.conns 0).outbuf.length = 324 ∧
      poppedBytes res.2.2 = exCell 1 1 ++ exCell 2 1 ∧
      (exCell 1 1 ++ exCell 2 1).take 700 ++ (res.2.1.conns 0).outbuf
        = exCell 1 1 ++ exCell 2 1 := by
  decide

/-! ## The claims -/

/-- C1 (amended): window bounds.  On a circuit created with both windows at 1000, after every
sequence of `PushCell` and `PopCell` calls that runs to completion, `package_window ≤ 1000` and
`0 ≤ deliver_window ≤ 1000`; `0 ≤ package_window` holds as well when every call of the sequence
respects the package window, that is when no cell packaged from an edge connection is pushed
while `package_window ≤ 0` (`PushCell` itself does not refuse such a cell). -/
theorem window_bounds (st st' : TorApp) (c : Nat) (ops : List CircOp)
    (hp : (st.circs c).package_window = CIRCWINDOW_START)
    (hd : (st.circs c).deliver_window = CIRCWINDOW_START)
    (hrun : runOps ops st = some st') :
    (st'.circs c).package_window ≤ 1000 ∧
    0 ≤ (st'.circs c).deliver_window ∧ (st'.circs c).deliver_window ≤ 1000 ∧
    (respectsWindowAll c ops st = true → 0 ≤ (st'.circs c).package_window) := by
  have hp' : (st.circs c).package_window = 1000 := hp
  have hd' : (st.circs c).deliver_window = 1000 := hd
  have h1 := runOps_package_le c ops st st' hrun (by omega)
  obtain ⟨h2, h3⟩ := runOps_deliver_range c ops st st' hrun (by omega)
  refine ⟨h1, by omega, h3, fun hg => ?_⟩
  exact runOps_package_nonneg c ops st st' hrun hg (by omega)

/-- Witness of C1: a cell packaged on the fresh circuit of `exEdgeOr` and sent on. -/
theorem window_bounds_witness :
    (exRun.circs 0).package_window ≤ 1000 ∧
    0 ≤ (exRun.circs 0).deliver_window ∧ (exRun.circs 0).deliver_window ≤ 1000 ∧
    (respectsWindowAll 0 exOps exEdgeOr = true → 0 ≤ (exRun.circs 0).package_window) :=
  window_bounds exEdgeOr exRun 0 exOps rfl rfl rfl

/-- Counterexample to C1 as stated: 1001 cells pushed from the edge connection of the fresh
circuit of `exEdgeOr` leave `package_window = -1`. -/
theorem window_bounds_counterexample :
    (exEdgeOr.circs 0).package_window = CIRCWINDOW_START ∧
    (exEdgeOr.circs 0).deliver_window = CIRCWINDOW_START ∧
    ∃ st', runOps ((List.replicate 1001 exData).map (fun p => CircOp.push 0 (some p) OUTBOUND))
        exEdgeOr = some st' ∧
      (st'.circs 0).package_window = -1 := by
  refine ⟨rfl, rfl, ?_⟩
  obtain ⟨st', h, hpw, _⟩ := runOps_packaged 0 OUTBOUND (List.replicate 1001 exData) exEdgeOr
    (by decide) (by decide)
  refine ⟨st', h, ?_⟩
  rw [hpw, List.length_replicate]
  decide

/-- C2: SENDME hysteresis.  In a state reached from a circuit created with
`deliver_window = 1000`, `deliver_window` is above 900 before every `PopCell (d)`.  The call
appends a SENDME cell to the queue of the opposite direction exactly when it dequeues a cell
toward an edge connection and `deliver_window` was 901, so that the decrement takes it from
above 900 to 900; the window is then topped up by 100.  In every other case the opposite queue
is unchanged, and a cell dequeued toward an edge connection just decrements the window, which
stays above 900. -/
theorem sendme_hysteresis (st0 st : TorApp) (ops : List CircOp) (c : Nat)
    (d : CellDirection)
    (hd0 : (st0.circs c).deliver_window = CIRCWINDOW_START)
    (hrun : runOps ops st0 = some st) :
    900 < (st.circs c).deliver_window ∧
    (((st.circs c).GetQueue d ≠ []
        ∧ (st.conns ((st.circs c).GetConnection d)).conn_type = EDGE_CONN
        ∧ (st.circs c).deliver_window = 901) →
      ((PopCell st c d).2.circs c).GetQueue (GetOppositeDirection d)
        = (st.circs c).GetQueue (GetOppositeDirection d) ++ [(st.circs c).CreateSendme] ∧
      IsSendme (some (st.circs c).CreateSendme) = true ∧
      (st.circs c).deliver_window - 1 ≤ 900 ∧
      ((PopCell st c d).2.circs c).deliver_window = (st.circs c).deliver_window - 1 + 100) ∧
    (¬ ((st.circs c).GetQueue d ≠ []
        ∧ (st.conns ((st.circs c).GetConnection d)).conn_type = EDGE_CONN
        ∧ (st.circs c).deliver_window = 901) →
      ((PopCell st c d).2.circs c).GetQueue (GetOppositeDirection d)
        = (st.circs c).GetQueue (GetOppositeDirection d) ∧
      (((st.circs c).GetQueue d ≠ []
          ∧ (st.conns ((st.circs c).GetConnection d)).conn_type = EDGE_CONN) →
        ((PopCell st c d).2.circs c).deliver_window = (st.circs c).deliver_window - 1 ∧
        900 < ((PopCell st c d).2.circs c).deliver_window)) := by
  have hd0' : (st0.circs c).deliver_window = 1000 := hd0
  obtain ⟨hlo, hhi⟩ := runOps_deliver_range c ops st0 st hrun (by omega)
  refine ⟨by omega, ?_, ?_⟩
  · rintro ⟨hq, hconn, h901⟩
    cases hqq : (st.circs c).GetQueue d with
    | nil => exact absurd hqq hq
    | cons cell rest =>
      obtain ⟨_, h1, _, _⟩ := PopCell_deliver st c d cell rest hqq
      obtain ⟨e1, e2⟩ := h1 hconn (by omega)
      refine ⟨e2, IsSendme_CreateSendme _, by omega, ?_⟩
      rw [e1, h901]; decide
  · intro hnot
    cases hqq : (st.circs c).GetQueue d with
    | nil =>
      rw [(PopCell_nil st c d hqq).2]
      exact ⟨rfl, fun hh => absurd rfl hh.1⟩
    | cons cell rest =>
      obtain ⟨_, _, h2, h3⟩ := PopCell_deliver st c d cell rest hqq
      by_cases hconn : (st.conns ((st.circs c).GetConnection d)).conn_type = EDGE_CONN
      · have hne : (st.circs c).deliver_window ≠ 901 := by
          intro e
          exact hnot ⟨by rw [hqq]; simp, hconn, e⟩
        obtain ⟨e1, e2⟩ := h2 hconn (by omega)
        exact ⟨e2, fun _ => ⟨e1, by rw [e1]; omega⟩⟩
      · exact ⟨(h3 hconn).2, fun hh => absurd hh.2 hconn⟩

set_option maxRecDepth 1000000 in
/-- Witness of C2: the 100th delivery of the 201-cell transfer of `exDeliver` finds
`deliver_window = 901` and emits the first SENDME. -/
theorem sendme_hysteresis_witness :
    (900 < (exDelivered.circs 0).deliver_window ∧
    (((exDelivered.circs 0).GetQueue INBOUND ≠ []
        ∧ (exDelivered.conns ((exDelivered.circs 0).GetConnection INBOUND)).conn_type
            = EDGE_CONN
        ∧ (exDelivered.circs 0).deliver_window = 901) →
      ((PopCell exDelivered 0 INBOUND).2.circs 0).GetQueue (GetOppositeDirection INBOUND)
        = (exDelivered.circs 0).GetQueue (GetOppositeDirection INBOUND)
          ++ [(exDelivered.circs 0).CreateSendme] ∧
      IsSendme (some (exDelivered.circs 0).CreateSendme) = true ∧
      (exDelivered.circs 0).deliver_window - 1 ≤ 900 ∧
      ((PopCell exDelivered 0 INBOUND).2.circs 0).deliver_window
        = (exDelivered.circs 0).deliver_window - 1 + 100) ∧
    (¬ ((exDelivered.circs 0).GetQueue INBOUND ≠ []
        ∧ (exDelivered.conns ((exDelivered.circs 0).GetConnection INBOUND)).conn_type
            = EDGE_CONN
        ∧ (exDelivered.circs 0).deliver_window = 901) →
      ((PopCell exDelivered 0 INBOUND).2.circs 0).GetQueue (GetOppositeDirection INBOUND)
        = (exDelivered.circs 0).GetQueue (GetOppositeDirection INBOUND) ∧
      (((exDelivered.circs 0).GetQueue INBOUND ≠ []
          ∧ (exDelivered.conns ((exDelivered.circs 0).GetConnection INBOUND)).conn_type
              = EDGE_CONN) →
        ((PopCell exDelivered 0 INBOUND).2.circs 0).deliver_window
          = (exDelivered.circs 0).deliver_window - 1 ∧
        900 < ((PopCell exDelivered 0 INBOUND).2.circs 0).deliver_window))) ∧
    (exDelivered.circs 0).deliver_window = 901 ∧
    ((PopCell exDelivered 0 INBOUND).2.circs 0).GetQueue OUTBOUND = [exSendme] ∧
    ((PopCell exDelivered 0 INBOUND).2.circs 0).deliver_window = 1000 :=
  ⟨sendme_hysteresis exDeliver exDelivered exDeliverOps 0 INBOUND rfl rfl, by decide⟩

/-- C3: SENDME count.  From a circuit with `deliver_window = 1000` whose direction-`d`
connection is an edge connection, `n` successive `PopCell (d)` calls that each find a cell
dequeue the first `n` cells and append exactly `n / 100` SENDME cells to the queue of the
opposite direction; `deliver_window` is then `1000 - n % 100`.  Since this holds for every `n`,
the `i`-th SENDME is appended by pop number `100 * i`. -/
theorem sendme_count (st : TorApp) (c : Nat) (d : CellDirection) (n : Nat)
    (hconn : (st.conns ((st.circs c).GetConnection d)).conn_type = EDGE_CONN)
    (hd : (st.circs c).deliver_window = CIRCWINDOW_START)
    (hn : n ≤ ((st.circs c).GetQueue d).length) :
    ∃ st', runOps (List.replicate n (CircOp.pop c d)) st = some st' ∧
      (st'.circs c).GetQueue d = ((st.circs c).GetQueue d).drop n ∧
      (st'.circs c).GetQueue (GetOppositeDirection d)
        = (st.circs c).GetQueue (GetOppositeDirection d)
          ++ List.replicate (n / 100) (st.circs c).CreateSendme ∧
      IsSendme (some (st.circs c).CreateSendme) = true ∧
      (st'.circs c).deliver_window = 1000 - ((n % 100 : Nat) : Int) := by
  obtain ⟨st', h, ho, hdw, hq⟩ := runOps_pops c d n 0 st hconn (by omega)
    (by rw [hd]; rfl) hn
  simp only [Nat.zero_add] at ho hdw
  exact ⟨st', h, hq, ho, IsSendme_CreateSendme _, hdw⟩

set_option maxRecDepth 100000 in
/-- Witness of C3, scenario S2: of the 201 cells of a 100,000-byte transfer, the first 99
produce no SENDME, cell 100 produces the first, cell 200 the second, and after all 201 cells
there are exactly two. -/
theorem sendme_count_witness :
    (∃ st', runOps (List.replicate 99 (CircOp.pop 0 INBOUND)) exDeliver = some st' ∧
      (st'.circs 0).GetQueue INBOUND = ((exDeliver.circs 0).GetQueue INBOUND).drop 99 ∧
      (st'.circs 0).GetQueue (GetOppositeDirection INBOUND)
        = (exDeliver.circs 0).GetQueue (GetOppositeDirection INBOUND)
          ++ List.replicate 0 (exDeliver.circs 0).CreateSendme ∧
      IsSendme (some (exDeliver.circs 0).CreateSendme) = true ∧
      (st'.circs 0).deliver_window = 901) ∧
    (∃ st', runOps (List.replicate 100 (CircOp.pop 0 INBOUND)) exDeliver = some st' ∧
      (st'.circs 0).GetQueue INBOUND = ((exDeliver.circs 0).GetQueue INBOUND).drop 100 ∧
      (st'.circs 0).GetQueue (GetOppositeDirection INBOUND)
        = (exDeliver.circs 0).GetQueue (GetOppositeDirection INBOUND)
          ++ List.replicate 1 (exDeliver.circs 0).CreateSendme ∧
      IsSendme (some (exDeliver.circs 0).CreateSendme) = true ∧
      (st'.circs 0).deliver_window = 1000) ∧
    (∃ st', runOps (List.replicate 199 (CircOp.pop 0 INBOUND)) exDeliver = some st' ∧
      (st'.circs 0).GetQueue INBOUND = ((exDeliver.circs 0).GetQueue INBOUND).drop 199 ∧
      (st'.circs 0).GetQueue (GetOppositeDirection INBOUND)
        = (exDeliver.circs 0).GetQueue (GetOppositeDirection INBOUND)
          ++ List.replicate 1 (exDeliver.circs 0).CreateSendme ∧
      IsSendme (some (exDeliver.circs 0).CreateSendme) = true ∧
      (st'.circs 0).deliver_window = 901) ∧
    (∃ st', runOps (List.replicate 200 (CircOp.pop 0 INBOUND)) exDeliver = some st' ∧
      (st'.circs 0).GetQueue INBOUND = ((exDeliver.circs 0).GetQueue INBOUND).drop 200 ∧
      (st'.circs 0).GetQueue (GetOppositeDirection INBOUND)
        = (exDeliver.circs 0).GetQueue (GetOppositeDirection INBOUND)
          ++ List.replicate 2 (exDeliver.circs 0).CreateSendme ∧
      IsSendme (some (exDeliver.circs 0).CreateSendme) = true ∧
      (st'.circs 0).deliver_window = 1000) ∧
    (∃ st', runOps (List.replicate 201 (CircOp.pop 0 INBOUND)) exDeliver = some st' ∧
      (st'.circs 0).GetQueue INBOUND = ((exDeliver.circs 0).GetQueue INBOUND).drop 201 ∧
      (st'.circs 0).GetQueue (GetOppositeDirection INBOUND)
        = (exDeliver.circs 0).GetQueue (GetOppositeDirection INBOUND)
          ++ List.replicate 2 (exDeliver.circs 0).CreateSendme ∧
      IsSendme (some (exDeliver.circs 0).CreateSendme) = true ∧
      (st'.circs 0).deliver_window = 999) :=
  ⟨sendme_count exDeliver 0 INBOUND 99 (by decide) rfl (by decide),
   sendme_count exDeliver 0 INBOUND 100 (by decide) rfl (by decide),
   sendme_count exDeliver 0 INBOUND 199 (by decide) rfl (by decide),
   sendme_count exDeliver 0 INBOUND 200 (by decide) rfl (by decide),
   sendme_count exDeliver 0 INBOUND 201 (by decide) rfl (by decide)⟩

/-- C4: SENDME receipt.  `PushCell` of a SENDME cell toward an edge connection, the opposite
connection being an OR connection, completes; `package_window` becomes
`min (package_window + 100) 1000`, both queues and the four byte counters are unchanged, and
so is everything else in the circuit. -/
theorem sendme_receipt (st : TorApp) (c : Nat) (pkt : Packet) (d : CellDirection)
    (hconn : (st.conns ((st.circs c).GetConnection d)).conn_type = EDGE_CONN)
    (hopp : (st.conns ((st.circs c).GetOppositeConnection d)).conn_type = OR_CONN)
    (hs : IsSendme (some pkt) = true) :
    ∃ st', PushCell st c (some pkt) d = some st' ∧
      (st'.circs c).package_window = min ((st.circs c).package_window + 100) 1000 ∧
      (st'.circs c).p_cellQ = (st.circs c).p_cellQ ∧
      (st'.circs c).n_cellQ = (st.circs c).n_cellQ ∧
      (st'.circs c).stats_p_bytes_read = (st.circs c).stats_p_bytes_read ∧
      (st'.circs c).stats_p_bytes_written = (st.circs c).stats_p_bytes_written ∧
      (st'.circs c).stats_n_bytes_read = (st.circs c).stats_n_bytes_read ∧
      (st'.circs c).stats_n_bytes_written = (st.circs c).stats_n_bytes_written ∧
      st'.circs c = { st.circs c with
        package_window := min ((st.circs c).package_window + 100) 1000 } := by
  simp only [PushCell, hopp, or_ne_edge, if_false, hconn, hs, if_true]
  refine ⟨_, rfl, ?_⟩
  split_ifs <;> simp [IncPackageWindow_eq]

/-- Witness of C4: a SENDME arriving for the edge connection of `exEdgeOr`. -/
theorem sendme_receipt_witness :
    ∃ st', PushCell exEdgeOr 0 (some exSendme) INBOUND = some st' ∧
      (st'.circs 0).package_window = min ((exEdgeOr.circs 0).package_window + 100) 1000 ∧
      (st'.circs 0).p_cellQ = (exEdgeOr.circs 0).p_cellQ ∧
      (st'.circs 0).n_cellQ = (exEdgeOr.circs 0).n_cellQ ∧
      (st'.circs 0).stats_p_bytes_read = (exEdgeOr.circs 0).stats_p_bytes_read ∧
      (st'.circs 0).stats_p_bytes_written = (exEdgeOr.circs 0).stats_p_bytes_written ∧
      (st'.circs 0).stats_n_bytes_read = (exEdgeOr.circs 0).stats_n_bytes_read ∧
      (st'.circs 0).stats_n_bytes_written = (exEdgeOr.circs 0).stats_n_bytes_written ∧
      st'.circs 0 = { exEdgeOr.circs 0 with
        package_window := min ((exEdgeOr.circs 0).package_window + 100) 1000 } :=
  sendme_receipt exEdgeOr 0 exSendme INBOUND (by decide) (by decide) (by decide)

/-- C5 (amended): packaging back-pressure.  Every `PushCell (cell, d)` whose opposite
connection is an edge connection, other than of a SENDME cell heading into an edge connection
(which is consumed and tops the window up again), decrements `package_window` by exactly 1 and
marks the opposite (edge) connection `reading_blocked` when the window has reached zero; the
call completes whenever the cell, if it heads into an edge connection, holds its 14-byte
header.  Starting from a fresh circuit whose direction-`d` connection is an OR connection and
whose edge connection is unblocked, after `n` packaged cells the window is `1000 - n` and the
edge connection is blocked exactly when `n ≥ 1000`. -/
theorem packaging_back_pressure (st : TorApp) (c : Nat) (d : CellDirection)
    (hopp : (st.conns ((st.circs c).GetOppositeConnection d)).conn_type = EDGE_CONN) :
    (∀ pkt : Packet,
      ¬ ((st.conns ((st.circs c).GetConnection d)).conn_type = EDGE_CONN
          ∧ IsSendme (some pkt) = true) →
      ((st.conns ((st.circs c).GetConnection d)).conn_type ≠ EDGE_CONN
          ∨ CELL_HEADER_SIZE ≤ pkt.length) →
      ∃ st', PushCell st c (some pkt) d = some st' ∧
        (st'.circs c).package_window = (st.circs c).package_window - 1 ∧
        (st'.conns ((st.circs c).GetOppositeConnection d)).reading_blocked =
          ((st.conns ((st.circs c).GetOppositeConnection d)).reading_blocked
            || decide ((st'.circs c).package_window ≤ 0))) ∧
    ((st.conns ((st.circs c).GetConnection d)).conn_type = OR_CONN →
      (st.circs c).package_window = CIRCWINDOW_START →
      (st.conns ((st.circs c).GetOppositeConnection d)).reading_blocked = false →
      ∀ cells : List Packet,
        ∃ st', runOps (cells.map (fun p => CircOp.push c (some p) d)) st = some st' ∧
          (st'.circs c).package_window = 1000 - cells.length ∧
          ((st'.conns ((st.circs c).GetOppositeConnection d)).reading_blocked = true
            ↔ 1000 ≤ cells.length)) := by
  constructor
  · intro pkt hns hlen
    obtain ⟨st', h⟩ := PushCell_completes st c pkt d hlen
    obtain ⟨hpw, hbl⟩ := PushCell_packaging st st' c pkt d hopp hns h
    exact ⟨st', h, hpw, by rw [hbl, hpw]⟩
  · intro hconn hp hb cells
    obtain ⟨st', h, hpw, hbl⟩ := runOps_packaged c d cells st hopp hconn
    refine ⟨st', h, ?_, ?_⟩
    · rw [hpw, hp]; rfl
    · rw [hbl, hb, hp]
      simp only [CIRCWINDOW_START, Bool.false_or, decide_eq_true_eq]
      constructor
      · rintro ⟨_, h⟩; omega
      · intro h
        refine ⟨?_, by omega⟩
        intro hnil; subst hnil; simp at h

/-- Witness of C5: cells packaged from the edge connection of `exEdgeOr`. -/
theorem packaging_back_pressure_witness :
    (∀ pkt : Packet,
      ¬ ((exEdgeOr.conns ((exEdgeOr.circs 0).GetConnection OUTBOUND)).conn_type = EDGE_CONN
          ∧ IsSendme (some pkt) = true) →
      ((exEdgeOr.conns ((exEdgeOr.circs 0).GetConnection OUTBOUND)).conn_type ≠ EDGE_CONN
          ∨ CELL_HEADER_SIZE ≤ pkt.length) →
      ∃ st', PushCell exEdgeOr 0 (some pkt) OUTBOUND = some st' ∧
        (st'.circs 0).package_window = (exEdgeOr.circs 0).package_window - 1 ∧
        (st'.conns ((exEdgeOr.circs 0).GetOppositeConnection OUTBOUND)).reading_blocked =
          ((exEdgeOr.conns ((exEdgeOr.circs 0).GetOppositeConnection OUTBOUND)).reading_blocked
            || decide ((st'.circs 0).package_window ≤ 0))) ∧
    ((exEdgeOr.conns ((exEdgeOr.circs 0).GetConnection OUTBOUND)).conn_type = OR_CONN →
      (exEdgeOr.circs 0).package_window = CIRCWINDOW_START →
      (exEdgeOr.conns ((exEdgeOr.circs 0).GetOppositeConnection OUTBOUND)).reading_blocked
        = false →
      ∀ cells : List Packet,
        ∃ st', runOps (cells.map (fun p => CircOp.push 0 (some p) OUTBOUND)) exEdgeOr
            = some st' ∧
          (st'.circs 0).package_window = 1000 - cells.length ∧
          ((st'.conns ((exEdgeOr.circs 0).GetOppositeConnection OUTBOUND)).reading_blocked
              = true
            ↔ 1000 ≤ cells.length)) :=
  packaging_back_pressure exEdgeOr 0 OUTBOUND (by decide)

/-- Counterexample to C5 as stated: on the fresh circuit of `exEdgeEdge` the connection
opposite to `INBOUND` is an edge connection, yet `PushCell` of a SENDME cell leaves
`package_window` at 1000 instead of 999 (it is decremented, then topped up). -/
theorem packaging_back_pressure_counterexample :
    (exEdgeEdge.conns ((exEdgeEdge.circs 0).GetOppositeConnection INBOUND)).conn_type
      = EDGE_CONN ∧
    (exEdgeEdge.circs 0).package_window = 1000 ∧
    ∃ st', PushCell exEdgeEdge 0 (some exSendme) INBOUND = some st' ∧
      (st'.circs 0).package_window = 1000 := by
  decide

/-- C6 (amended): stall release.  When a circuit's edge connection is `reading_blocked` with
`package_window = 0` and the opposite connection is an OR connection, pushing a SENDME cell
toward the edge connection completes, clears the flag, sets `package_window` to 100 and calls
`ScheduleRead` on the edge connection, so that a read event is pending afterwards whenever the
connection has a socket. -/
theorem stall_release (st : TorApp) (c : Nat) (pkt : Packet) (d : CellDirection)
    (hconn : (st.conns ((st.circs c).GetConnection d)).conn_type = EDGE_CONN)
    (hopp : (st.conns ((st.circs c).GetOppositeConnection d)).conn_type = OR_CONN)
    (hb : (st.conns ((st.circs c).GetConnection d)).reading_blocked = true)
    (hp : (st.circs c).package_window = 0)
    (hs : IsSendme (some pkt) = true) :
    ∃ st', PushCell st c (some pkt) d = some st' ∧
      (st'.conns ((st.circs c).GetConnection d)).reading_blocked = false ∧
      (st'.circs c).package_window = 100 ∧
      st'.conns ((st.circs c).GetConnection d)
        = ((st.conns ((st.circs c).GetConnection d)).SetBlocked false).ScheduleRead 0 ∧
      ((st.conns ((st.circs c).GetConnection d)).socket.isSome = true →
        (st'.conns ((st.circs c).GetConnection d)).read_event.isSome = true) := by
  obtain ⟨st', h, hc, hpw, _⟩ := PushCell_sendme_blocked st c pkt d hconn hb hs
  have hne : (st.conns ((st.circs c).GetOppositeConnection d)).conn_type ≠ EDGE_CONN := by
    rw [hopp]; exact or_ne_edge
  refine ⟨st', h, ?_, ?_, hc, ?_⟩
  · rw [hc]; simp [ScheduleRead_eq, SetBlocked_eq]
  · rw [hpw hne, hp]; decide
  · intro hsock
    rw [hc]
    simp only [ScheduleRead_eq, SetBlocked_eq, hsock, Bool.true_and]
    cases (st.conns ((st.circs c).GetConnection d)).read_event <;> simp

/-- Witness of C6: the stalled circuit of `exStalled` receives a SENDME. -/
theorem stall_release_witness :
    ∃ st', PushCell exStalled 0 (some exSendme) INBOUND = some st' ∧
      (st'.conns ((exStalled.circs 0).GetConnection INBOUND)).reading_blocked = false ∧
      (st'.circs 0).package_window = 100 ∧
      st'.conns ((exStalled.circs 0).GetConnection INBOUND)
        = ((exStalled.conns ((exStalled.circs 0).GetConnection INBOUND)).SetBlocked
            false).ScheduleRead 0 ∧
      ((exStalled.conns ((exStalled.circs 0).GetConnection INBOUND)).socket.isSome = true →
        (st'.conns ((exStalled.circs 0).GetConnection INBOUND)).read_event.isSome = true) :=
  stall_release exStalled 0 exSendme INBOUND (by decide) (by decide) (by decide) (by decide)
    (by decide)

/-- Counterexample to C6 as stated: in `exStalledEdgeEdge` an edge connection of the circuit is
blocked with `package_window = 0`, and a SENDME pushed toward it leaves `package_window = 99`,
not 100, because the opposite connection is an edge connection too. -/
theorem stall_release_counterexample :
    (exStalledEdgeEdge.conns ((exStalledEdgeEdge.circs 0).GetConnection INBOUND)).conn_type
      = EDGE_CONN ∧
    (exStalledEdgeEdge.conns ((exStalledEdgeEdge.circs 0).GetConnection INBOUND)).reading_blocked
      = true ∧
    (exStalledEdgeEdge.circs 0).package_window = 0 ∧
    IsSendme (some exSendme) = true ∧
    ∃ st', PushCell exStalledEdgeEdge 0 (some exSendme) INBOUND = some st' ∧
      (st'.circs 0).package_window = 99 := by
  decide

/-- C7 (amended): when `PushCell (cell, d)` consumes a SENDME cell heading into an edge
connection and that edge connection (the connection of direction `d`) is currently blocked,
the call completes, the edge connection's `reading_blocked` flag is cleared and `ScheduleRead`
is called on it (a read event is pending afterwards whenever it has a socket); the connection
opposite to direction `d`, when it is another connection, stays blocked if it was and gets no
read scheduled. -/
theorem sendme_unblocks_edge (st : TorApp) (c : Nat) (pkt : Packet) (d : CellDirection)
    (hconn : (st.conns ((st.circs c).GetConnection d)).conn_type = EDGE_CONN)
    (hb : (st.conns ((st.circs c).GetConnection d)).reading_blocked = true)
    (hs : IsSendme (some pkt) = true) :
    ∃ st', PushCell st c (some pkt) d = some st' ∧
      (st'.conns ((st.circs c).GetConnection d)).reading_blocked = false ∧
      st'.conns ((st.circs c).GetConnection d)
        = ((st.conns ((st.circs c).GetConnection d)).SetBlocked false).ScheduleRead 0 ∧
      ((st.conns ((st.circs c).GetConnection d)).socket.isSome = true →
        (st'.conns ((st.circs c).GetConnection d)).read_event.isSome = true) ∧
      ((st.circs c).GetOppositeConnection d ≠ (st.circs c).GetConnection d →
        ((st.conns ((st.circs c).GetOppositeConnection d)).reading_blocked = true →
          (st'.conns ((st.circs c).GetOppositeConnection d)).reading_blocked = true) ∧
        (st'.conns ((st.circs c).GetOppositeConnection d)).read_event =
          (st.conns ((st.circs c).GetOppositeConnection d)).read_event) := by
  obtain ⟨st', h, hc, _, ho⟩ := PushCell_sendme_blocked st c pkt d hconn hb hs
  refine ⟨st', h, ?_, hc, ?_, fun hk => ?_⟩
  · rw [hc]; simp [ScheduleRead_eq, SetBlocked_eq]
  · intro hsock
    rw [hc]
    simp only [ScheduleRead_eq, SetBlocked_eq, hsock, Bool.true_and]
    cases (st.conns ((st.circs c).GetConnection d)).read_event <;> simp
  · obtain ⟨e1, e2⟩ := ho hk
    exact ⟨fun hbo => by rw [e1, hbo]; rfl, e2⟩

/-- Witness of C7: the blocked edge connection of `exStalled` receives a SENDME. -/
theorem sendme_unblocks_edge_witness :
    ∃ st', PushCell exStalled 0 (some exSendme) INBOUND = some st' ∧
      (st'.conns ((exStalled.circs 0).GetConnection INBOUND)).reading_blocked = false ∧
      st'.conns ((exStalled.circs 0).GetConnection INBOUND)
        = ((exStalled.conns ((exStalled.circs 0).GetConnection INBOUND)).SetBlocked
            false).ScheduleRead 0 ∧
      ((exStalled.conns ((exStalled.circs 0).GetConnection INBOUND)).socket.isSome = true →
        (st'.conns ((exStalled.circs 0).GetConnection INBOUND)).read_event.isSome = true) ∧
      ((exStalled.circs 0).GetOppositeConnection INBOUND
          ≠ (exStalled.circs 0).GetConnection INBOUND →
        ((exStalled.conns ((exStalled.circs 0).GetOppositeConnection INBOUND)).reading_blocked
            = true →
          (st'.conns ((exStalled.circs 0).GetOppositeConnection INBOUND)).reading_blocked
            = true) ∧
        (st'.conns ((exStalled.circs 0).GetOppositeConnection INBOUND)).read_event =
          (exStalled.conns ((exStalled.circs 0).GetOppositeConnection INBOUND)).read_event) :=
  sendme_unblocks_edge exStalled 0 exSendme INBOUND (by decide) (by decide) (by decide)

/-- Counterexample to C7 as stated: in `exOppBlocked` a SENDME heads into the edge connection
while the connection opposite to direction `INBOUND` is blocked; after `PushCell` the opposite
connection is still blocked and has no read scheduled. -/
theorem sendme_unblocks_edge_counterexample :
    (exOppBlocked.conns ((exOppBlocked.circs 0).GetConnection INBOUND)).conn_type
      = EDGE_CONN ∧
    IsSendme (some exSendme) = true ∧
    (exOppBlocked.conns ((exOppBlocked.circs 0).GetOppositeConnection INBOUND)).reading_blocked
      = true ∧
    ∃ st', PushCell exOppBlocked 0 (some exSendme) INBOUND = some st' ∧
      (st'.conns ((exOppBlocked.circs 0).GetOppositeConnection INBOUND)).reading_blocked
        = true ∧
      (st'.conns ((exOppBlocked.circs 0).GetOppositeConnection INBOUND)).read_event = none := by
  decide

/-- C8: FIFO per direction.  Over every sequence of `PushCell` and `PopCell` calls that runs to
completion, and for every circuit `c` and direction `d`: the cells returned by the
`PopCell (d)` calls, in order, followed by the final contents of the queue, are the initial
contents of the queue followed by the cells pushed onto it, in order.  So nothing on the queue
is reordered, dropped or duplicated, and from an empty queue the cells returned are a prefix of
the cells enqueued. -/
theorem fifo_per_direction (c : Nat) (d : CellDirection) (ops : List CircOp)
    (st st' : TorApp) (hrun : runOps ops st = some st') :
    dequeuedAll c d ops st ++ (st'.circs c).GetQueue d
      = (st.circs c).GetQueue d ++ enqueuedAll c d ops st ∧
    ((st.circs c).GetQueue d = [] → dequeuedAll c d ops st <+: enqueuedAll c d ops st) := by
  have e := runOps_fifo c d ops st st' hrun
  refine ⟨e, fun hq => ?_⟩
  rw [hq, List.nil_append] at e
  exact ⟨_, e⟩

set_option maxRecDepth 100000 in
/-- Witness of C8: the cell packaged in `exOps` is the cell that `PopCell` returns. -/
theorem fifo_per_direction_witness :
    (dequeuedAll 0 OUTBOUND exOps exEdgeOr ++ (exRun.circs 0).GetQueue OUTBOUND
      = (exEdgeOr.circs 0).GetQueue OUTBOUND ++ enqueuedAll 0 OUTBOUND exOps exEdgeOr ∧
    ((exEdgeOr.circs 0).GetQueue OUTBOUND = [] →
      dequeuedAll 0 OUTBOUND exOps exEdgeOr <+: enqueuedAll 0 OUTBOUND exOps exEdgeOr)) ∧
    dequeuedAll 0 OUTBOUND exOps exEdgeOr = [exData] :=
  ⟨fifo_per_direction 0 OUTBOUND exOps exEdgeOr exRun rfl, by decide⟩

/-- C10 (amended): round-robin budget.  For every `base` with `0 < base < 2^27` (so that
`32 * base` fits the `uint32_t` bound `num_bytes_high`) and every bucket value,
`RoundRobin (base, bucket)` is `max (min (clamp (a, 4 * base, 32 * base), bucket), 0)` where `a`
is `bucket / 8` rounded down to a multiple of `base`. -/
theorem round_robin_budget (base bucket : Int) (hb : 0 < base) (hh : base < 134217728) :
    RoundRobin base bucket = RoundRobinSpec base bucket ∧
    RoundRobinSpec base bucket
      = max (min (min (max (bucket / 8 / base * base) (4 * base)) (32 * base)) bucket) 0 :=
  ⟨RoundRobin_eq_spec base bucket hb hh, rfl⟩

/-- Witness of C10, scenario S6: `RoundRobin (512, 40960) = 5120`. -/
theorem round_robin_budget_witness :
    (RoundRobin 512 40960 = RoundRobinSpec 512 40960 ∧
    RoundRobinSpec 512 40960
      = max (min (min (max (40960 / 8 / 512 * 512) (4 * 512)) (32 * 512)) 40960) 0) ∧
    RoundRobin 512 40960 = 5120 :=
  ⟨round_robin_budget 512 40960 (by decide) (by decide), by decide⟩

/-- Counterexample to C10 as stated: for `base = 2^27` and `bucket = 2^40` the formula gives
`32 * base = 2^32`, which no `uint32_t` return value can be; the code returns 0. -/
theorem round_robin_budget_counterexample :
    (0 : Int) < 134217728 ∧
    RoundRobin 134217728 1099511627776 = 0 ∧
    RoundRobinSpec 134217728 1099511627776 = 4294967296 ∧
    RoundRobin 134217728 1099511627776 ≠ RoundRobinSpec 134217728 1099511627776 := by
  decide

/-- C11: round-robin budget never overdraws.  For every `base > 0`, `RoundRobin (base, bucket)`
is at most `bucket` whenever `bucket ≥ 0` and is 0 whenever `bucket ≤ 0`: the clamp to the
bucket comes after the clamp to the 4-cell minimum. -/
theorem round_robin_no_overdraw (base bucket : Int) (hb : 0 < base) :
    (0 ≤ bucket → RoundRobin base bucket ≤ bucket) ∧
    (bucket ≤ 0 → RoundRobin base bucket = 0) :=
  ⟨RoundRobin_le_bucket base bucket, RoundRobin_empty base bucket hb⟩

/-- Witness of C11: a bucket of 100 bytes and 512-byte cells give a budget of 100 bytes, not the
4-cell minimum of 2048; an overdrawn bucket gives 0. -/
theorem round_robin_no_overdraw_witness :
    ((0 ≤ (100 : Int) → RoundRobin 512 100 ≤ 100) ∧
      ((100 : Int) ≤ 0 → RoundRobin 512 100 = 0)) ∧
    RoundRobin 512 100 = 100 ∧ RoundRobin 512 0 = 0 ∧ RoundRobin 512 (-5000) = 0 :=
  ⟨round_robin_no_overdraw 512 100 (by decide), by decide, by decide, by decide⟩

/-- C12 (amended): round-robin budget bounds.  For every `base > 0`, `RoundRobin (base, bucket)`
is at most `32 * base`; for every `base` with `0 < base < 2^27` (so that `32 * base` fits the
`uint32_t` bound `num_bytes_high`), whenever the bucket holds at least `4 * base` bytes the
result is `k * base` for a whole number `k` of cells with `4 ≤ k ≤ 32`. -/
theorem round_robin_bounds (base bucket : Int) (hb : 0 < base) :
    RoundRobin base bucket ≤ 32 * base ∧
    (base < 134217728 → 4 * base ≤ bucket →
      ∃ k : Int, 4 ≤ k ∧ k ≤ 32 ∧ RoundRobin base bucket = k * base) :=
  ⟨RoundRobin_le_high base bucket hb, fun hh h4 => RoundRobin_cells base bucket hb hh h4⟩

/-- Witness of C12: 498-byte cells and a bucket of 80000 bytes give 20 cells. -/
theorem round_robin_bounds_witness :
    (RoundRobin 498 80000 ≤ 32 * 498 ∧
      ((498 : Int) < 134217728 → 4 * 498 ≤ (80000 : Int) →
        ∃ k : Int, 4 ≤ k ∧ k ≤ 32 ∧ RoundRobin 498 80000 = k * 498)) ∧
    RoundRobin 498 80000 = 20 * 498 :=
  ⟨round_robin_bounds 498 80000 (by decide), by decide⟩

/-- Counterexample to C12 as stated: for `base = 2^27` the bound `32 * base` wraps to 0 in
`uint32_t`, and a bucket of `2^40 ≥ 4 * base` bytes gives a budget of 0, below `4 * base`. -/
theorem round_robin_bounds_counterexample :
    (0 : Int) < 134217728 ∧ 4 * 134217728 ≤ (1099511627776 : Int) ∧
    RoundRobin 134217728 1099511627776 = 0 ∧
    ¬ (4 * 134217728 ≤ RoundRobin 134217728 1099511627776) := by
  decide

/-- C13 (amended): round-robin budget share.  For every `base > 0` and every bucket of at least
`32 * base` bytes, `RoundRobin (base, bucket)` is at most `bucket / 8`; for a smaller
non-negative bucket (and `base < 2^27`) the 4-cell minimum takes over and the result is
`min (4 * base, bucket)`. -/
theorem round_robin_share (base bucket : Int) (hb : 0 < base) :
    (32 * base ≤ bucket → RoundRobin base bucket ≤ bucket / 8) ∧
    (base < 134217728 → 0 ≤ bucket → bucket < 32 * base →
      RoundRobin base bucket = min (4 * base) bucket) :=
  ⟨RoundRobin_eighth base bucket hb, fun hh h0 h => RoundRobin_small base bucket hb hh h0 h⟩

/-- Witness of C13, scenario S6: `RoundRobin (512, 40960) = 5120`, one eighth of the bucket. -/
theorem round_robin_share_witness :
    ((32 * 512 ≤ (40960 : Int) → RoundRobin 512 40960 ≤ 40960 / 8) ∧
      ((512 : Int) < 134217728 → 0 ≤ (40960 : Int) → (40960 : Int) < 32 * 512 →
        RoundRobin 512 40960 = min (4 * 512) 40960)) ∧
    32 * 512 ≤ (40960 : Int) ∧ RoundRobin 512 40960 = 5120 :=
  ⟨round_robin_share 512 40960 (by decide), by decide, by decide⟩

/-- Counterexample to C13 as stated: with 512-byte cells and a positive bucket of 4096 bytes the
budget is the 4-cell minimum 2048, half of the bucket and more than `4096 / 8 = 512`; a bucket
of 100 bytes is handed out whole. -/
theorem round_robin_share_counterexample :
    (0 : Int) < 512 ∧ (0 : Int) < 4096 ∧
    RoundRobin 512 4096 = 2048 ∧ ¬ (RoundRobin 512 4096 ≤ 4096 / 8) ∧
    RoundRobin 512 100 = 100 ∧ ¬ (RoundRobin 512 100 ≤ 100 / 8) := by
  decide

/-- C14: leftover bound.  `Connection::Read` on a connection with a socket returns; on an
unblocked connection, whatever `inbuf` held and whatever the socket delivered, the new `inbuf`
holds `datasize % base < base` bytes, where `base` is 498 on an edge connection and 512 on an
OR connection; on a blocked connection nothing is read and `inbuf` stays as it was, so the
bound is kept in every case. -/
theorem read_leftover_bound (Recv : Nat → List Nat) (st : TorApp) (k : Nat)
    (packet_list : List Packet) (max_read : Nat)
    (hs : (st.conns k).socket.isSome = true) :
    ∃ res, Read Recv st k packet_list max_read = some res ∧
      ((st.conns k).reading_blocked = false →
        (res.2.2.conns k).inbuf.length
          = ((st.conns k).inbuf.length + (Recv max_read).length) % cellBase (st.conns k) ∧
        (res.2.2.conns k).inbuf.length < cellBase (st.conns k)) ∧
      ((st.conns k).reading_blocked = true → res.2.2 = st) ∧
      ((st.conns k).inbuf.length < cellBase (st.conns k) →
        (res.2.2.conns k).inbuf.length < cellBase (st.conns k)) ∧
      ((st.conns k).conn_type = EDGE_CONN → cellBase (st.conns k) = 498) ∧
      ((st.conns k).conn_type = OR_CONN → cellBase (st.conns k) = 512) := by
  have hpos := cellBase_pos (st.conns k)
  have hE : (st.conns k).conn_type = EDGE_CONN → cellBase (st.conns k) = 498 := by
    intro h; simp [cellBase, h, CELL_PAYLOAD_SIZE]
  have hO : (st.conns k).conn_type = OR_CONN → cellBase (st.conns k) = 512 := by
    intro h; simp [cellBase, h, or_ne_edge, CELL_NETWORK_SIZE]
  cases hb : (st.conns k).reading_blocked with
  | true =>
    refine ⟨(0, packet_list, st), by simp [Read, hb], by simp, fun _ => rfl, fun h => h, hE, hO⟩
  | false =>
    obtain ⟨cells, st', hread, _, _, _, hin, _⟩ := Read_spec Recv st k packet_list max_read hb hs
    have hlt := Nat.mod_lt ((st.conns k).inbuf.length + (Recv max_read).length) hpos
    refine ⟨_, hread, fun _ => ⟨hin, ?_⟩, by simp, fun _ => ?_, hE, hO⟩
    · simp only [hin]; exact hlt
    · simp only [hin]; exact hlt

set_option maxRecDepth 1000000 in
/-- Witness of C14: 100 bytes carried over and 1000 bytes received on an edge connection
leave `1100 % 498 = 104` bytes. -/
theorem read_leftover_bound_witness :
    (∃ res, Read exSmallSock.Recv exCarry 0 [] 1000 = some res ∧
      ((exCarry.conns 0).reading_blocked = false →
        (res.2.2.conns 0).inbuf.length
          = ((exCarry.conns 0).inbuf.length + (exSmallSock.Recv 1000).length) % cellBase (exCarry.conns 0) ∧
        (res.2.2.conns 0).inbuf.length < cellBase (exCarry.conns 0)) ∧
      ((exCarry.conns 0).reading_blocked = true → res.2.2 = exCarry) ∧
      ((exCarry.conns 0).inbuf.length < cellBase (exCarry.conns 0) →
        (res.2.2.conns 0).inbuf.length < cellBase (exCarry.conns 0)) ∧
      ((exCarry.conns 0).conn_type = EDGE_CONN → cellBase (exCarry.conns 0) = 498) ∧
      ((exCarry.conns 0).conn_type = OR_CONN → cellBase (exCarry.conns 0) = 512)) ∧
    ((exCarry.conns 0).inbuf.length + (exSmallSock.Recv 1000).length) % cellBase (exCarry.conns 0) = 104 :=
  ⟨read_leftover_bound exSmallSock.Recv exCarry 0 [] 1000 (by decide), by decide⟩

/-- C15: read slicing.  On an unblocked connection with carry-over `I` in `inbuf`, if the
socket delivers the bytes `R`, `Connection::Read` returns `|R|`, pushes exactly
`(|I| + |R|) / base` cells of exactly `base` bytes each at the back of the packet list, and
those cells followed by the new `inbuf` are `I` followed by `R`. -/
theorem read_slicing (Recv : Nat → List Nat) (st : TorApp) (k : Nat)
    (packet_list : List Packet) (max_read : Nat)
    (hb : (st.conns k).reading_blocked = false) (hs : (st.conns k).socket.isSome = true) :
    ∃ cells st', Read Recv st k packet_list max_read
        = some ((Recv max_read).length, packet_list ++ cells, st') ∧
      cells.length = ((st.conns k).inbuf.length + (Recv max_read).length) / cellBase (st.conns k) ∧
      (∀ c ∈ cells, c.length = cellBase (st.conns k)) ∧
      cells.flatten ++ (st'.conns k).inbuf = (st.conns k).inbuf ++ Recv max_read := by
  obtain ⟨cells, st', h1, h2, h3, h4, _⟩ := Read_spec Recv st k packet_list max_read hb hs
  exact ⟨cells, st', h1, h2, h3, h4⟩

set_option maxRecDepth 1000000 in
/-- Witness of C15: 100 bytes carried over and 1000 bytes received on an edge connection give
two cells of 498 bytes. -/
theorem read_slicing_witness :
    (∃ cells st', Read exSmallSock.Recv exCarry 0 [] 1000
        = some ((exSmallSock.Recv 1000).length, [] ++ cells, st') ∧
      cells.length
        = ((exCarry.conns 0).inbuf.length + (exSmallSock.Recv 1000).length) / cellBase (exCarry.conns 0) ∧
      (∀ c ∈ cells, c.length = cellBase (exCarry.conns 0)) ∧
      cells.flatten ++ (st'.conns 0).inbuf = (exCarry.conns 0).inbuf ++ exSmallSock.Recv 1000) ∧
    (exSmallSock.Recv 1000).length = 1000 ∧
    ((exCarry.conns 0).inbuf.length + (exSmallSock.Recv 1000).length) / cellBase (exCarry.conns 0) = 2 :=
  ⟨read_slicing exSmallSock.Recv exCarry 0 [] 1000 (by decide) (by decide), by decide, by decide⟩

/-- C16 (amended): scenario S1, packaging.  A single 10,000-byte request read in one
`ConnReadCallback` from an unblocked edge connection with an empty `inbuf`, whose circuit (id 1,
a full package window) leads to an OR connection, with at least 127,488 bytes in the read
bucket (so that `RoundRobin` grants the maximum of 32 payloads), puts `10000 / 498 = 20` cells
on the queue toward the OR connection; each has the header command `RELAY_DATA`, circuit id 1,
length 498 and 512 bytes in all; together they carry the first 9,960 bytes of the request, and
the last 40 bytes stay in `inbuf`. -/
theorem package_request (sock : ReadSocket) (req : List Nat) (st : TorApp)
    (s conn circ : Nat)
    (hreq : req.length = 10000)
    (hrx : sock.GetRxAvailable = 10000)
    (hrecv : ∀ n, sock.Recv n = req.take n)
    (hl : LookupConn st (some s) = some conn)
    (he : (st.conns conn).conn_type = EDGE_CONN)
    (hb : (st.conns conn).reading_blocked = false)
    (hi : (st.conns conn).inbuf = [])
    (ha : (st.conns conn).active_circuits = some circ)
    (hid : (st.circs circ).circ_id = 1)
    (hp : (st.circs circ).p_conn = conn)
    (hn : (st.conns (st.circs circ).n_conn).conn_type = OR_CONN)
    (hw : (st.circs circ).package_window = CIRCWINDOW_START)
    (hbucket : 127488 ≤ st.m_readbucket.size) :
    ∃ res cells, ConnReadCallback sock st (some s) = some res ∧
      res.2.read_bytes = 10000 ∧
      (st.circs circ).GetConnection OUTBOUND = (st.circs circ).n_conn ∧
      (res.1.circs circ).GetQueue OUTBOUND = (st.circs circ).GetQueue OUTBOUND ++ cells ∧
      cells.length = 20 ∧
      (∀ c ∈ cells, (PeekHeader c).cmd = RELAY_DATA ∧ (PeekHeader c).circId = 1 ∧
        (PeekHeader c).length = 498 ∧ c.length = 512) ∧
      (cells.map (fun c => c.drop CELL_HEADER_SIZE)).flatten ++ (res.1.conns conn).inbuf = req ∧
      (cells.map (fun c => (c.drop CELL_HEADER_SIZE).length)).sum = 9960 ∧
      (res.1.conns conn).inbuf.length = 40 :=
  ConnReadCallback_request_cells sock req st s conn circ hreq hrx hrecv hl he hb hi ha hid hp hn
    hw hbucket

/-- Witness of C16: the request of `exSock` on the relay `exRelay`. -/
theorem package_request_witness :
    ∃ res cells, ConnReadCallback exSock exRelay (some 10) = some res ∧
      res.2.read_bytes = 10000 ∧
      (exRelay.circs 0).GetConnection OUTBOUND = (exRelay.circs 0).n_conn ∧
      (res.1.circs 0).GetQueue OUTBOUND = (exRelay.circs 0).GetQueue OUTBOUND ++ cells ∧
      cells.length = 20 ∧
      (∀ c ∈ cells, (PeekHeader c).cmd = RELAY_DATA ∧ (PeekHeader c).circId = 1 ∧
        (PeekHeader c).length = 498 ∧ c.length = 512) ∧
      (cells.map (fun c => c.drop CELL_HEADER_SIZE)).flatten ++ (res.1.conns 0).inbuf
        = List.replicate 10000 7 ∧
      (cells.map (fun c => (c.drop CELL_HEADER_SIZE).length)).sum = 9960 ∧
      (res.1.conns 0).inbuf.length = 40 :=
  package_request exSock (List.replicate 10000 7) exRelay 10 0 0 (List.length_replicate 10000 7) rfl
    (fun _ => rfl) (by decide) (by decide) (by decide) (by decide) (by decide) (by decide)
    (by decide) (by decide) (by decide) (by decide)

/-- Counterexample to C16 as stated: on `exRelay`, with a million bytes in the read bucket,
the callback reads all 10,000 bytes of the request and leaves 20 cells, not 21, on the queue
toward the OR connection; they carry 9,960 payload bytes, not 10,000, and 40 bytes wait in
`inbuf`. -/
theorem package_request_counterexample :
    ∃ res, ConnReadCallback exSock exRelay (some 10) = some res ∧
      res.2.read_bytes = 10000 ∧
      ((res.1.circs 0).GetQueue OUTBOUND).length = 20 ∧
      ((res.1.circs 0).GetQueue OUTBOUND).length ≠ 21 ∧
      (((res.1.circs 0).GetQueue OUTBOUND).map
        (fun c => (c.drop CELL_HEADER_SIZE).length)).sum = 9960 ∧
      (((res.1.circs 0).GetQueue OUTBOUND).map
        (fun c => (c.drop CELL_HEADER_SIZE).length)).sum ≠ 10000 ∧
      (res.1.conns 0).inbuf.length = 40 := by
  obtain ⟨res, cells, h1, h2, _, h4, h5, _, _, h8, h9⟩ :=
    ConnReadCallback_request_cells exSock (List.replicate 10000 7) exRelay 10 0 0 (List.length_replicate 10000 7)
      rfl (fun _ => rfl) (by decide) (by decide) (by decide) (by decide) (by decide)
      (by decide) (by decide) (by decide) (by decide) (by decide)
  have hq : (exRelay.circs 0).GetQueue OUTBOUND = [] := by decide
  rw [hq, List.nil_append] at h4
  refine ⟨res, h1, h2, ?_, ?_, ?_, ?_, h9⟩
  · rw [h4, h5]
  · rw [h4, h5]; decide
  · rw [h4, h8]
  · rw [h4, h8]; decide

set_option maxRecDepth 1000000 in
/-- C17, failing input: `Write (1024)` on connection 0 of `exTwo` (an empty `outbuf`, two
circuits with two 512-byte cells each) with a socket whose `Send` fails.  The staged bytes are
the old `outbuf` followed by the two cells popped, 1024 bytes; all of them are offered, `Send`
returns -1 and `written_bytes` is 0.  Conservation needs all 1024 staged bytes in the new
`outbuf`: no content of at most `CELL_NETWORK_SIZE` bytes, which is what `outbuf.data` holds,
makes the bytes sent followed by `outbuf` equal to the staged bytes, and the call, which copies
the 1024 bytes into the array, has no defined result.  The same with a short write: a socket
that accepts 100 of the 1024 bytes offered leaves 924 bytes to keep. -/
theorem write_conservation :
    (∃ r, WriteStage 11 exFailedSend exTwo 0 1024 = some r ∧
      r.2.2.1 = (exTwo.conns 0).outbuf ++ poppedBytes r.2.2.2 ∧
      poppedBytes r.2.2.2 = exCell 1 1 ++ exCell 2 1 ∧
      r.2.2.1.length = 1024 ∧
      exFailedSend (r.2.2.1.take (min 1024 r.2.2.1.length)) = -1 ∧
      r.1 = 0 ∧
      (∀ outbuf : List Nat, outbuf.length ≤ CELL_NETWORK_SIZE →
        r.2.2.1.take r.1 ++ outbuf ≠ r.2.2.1) ∧
      (Write 11 exFailedSend exTwo 0 1024).isNone = true) ∧
    (∃ r, WriteStage 11 (fun _ => 100) exTwo 0 1024 = some r ∧
      r.2.2.1 = (exTwo.conns 0).outbuf ++ poppedBytes r.2.2.2 ∧
      poppedBytes r.2.2.2 = exCell 1 1 ++ exCell 2 1 ∧
      r.2.2.1.length = 1024 ∧
      r.1 = 100 ∧
      (∀ outbuf : List Nat, outbuf.length ≤ CELL_NETWORK_SIZE →
        r.2.2.1.take r.1 ++ outbuf ≠ r.2.2.1) ∧
      (Write 11 (fun _ => 100) exTwo 0 1024).isNone = true) := by
  have core1 : ∃ r, WriteStage 11 exFailedSend exTwo 0 1024 = some r ∧
      r.2.2.1 = (exTwo.conns 0).outbuf ++ poppedBytes r.2.2.2 ∧
      poppedBytes r.2.2.2 = exCell 1 1 ++ exCell 2 1 ∧
      r.2.2.1.length = 1024 ∧
      exFailedSend (r.2.2.1.take (min 1024 r.2.2.1.length)) = -1 ∧
      r.1 = 0 ∧
      (Write 11 exFailedSend exTwo 0 1024).isNone = true := by
    decide
  have core2 : ∃ r, WriteStage 11 (fun _ => 100) exTwo 0 1024 = some r ∧
      r.2.2.1 = (exTwo.conns 0).outbuf ++ poppedBytes r.2.2.2 ∧
      poppedBytes r.2.2.2 = exCell 1 1 ++ exCell 2 1 ∧
      r.2.2.1.length = 1024 ∧
      r.1 = 100 ∧
      (Write 11 (fun _ => 100) exTwo 0 1024).isNone = true := by
    decide
  have key : ∀ (staged : List Nat) (s : Nat), staged.length = 1024 → s ≤ 100 →
      ∀ outbuf : List Nat, outbuf.length ≤ CELL_NETWORK_SIZE →
        staged.take s ++ outbuf ≠ staged := by
    intro staged s hl hs outbuf hle heq
    have hl2 := congrArg List.length heq
    rw [List.length_append, List.length_take, hl] at hl2
    have h512 : CELL_NETWORK_SIZE = 512 := rfl
    rw [h512] at hle
    have : min s 1024 ≤ 100 := le_trans (min_le_left _ _) hs
    omega
  obtain ⟨r, h1, h2, h3, h4, h5, h6, h7⟩ := core1
  obtain ⟨q, g1, g2, g3, g4, g5, g6⟩ := core2
  exact ⟨⟨r, h1, h2, h3, h4, h5, h6, key _ _ h4 (by omega), h7⟩,
    ⟨q, g1, g2, g3, g4, g5, key _ _ g4 (by omega), g6⟩⟩

set_option maxRecDepth 1000000 in
/-- C18, failing input: `Write (1024)` on connection 0 of `exTwo` (two circuits with two
512-byte cells each) with a socket whose `Send` fails.  `written_bytes` is 0 and the un-sent
tail that the call copies into `outbuf.data` and records in `outbuf.size` is all 1024 staged
bytes (`leftover = 1024`), twice the 512 bytes that `buf_t.data` can hold, so the call has no
defined result; with a socket that accepts 100 of the 1024 bytes the tail is 924 bytes. -/
theorem outbuf_overflow :
    (∃ r, WriteStage 11 exFailedSend exTwo 0 1024 = some r ∧ r.1 = 0 ∧
      r.2.2.1.length - r.1 = 1024 ∧
      (r.2.2.1.drop (r.2.2.1.length - (r.2.2.1.length - r.1))).length = 1024 ∧
      ¬ (r.2.2.1.length - r.1 ≤ CELL_NETWORK_SIZE)) ∧
    (Write 11 exFailedSend exTwo 0 1024).isNone = true ∧
    (∃ r, WriteStage 11 (fun _ => 100) exTwo 0 1024 = some r ∧ r.1 = 100 ∧
      r.2.2.1.length - r.1 = 924 ∧
      (r.2.2.1.drop (r.2.2.1.length - (r.2.2.1.length - r.1))).length = 924 ∧
      ¬ (r.2.2.1.length - r.1 ≤ CELL_NETWORK_SIZE)) ∧
    (Write 11 (fun _ => 100) exTwo 0 1024).isNone = true := by
  decide

/-- C19: never ingest beyond the window.  `ConnReadCallback` on an unblocked edge connection
whose `inbuf` holds fewer than 498 bytes and whose circuit has `package_window = w ≥ 0`, with a
socket that delivers at most what it is asked for, runs to completion; the bytes requested are
at most `w * 498` and at most `w` cells are packaged; each of them takes at most one unit of
the window (exactly one when the circuit is attached to the connection), so `package_window`
stays at or above 0, and if it goes from a positive value to 0 the connection is blocked. -/
theorem read_within_window (sock : ReadSocket) (st : TorApp) (s conn circ : Nat)
    (hl : LookupConn st (some s) = some conn)
    (he : (st.conns conn).conn_type = EDGE_CONN)
    (hb : (st.conns conn).reading_blocked = false)
    (hi : (st.conns conn).inbuf.length < CELL_PAYLOAD_SIZE)
    (ha : (st.conns conn).active_circuits = some circ)
    (hw : 0 ≤ (st.circs circ).package_window)
    (hrecv : ∀ n, (sock.Recv n).length ≤ n) :
    ∃ st' log, ConnReadCallback sock st (some s) = some (st', log) ∧
      (log.max_read : Int) ≤ (st.circs circ).package_window * 498 ∧
      log.read_bytes ≤ log.max_read ∧
      (log.packet_list.length : Int) ≤ (st.circs circ).package_window ∧
      (st.circs circ).package_window - log.packet_list.length
        ≤ (st'.circs circ).package_window ∧
      ((st.circs circ).n_conn = conn ∨ (st.circs circ).p_conn = conn →
        (st'.circs circ).package_window
          = (st.circs circ).package_window - log.packet_list.length) ∧
      0 ≤ (st'.circs circ).package_window ∧
      (0 < (st.circs circ).package_window → (st'.circs circ).package_window = 0 →
        (st'.conns conn).reading_blocked = true) := by
  obtain ⟨st', log, hrun, h0, h1⟩ := ConnReadCallback_edge sock st s conn circ hl he hb ha
  refine ⟨st', log, hrun, ?_⟩
  by_cases hz : min (RoundRobin CELL_PAYLOAD_SIZE st.m_readbucket.GetSize).toNat
      sock.GetRxAvailable = 0
  · obtain ⟨e1, e2, e3, e4⟩ := h0 hz
    subst e1
    rw [e2, e3, e4]
    simp only [List.length_nil, Nat.cast_zero, sub_zero, le_refl, true_and]
    refine ⟨by omega, hw, fun _ => trivial, hw, fun h5 h6 => ?_⟩
    omega
  · obtain ⟨e1, e2, e3, e4, e5, e6, e7, e8, e9⟩ := h1 hz
    have hmax : (log.max_read : Int) ≤ (st.circs circ).package_window * 498 := by
      rw [e1]
      exact window_clamp _ hw _
    have hrd : log.read_bytes ≤ log.max_read := by rw [e2]; exact hrecv _
    have hcells : (log.packet_list.length : Int) ≤ (st.circs circ).package_window := by
      have h5 := Nat.div_mul_le_self ((st.conns conn).inbuf.length + log.read_bytes)
        CELL_PAYLOAD_SIZE
      rw [← e3] at h5
      have h6 : ((log.packet_list.length * CELL_PAYLOAD_SIZE : Nat) : Int)
          ≤ (((st.conns conn).inbuf.length + log.read_bytes : Nat) : Int) := by
        exact_mod_cast h5
      have h7 : (log.read_bytes : Int) ≤ log.max_read := by exact_mod_cast hrd
      have h8 : ((st.conns conn).inbuf.length : Int) < 498 := by
        have : (st.conns conn).inbuf.length < 498 := hi
        exact_mod_cast this
      simp only [CELL_PAYLOAD_SIZE] at h6
      push_cast at h6
      omega
    refine ⟨hmax, hrd, hcells, ?_, ?_, ?_, ?_⟩
    · rw [e7]; split_ifs <;> omega
    · intro hatt
      rw [e7, opposite_of_attached _ conn hatt, he]
      simp
    · rw [e7]; split_ifs <;> omega
    · intro hpos hzero
      apply e8 _ hzero
      intro hnil
      rw [hnil] at e7
      simp at e7
      omega

set_option maxRecDepth 1000000 in
/-- Witness of C19: with two units of window left and 10,000 bytes waiting, 996 bytes are
requested, two cells are packaged, the window reaches 0 and the edge connection is blocked. -/
theorem read_within_window_witness :
    (∃ st' log, ConnReadCallback exSock exLowWindow (some 10) = some (st', log) ∧
      (log.max_read : Int) ≤ (exLowWindow.circs 0).package_window * 498 ∧
      log.read_bytes ≤ log.max_read ∧
      (log.packet_list.length : Int) ≤ (exLowWindow.circs 0).package_window ∧
      (exLowWindow.circs 0).package_window - log.packet_list.length
        ≤ (st'.circs 0).package_window ∧
      ((exLowWindow.circs 0).n_conn = 0 ∨ (exLowWindow.circs 0).p_conn = 0 →
        (st'.circs 0).package_window
          = (exLowWindow.circs 0).package_window - log.packet_list.length) ∧
      0 ≤ (st'.circs 0).package_window ∧
      (0 < (exLowWindow.circs 0).package_window → (st'.circs 0).package_window = 0 →
        (st'.conns 0).reading_blocked = true)) ∧
    (∃ res, ConnReadCallback exSock exLowWindow (some 10) = some res ∧
      res.2.max_read = 996 ∧ res.2.packet_list.length = 2 ∧
      (res.1.circs 0).package_window = 0 ∧ (res.1.conns 0).reading_blocked = true) :=
  ⟨read_within_window exSock exLowWindow 10 0 0 (by decide) (by decide) (by decide) (by decide)
      (by decide) (by decide) (fun n => List.length_take_le n _),
    by decide⟩

/-- C21: a blocked connection does not read, whatever the token buckets hold.
`Connection::Read` on it returns 0, adds no cell to the packet list and leaves the relay, so
the carry-over `inbuf` too, as it is; `ConnReadCallback` on its socket returns at once: `Read`
is not called, no cell is enqueued and no bucket is decremented, the relay is unchanged. -/
theorem blocked_no_read (sock : ReadSocket) (st : TorApp) (k : Nat)
    (hb : (st.conns k).reading_blocked = true) :
    (∀ packet_list max_read,
      Read sock.Recv st k packet_list max_read = some (0, packet_list, st)) ∧
    (∀ s, LookupConn st (some s) = some k →
      ConnReadCallback sock st (some s)
        = some (st, { max_read := 0, read_bytes := 0, packet_list := [] })) :=
  ⟨fun packet_list max_read => Read_blocked sock.Recv st k packet_list max_read hb,
   fun s hl => ConnReadCallback_blocked sock st s k hl hb⟩

/-- Witness for C21: the blocked edge connection of `exBlocked`, with a million bytes in the
read bucket and 10,000 bytes waiting in the socket. -/
theorem blocked_no_read_witness :
    (exBlocked.conns 0).reading_blocked = true ∧
    LookupConn exBlocked (some 10) = some 0 ∧
    exBlocked.m_readbucket.GetSize = 1000000 ∧
    Read exSock.Recv exBlocked 0 [] 996 = some (0, [], exBlocked) ∧
    ConnReadCallback exSock exBlocked (some 10)
      = some (exBlocked, { max_read := 0, read_bytes := 0, packet_list := [] }) :=
  ⟨by decide, by decide, by decide,
   (blocked_no_read exSock exBlocked 0 (by decide)).1 [] 996,
   (blocked_no_read exSock exBlocked 0 (by decide)).2 10 (by decide)⟩

set_option maxRecDepth 1000000 in
/-- Counterexample to C22: the read callback on the edge connection of `exLowWindow` packages
the last two cells the window allows, which blocks the connection, and then, the socket still
holding bytes, schedules a read on it: the connection is blocked with a read event pending. -/
theorem blocked_read_event_counterexample :
    ∃ res, ConnReadCallback exBusySock exLowWindow (some 10) = some res ∧
      (res.1.conns 0).reading_blocked = true ∧
      (res.1.conns 0).read_event = some 1992 := by
  decide

/-- C22, amended: nothing keeps a read event off a blocked connection.  `SetBlocked` leaves
the read event as it is, `ScheduleRead` arms it without looking at the flag, and `PushCell`
changes the read event of a connection only when it leaves that connection unblocked.  What
holds of a blocked connection is that the read event does nothing when it fires:
`ConnReadCallback` returns at once and leaves the relay unchanged. -/
theorem blocked_read_event (sock : ReadSocket) (st : TorApp) :
    (∀ (x : Connection) (b : Bool), (x.SetBlocked b).read_event = x.read_event) ∧
    (∀ (x : Connection) (delay : Nat),
      (x.ScheduleRead delay).reading_blocked = x.reading_blocked ∧
      (x.ScheduleRead delay).read_event =
        if x.socket.isSome ∧ x.read_event = none then some delay else x.read_event) ∧
    (∀ st' c cell d, PushCell st c cell d = some st' →
      ∀ k, (st'.conns k).read_event ≠ (st.conns k).read_event →
        (st'.conns k).reading_blocked = false) ∧
    (∀ s k, LookupConn st (some s) = some k → (st.conns k).reading_blocked = true →
      ConnReadCallback sock st (some s)
        = some (st, { max_read := 0, read_bytes := 0, packet_list := [] })) := by
  refine ⟨?_, ?_, ?_, ?_⟩
  · intro x b
    simp [SetBlocked_eq]
  · intro x delay
    rw [ScheduleRead_eq]
    constructor
    · rfl
    · cases x.socket <;> cases x.read_event <;> simp
  · intro st' c cell d h k hk
    exact PushCell_read_event st st' c cell d h k hk
  · intro s k hl hb
    exact ConnReadCallback_blocked sock st s k hl hb

/-- Witness for C22: a SENDME pushed toward the blocked edge connection of `exBlocked`
schedules a read on it and leaves it unblocked; a read event that fires on the connection
while it is blocked changes nothing. -/
theorem blocked_read_event_witness :
    (∃ st', PushCell exBlocked 0 (some exSendme) INBOUND = some st' ∧
      (st'.conns 0).read_event ≠ (exBlocked.conns 0).read_event ∧
      (st'.conns 0).reading_blocked = false) ∧
    LookupConn exBlocked (some 10) = some 0 ∧
    (exBlocked.conns 0).reading_blocked = true ∧
    ConnReadCallback exBusySock exBlocked (some 10)
      = some (exBlocked, { max_read := 0, read_bytes := 0, packet_list := [] }) := by
  refine ⟨?_, by decide, by decide,
    (blocked_read_event exBusySock exBlocked).2.2.2 10 0 (by decide) (by decide)⟩
  cases h : PushCell exBlocked 0 (some exSendme) INBOUND with
  | none =>
    have h3 : (PushCell exBlocked 0 (some exSendme) INBOUND).isSome = true := by decide
    rw [h] at h3
    exact absurd h3 (by decide)
  | some st' =>
    have hne : (st'.conns 0).read_event ≠ (exBlocked.conns 0).read_event := by
      have h2 : (PushCell exBlocked 0 (some exSendme) INBOUND).map
          (fun s => (s.conns 0).read_event) = some (some 0) := by decide
      rw [h] at h2
      simp only [Option.map_some', Option.some.injEq] at h2
      rw [h2]; decide
    exact ⟨st', rfl, hne, (blocked_read_event exBusySock exBlocked).2.2.1 st' 0 _ _ h 0 hne⟩

/-- Counterexample to C23: one `AddCircuit` on a new relay.  The new circuit is on the rings
of both its connections although no cell has ever been queued on it: both its queues are
empty. -/
theorem ring_membership_counterexample :
    ∃ res, AddCircuit 0 TorApp.new 1 11 0 10 1 = some res ∧
      ringHead res (res.circs 0).p_conn 1 = [0] ∧
      ringHead res (res.circs 0).n_conn 1 = [0] ∧
      (res.circs 0).GetConnection INBOUND = (res.circs 0).p_conn ∧
      (res.circs 0).GetQueue INBOUND = [] ∧
      (res.circs 0).GetQueue OUTBOUND = [] := by
  decide

/-- C23, amended: a circuit is on the rings of its connections from its creation, not from its
first queued cell.  When `AddCircuit` returns, the new circuit C is on the active-circuit ring
of `C.p_conn` (it is the head of the ring or the circuit after the head), and likewise for
`C.n_conn`, while both its queues are empty; `PushCell` and `PopCell` change no ring. -/
theorem ring_membership (circ : Nat) (st : TorApp) (id : Int) (n_ip : Nat) (nt : Int)
    (p_ip : Nat) (pt : Int) :
    (st.circuits (id % 65536).toNat = none → (nt = OR_CONN ∨ nt = EDGE_CONN) →
      (pt = OR_CONN ∨ pt = EDGE_CONN) →
      ∃ st', AddCircuit circ st id n_ip nt p_ip pt = some st' ∧
        circ ∈ ringHead st' (st'.circs circ).p_conn 2 ∧
        circ ∈ ringHead st' (st'.circs circ).n_conn 2 ∧
        (st'.circs circ).GetQueue INBOUND = [] ∧
        (st'.circs circ).GetQueue OUTBOUND = []) ∧
    (∀ st' c cell d, PushCell st c cell d = some st' →
      ∀ k n, ringHead st' k n = ringHead st k n) ∧
    (∀ c d k n, ringHead (PopCell st c d).2 k n = ringHead st k n) := by
  refine ⟨?_, ?_, ?_⟩
  · intro hreg hn hp
    obtain ⟨st', h, mp, mn, qp, qn⟩ := AddCircuit_rings circ st id n_ip nt p_ip pt hreg hn hp
    exact ⟨st', h, mp, mn, by simpa [Circuit.GetQueue] using qp,
      by simpa [Circuit.GetQueue] using qn⟩
  · intro st' c cell d h k n
    exact PushCell_ringHead st st' c cell d h k n
  · intro c d k n
    exact PopCell_ringHead st c d k n

set_option maxRecDepth 1000000 in
/-- Witness for C23: circuit 1 added to the relay `exOneCircuit` shares the OR address 11 with
the circuit that is there; it is on both rings.  A cell pushed on circuit 0 of `exRelay`
changes no ring. -/
theorem ring_membership_witness :
    exOneCircuit.circuits ((2 : Int) % 65536).toNat = none ∧
    (∃ st', AddCircuit 1 exOneCircuit 2 11 0 12 1 = some st' ∧
      1 ∈ ringHead st' (st'.circs 1).p_conn 2 ∧
      1 ∈ ringHead st' (st'.circs 1).n_conn 2) ∧
    (∃ st', PushCell exRelay 0 (some exData) OUTBOUND = some st' ∧
      ringHead st' 1 3 = ringHead exRelay 1 3) := by
  refine ⟨by decide, ?_, ?_⟩
  · obtain ⟨st', h, mp, mn, _⟩ :=
      (ring_membership 1 exOneCircuit 2 11 0 12 1).1 (by decide) (by decide) (by decide)
    exact ⟨st', h, mp, mn⟩
  · cases h : PushCell exRelay 0 (some exData) OUTBOUND with
    | none =>
      have h3 : (PushCell exRelay 0 (some exData) OUTBOUND).isSome = true := by decide
      rw [h] at h3
      exact absurd h3 (by decide)
    | some st' =>
      exact ⟨st', rfl, (ring_membership 1 exRelay 2 11 0 12 1).2.1 st' 0 _ _ h 1 3⟩

/-- C24: connections are deduplicated by remote address.  After any sequence of
`AddConnection` and `AddCircuit` calls on a new relay no two listed connections have the same
remote address.  `AddConnection (ip, t)` with a valid type returns the listed connection that
has the address `ip` when there is one, leaving the relay (the list and the type of that
connection) as it is; otherwise it appends exactly one new connection to the list: of type `t`,
with the address `ip`, no socket, empty buffers and unblocked, every other connection, the
circuits and the circuit map being unchanged. -/
theorem connections_dedup :
    (∀ ops st, runConfig ops TorApp.new = some st → remotesDistinct st) ∧
    (∀ (st : TorApp) (ip : Nat) (t : Int), (t = OR_CONN ∨ t = EDGE_CONN) →
      (∀ k, remotesDistinct st → k ∈ st.connections → (st.conns k).remote = ip →
        AddConnection st ip t = some (k, st)) ∧
      ((∀ k ∈ st.connections, (st.conns k).remote ≠ ip) →
        ∃ k st', AddConnection st ip t = some (k, st') ∧
          k ∉ st.connections ∧
          st'.connections = st.connections ++ [k] ∧
          (∀ j, j ≠ k → st'.conns j = st.conns j) ∧
          (st'.conns k).remote = ip ∧
          ((st'.conns k).conn_type : Int) = t ∧
          (st'.conns k).socket = none ∧
          (st'.conns k).inbuf = [] ∧
          (st'.conns k).outbuf = [] ∧
          (st'.conns k).reading_blocked = false ∧
          st'.circs = st.circs ∧ st'.circuits = st.circuits)) := by
  refine ⟨?_, ?_⟩
  · intro ops st h
    refine runConfig_distinct ops TorApp.new st ?_ h
    unfold remotesDistinct
    exact List.nodup_nil
  · intro st ip t ht
    refine ⟨?_, ?_⟩
    · intro k hd hk hr
      exact AddConnection_found st ip t ht k (find_remote st ip k hd hk hr)
    · intro hnone
      have hf : st.connections.find? (fun k => decide ((st.conns k).remote = ip)) = none := by
        rw [List.find?_eq_none]
        intro k hk
        simpa using hnone k hk
      refine ⟨_, _, AddConnection_fresh st ip t ht hf, freshConn_not_mem st, rfl, ?_, ?_, ?_,
        ?_, ?_, ?_, ?_, rfl, rfl⟩
      · intro j hj
        exact setAt_other _ _ _ _ hj
      · simp [Connection.new]
      · simp only [setAt_same, Connection.new]
        rcases ht with ht | ht <;> rw [ht] <;> rfl
      · simp [Connection.new]
      · simp [Connection.new]
      · simp [Connection.new]
      · simp [Connection.new]

/-- Witness for C24: the sequence `exConfig`, which names the address 11 three times, leaves
three connections with distinct addresses; on `exRelay`, asking for the address 11 again returns
connection 1 and changes nothing, asking for the new address 12 appends one connection. -/
theorem connections_dedup_witness :
    (∃ st, runConfig exConfig TorApp.new = some st ∧ remotesDistinct st ∧
      st.connections.length = 3) ∧
    AddConnection exRelay 11 0 = some (1, exRelay) ∧
    (∃ k st', AddConnection exRelay 12 0 = some (k, st') ∧
      st'.connections = exRelay.connections ++ [k] ∧ (st'.conns k).remote = 12) := by
  refine ⟨?_, ?_, ?_⟩
  · cases h : runConfig exConfig TorApp.new with
    | none =>
      have h3 : (runConfig exConfig TorApp.new).isSome = true := by decide
      rw [h] at h3
      exact absurd h3 (by decide)
    | some st =>
      have hl : (runConfig exConfig TorApp.new).map (fun s => s.connections.length)
          = some 3 := by decide
      rw [h] at hl
      simp only [Option.map_some', Option.some.injEq] at hl
      exact ⟨st, rfl, connections_dedup.1 exConfig st h, hl⟩
  · exact (connections_dedup.2 exRelay 11 0 (by decide)).1 1
      (by unfold remotesDistinct; decide) (by decide) (by decide)
  · obtain ⟨k, st', h, _, hl, _, hr, _⟩ :=
      (connections_dedup.2 exRelay 12 0 (by decide)).2 (by decide)
    exact ⟨k, st', h, hl, hr⟩

/-- C25: `AddCircuit (id, next_ip, next_type, prev_ip, prev_type)` aborts if a circuit is
registered under the id (the map key is the id as a 16-bit number) or if one of the two
connection types is neither `OR_CONN` nor `EDGE_CONN`.  Otherwise it returns; afterwards
`GetCircuit` returns the new circuit for the id, the new circuit carries the id (for every
16-bit id, `GetCircuit (id)` is the new circuit and `GetId ()` is `id`), `GetCircuit` returns
for every other key what it returned before, and every other circuit object is unchanged but
for its ring pointers. -/
theorem add_circuit (circ : Nat) (st : TorApp) (id : Int) (n_ip : Nat) (nt : Int) (p_ip : Nat)
    (pt : Int) :
    ((st.circuits (id % 65536).toNat ≠ none ∨ ¬ (nt = OR_CONN ∨ nt = EDGE_CONN)
        ∨ ¬ (pt = OR_CONN ∨ pt = EDGE_CONN)) →
      AddCircuit circ st id n_ip nt p_ip pt = none) ∧
    (0 ≤ id ∧ id < 65536 →
      (st.circuits (id % 65536).toNat ≠ none ↔ GetCircuit st id.toNat ≠ none)) ∧
    (st.circuits (id % 65536).toNat = none → (nt = OR_CONN ∨ nt = EDGE_CONN) →
      (pt = OR_CONN ∨ pt = EDGE_CONN) →
      ∃ st', AddCircuit circ st id n_ip nt p_ip pt = some st' ∧
        GetCircuit st' (id % 65536).toNat = some circ ∧
        (st'.circs circ).circ_id = id ∧
        (0 ≤ id ∧ id < 65536 →
          GetCircuit st' id.toNat = some circ ∧ ((st'.circs circ).GetId : Int) = id) ∧
        (∀ id2, id2 % 65536 ≠ (id % 65536).toNat → GetCircuit st' id2 = GetCircuit st id2) ∧
        (∀ c, c ≠ circ → sameButRing (st.circs c) (st'.circs c))) := by
  refine ⟨AddCircuit_abort circ st id n_ip nt p_ip pt, ?_, ?_⟩
  · intro hid
    have e : id.toNat % 65536 = (id % 65536).toNat := by omega
    unfold GetCircuit
    rw [e]
  · intro hreg hn hp
    obtain ⟨st', p_conn, n_conn, h, hmap, hnew, hold, _⟩ :=
      AddCircuit_spec circ st id n_ip nt p_ip pt hreg hn hp
    have hk : (id % 65536).toNat % 65536 = (id % 65536).toNat := by omega
    have hget : GetCircuit st' (id % 65536).toNat = some circ := by
      unfold GetCircuit
      rw [hk, hmap, setAt_same]
    have hcid : (st'.circs circ).circ_id = id := hnew.1
    refine ⟨st', h, hget, hcid, ?_, ?_, hold⟩
    · intro hid
      have e : id.toNat = (id % 65536).toNat := by omega
      refine ⟨by rw [e]; exact hget, ?_⟩
      unfold Circuit.GetId
      rw [hcid]
      omega
    · intro id2 hne
      unfold GetCircuit
      rw [hmap, setAt_other _ _ _ _ hne]

/-- Witness for C25: on a new relay the id 1 is free and `AddCircuit` registers circuit 0
under it; a second `AddCircuit` with the id 1 aborts. -/
theorem add_circuit_witness :
    TorApp.new.circuits ((1 : Int) % 65536).toNat = none ∧
    (∃ st', AddCircuit 0 TorApp.new 1 11 0 10 1 = some st' ∧
      GetCircuit st' 1 = some 0 ∧ (st'.circs 0).circ_id = 1) ∧
    exOneCircuit.circuits ((1 : Int) % 65536).toNat ≠ none ∧
    AddCircuit 1 exOneCircuit 1 13 0 12 1 = none := by
  refine ⟨by decide, ?_, by decide, ?_⟩
  · obtain ⟨st', h, hg, hc, _⟩ :=
      (add_circuit 0 TorApp.new 1 11 0 10 1).2.2 (by decide) (by decide) (by decide)
    exact ⟨st', h, hg, hc⟩
  · exact (add_circuit 1 exOneCircuit 1 13 0 12 1).1 (Or.inl (by decide))

/-- C26: `ReceiveRelayCell` aborts when the circuit id in the header of the cell names no
configured circuit.  When it names the circuit `circ` and the direction opposite to the
receiving connection leads to an OR connection, the call completes: the cell, as it is, is at
the tail of the queue of `circ` for that direction, the queue of the other direction is
untouched, the target connection is the old one after `ScheduleWrite ()`, and every other
circuit is unchanged. -/
theorem relay_cell (st : TorApp) (conn : Nat) (cell : Packet) :
    (LookupCircuitFromCell st cell = none →
      ReceiveRelayCell st (some conn) (some cell) = none) ∧
    (∀ circ, LookupCircuitFromCell st cell = some circ →
      (st.conns ((st.circs circ).GetConnection
        ((st.circs circ).GetOppositeDirectionOf conn))).conn_type = OR_CONN →
      ∃ st', ReceiveRelayCell st (some conn) (some cell) = some st' ∧
        (st'.circs circ).GetQueue ((st.circs circ).GetOppositeDirectionOf conn)
          = (st.circs circ).GetQueue ((st.circs circ).GetOppositeDirectionOf conn) ++ [cell] ∧
        (st'.circs circ).GetQueue
            (GetOppositeDirection ((st.circs circ).GetOppositeDirectionOf conn))
          = (st.circs circ).GetQueue
            (GetOppositeDirection ((st.circs circ).GetOppositeDirectionOf conn)) ∧
        st'.conns ((st.circs circ).GetConnection ((st.circs circ).GetOppositeDirectionOf conn))
          = (st.conns ((st.circs circ).GetConnection
              ((st.circs circ).GetOppositeDirectionOf conn))).ScheduleWrite 0 ∧
        (∀ c, c ≠ circ → st'.circs c = st.circs c)) := by
  constructor
  · intro h
    simp [ReceiveRelayCell, h]
  · intro circ h htype
    have hne : (st.conns ((st.circs circ).GetConnection
        ((st.circs circ).GetOppositeDirectionOf conn))).conn_type ≠ EDGE_CONN := by
      rw [htype]; decide
    obtain ⟨s, hs, hq, ho, _, _, hk⟩ :=
      PushCell_relayed st circ cell ((st.circs circ).GetOppositeDirectionOf conn) hne
    refine ⟨s.modConn ((st.circs circ).GetConnection
      ((st.circs circ).GetOppositeDirectionOf conn)) (fun k => k.ScheduleWrite 0), ?_, ?_, ?_, ?_, ?_⟩
    · simp [ReceiveRelayCell, h, AppendCellToCircuitQueue, hs]
    · simpa using hq
    · simpa using ho
    · rw [modConn_conns_same, hk _ hne]
    · intro c hc
      simpa using PushCell_other_circ st s circ (some cell) _ hs c hc

set_option maxRecDepth 1000000 in
/-- Witness for C26: a cell of circuit 1 read on its previous connection in `exMiddle` is
queued toward the next connection, behind the two cells already there. -/
theorem relay_cell_witness :
    LookupCircuitFromCell exMiddle (exCell 1 7) = some 1 ∧
    ∃ st', ReceiveRelayCell exMiddle (some 1) (some (exCell 1 7)) = some st' ∧
      (st'.circs 1).GetQueue OUTBOUND = [exCell 1 1, exCell 1 2, exCell 1 7] ∧
      (st'.conns 0).write_event = some 0 := by
  refine ⟨by decide, ?_⟩
  obtain ⟨st', h, hq, _, hc, _⟩ :=
    (relay_cell exMiddle 1 (exCell 1 7)).2 1 (by decide) (by decide)
  refine ⟨st', h, ?_, ?_⟩
  · rw [show (exMiddle.circs 1).GetOppositeDirectionOf 1 = OUTBOUND by decide] at hq
    rw [hq]; decide
  · rw [show (exMiddle.circs 1).GetConnection ((exMiddle.circs 1).GetOppositeDirectionOf 1) = 0
      by decide] at hc
    rw [hc]; decide

set_option maxRecDepth 1000000 in
/-- Counterexample to C27: on the circuit of `exEdgeEdgeRing`, whose two connections are edge
connections, packaging a 498-byte payload read on connection 0 enqueues the bare payload, not
the 512-byte cell: `PushCell` strips the header again on the way into an edge connection. -/
theorem package_cell_counterexample :
    (exEdgeEdgeRing.conns 0).conn_type = EDGE_CONN ∧
    exPayload.length = 498 ∧
    (PackageRelayCell exEdgeEdgeRing (some 0) (some exPayload)).map
      (fun s => (s.circs 0).GetQueue ((exEdgeEdgeRing.circs 0).GetOppositeDirectionOf 0))
      = some [exPayload] ∧
    (PackageRelayCellImpl (exEdgeEdgeRing.circs 0).GetId exPayload).length = 512 := by
  decide

/-- C27, amended: `PackageRelayCell` for a payload read on a connection whose circuit is
`circ` puts in front of the payload a header with the circuit's id (its low 16 bits, the id
itself when it fits 16 bits), type RELAY, command RELAY_DATA and the payload's size as length,
so a 498-byte payload becomes a 512-byte cell; when the direction opposite to the connection
leads to an OR connection, the call completes with that cell at the tail of the circuit's queue
for that direction. -/
theorem package_cell (st : TorApp) (conn circ : Nat) (payload : Packet)
    (ha : (st.conns conn).active_circuits = some circ)
    (hor : (st.conns ((st.circs circ).GetConnection
      ((st.circs circ).GetOppositeDirectionOf conn))).conn_type = OR_CONN) :
    (PeekHeader (PackageRelayCellImpl (st.circs circ).GetId payload)).circId
      = (st.circs circ).GetId % 65536 ∧
    ((st.circs circ).GetId < 65536 →
      (PeekHeader (PackageRelayCellImpl (st.circs circ).GetId payload)).circId
        = (st.circs circ).GetId) ∧
    (PeekHeader (PackageRelayCellImpl (st.circs circ).GetId payload)).cellType = RELAY ∧
    (PeekHeader (PackageRelayCellImpl (st.circs circ).GetId payload)).cmd = RELAY_DATA ∧
    (PeekHeader (PackageRelayCellImpl (st.circs circ).GetId payload)).length
      = payload.length % 65536 ∧
    (PackageRelayCellImpl (st.circs circ).GetId payload).drop CELL_HEADER_SIZE = payload ∧
    (payload.length = CELL_PAYLOAD_SIZE →
      (PackageRelayCellImpl (st.circs circ).GetId payload).length = CELL_NETWORK_SIZE) ∧
    ∃ st', PackageRelayCell st (some conn) (some payload) = some st' ∧
      (st'.circs circ).GetQueue ((st.circs circ).GetOppositeDirectionOf conn) =
        (st.circs circ).GetQueue ((st.circs circ).GetOppositeDirectionOf conn) ++
          [PackageRelayCellImpl (st.circs circ).GetId payload] := by
  have hh := PackageRelayCellImpl_header (st.circs circ).GetId payload
  have hid := PackageRelayCellImpl_circId (st.circs circ).GetId payload
  refine ⟨hid, ?_, hh.2.1, hh.1, hh.2.2.2.1, hh.2.2.2.2, ?_, ?_⟩
  · intro hlt
    rw [hid, Nat.mod_eq_of_lt hlt]
  · intro hl
    rw [PackageRelayCellImpl_length, hl]
    decide
  · obtain ⟨st', h, _, _, _, _, _, _, _, hq⟩ := PackageRelayCell_spec st conn circ payload ha
    refine ⟨st', h, ?_⟩
    rw [hq, if_neg (by rw [hor]; decide)]

set_option maxRecDepth 1000000 in
/-- Witness for C27: a 498-byte payload read on the edge connection of `exEdgeOrRing` is
queued toward the OR connection as a 512-byte cell of circuit 1. -/
theorem package_cell_witness :
    (exEdgeOrRing.conns 0).active_circuits = some 0 ∧
    (exEdgeOrRing.circs 0).GetOppositeDirectionOf 0 = OUTBOUND ∧
    (exEdgeOrRing.conns ((exEdgeOrRing.circs 0).GetConnection OUTBOUND)).conn_type = OR_CONN ∧
    (PeekHeader (PackageRelayCellImpl (exEdgeOrRing.circs 0).GetId exPayload)).circId = 1 ∧
    (PackageRelayCellImpl (exEdgeOrRing.circs 0).GetId exPayload).length = 512 ∧
    ∃ st', PackageRelayCell exEdgeOrRing (some 0) (some exPayload) = some st' ∧
      (st'.circs 0).GetQueue ((exEdgeOrRing.circs 0).GetOppositeDirectionOf 0) =
        (exEdgeOrRing.circs 0).GetQueue ((exEdgeOrRing.circs 0).GetOppositeDirectionOf 0) ++
          [PackageRelayCellImpl (exEdgeOrRing.circs 0).GetId exPayload] :=
  ⟨by decide, by decide, by decide, by decide, by decide,
   (package_cell exEdgeOrRing 0 0 exPayload (by decide) (by decide)).2.2.2.2.2.2.2⟩

/-- C28: for every 498-byte payload, the cell that `PackageRelayCellImpl` makes of it, pushed
with `PushCell` toward an edge connection, is enqueued without its header: the call completes
and the entry added at the tail of the queue is the original payload, byte for byte.  The
header peeked from the packaged cell carries the command RELAY_DATA and the circuit id (any id
that fits the 16-bit field of the header). -/
theorem package_round_trip (st : TorApp) (c : Nat) (d : CellDirection) (circ_id : Int)
    (payload : Packet) (hlen : payload.length = CELL_PAYLOAD_SIZE)
    (he : (st.conns ((st.circs c).GetConnection d)).conn_type = EDGE_CONN) :
    (∃ st', PushCell st c (some (PackageRelayCellImpl circ_id payload)) d = some st' ∧
      (st'.circs c).GetQueue d = (st.circs c).GetQueue d ++ [payload]) ∧
    (PeekHeader (PackageRelayCellImpl circ_id payload)).cmd = RELAY_DATA ∧
    (0 ≤ circ_id ∧ circ_id < 65536 →
      ((PeekHeader (PackageRelayCellImpl circ_id payload)).circId : Int) = circ_id) := by
  have hh := PackageRelayCellImpl_header circ_id payload
  have hl := PackageRelayCellImpl_length circ_id payload
  refine ⟨?_, hh.1, ?_⟩
  · obtain ⟨st', h⟩ := PushCell_completes st c (PackageRelayCellImpl circ_id payload) d
      (Or.inr (by omega))
    refine ⟨st', h, ?_⟩
    rw [PushCell_data_queue st st' c _ d (PackageRelayCellImpl_not_sendme circ_id payload)
      (by omega) h, if_pos he, hh.2.2.2.2]
  · intro hr
    rw [hh.2.2.1]
    omega

set_option maxRecDepth 1000000 in
/-- Witness for C28: a packaged payload of circuit 1 pushed toward the edge connection of
`exEdgeOr`. -/
theorem package_round_trip_witness :
    exPayload.length = CELL_PAYLOAD_SIZE ∧
    (exEdgeOr.conns ((exEdgeOr.circs 0).GetConnection INBOUND)).conn_type = EDGE_CONN ∧
    (∃ st', PushCell exEdgeOr 0 (some (PackageRelayCellImpl 1 exPayload)) INBOUND = some st' ∧
      (st'.circs 0).GetQueue INBOUND = (exEdgeOr.circs 0).GetQueue INBOUND ++ [exPayload]) ∧
    ((PeekHeader (PackageRelayCellImpl 1 exPayload)).circId : Int) = 1 :=
  ⟨by decide, by decide,
   (package_round_trip exEdgeOr 0 INBOUND 1 exPayload (by decide) (by decide)).1,
   (package_round_trip exEdgeOr 0 INBOUND 1 exPayload (by decide) (by decide)).2.2
     ⟨by decide, by decide⟩⟩

set_option maxRecDepth 1000000 in
/-- C29: the return value of `SendCell` when `Send` fails.  Circuit 1 of `exTwo` has two cells
queued toward connection 0, which is not blocked and whose socket has room for a cell; the
socket's `Send` answers -1.  `SendCell` pops the head cell, which is lost, and returns
4294967295, the `int` -1 read as a `uint32_t`: not a number of bytes that the socket
accepted. -/
theorem send_cell_return :
    (exTwo.circs 1).GetQueue OUTBOUND = [exCell 1 1, exCell 1 2] ∧
    (exTwo.conns ((exTwo.circs 1).GetConnection OUTBOUND)).reading_blocked = false ∧
    exFailedSend (exCell 1 1) = -1 ∧
    ∃ res, SendCell 512 exFailedSend exTwo 1 OUTBOUND = some res ∧
      res.1 = 4294967295 ∧
      (res.2.circs 1).GetQueue OUTBOUND = [exCell 1 2] := by
  decide

/-- Counterexample to C30: on `exRelay`, with a previous balance of 0 and a positive bucket,
`RefillReadCallback` arms the read event of the OR connection with a delay of 10 ns, while
`RefillWriteCallback` arms its write event with a delay of 0, not of 10 ns. -/
theorem refill_wake_counterexample :
    ((RefillReadCallback exRelay 0).conns 1).read_event = some 10 ∧
    ((RefillWriteCallback exRelay 0).conns 1).write_event = some 0 := by
  decide

/-- C30, amended: `RefillReadCallback (prev)` calls `ScheduleRead` with a delay of 10 ns on
every connection of the relay exactly when `prev ≤ 0` and the read bucket is now positive, and
changes no connection otherwise; `RefillWriteCallback` does the same with `ScheduleWrite` and
the write bucket, with a delay of 0.  Neither touches a circuit, the list of connections, the
circuit map or a bucket.  The refill is idempotent: a connection with a pending event is left
as it is, and a second call after one that woke the connections changes no connection. -/
theorem refill_wake (st : TorApp) (prev : Int) (k : Nat) :
    (RefillReadCallback st prev).conns k =
      (if (prev ≤ 0 ∧ st.m_readbucket.GetSize > 0) ∧ k ∈ st.connections
        then (st.conns k).ScheduleRead 10 else st.conns k) ∧
    (RefillWriteCallback st prev).conns k =
      (if (prev ≤ 0 ∧ st.m_writebucket.GetSize > 0) ∧ k ∈ st.connections
        then (st.conns k).ScheduleWrite 0 else st.conns k) ∧
    (RefillReadCallback st prev).circs = st.circs ∧
    (RefillWriteCallback st prev).circs = st.circs ∧
    sameRelay st (RefillReadCallback st prev) ∧
    sameRelay st (RefillWriteCallback st prev) ∧
    ((st.conns k).read_event ≠ none → (RefillReadCallback st prev).conns k = st.conns k) ∧
    ((st.conns k).write_event ≠ none → (RefillWriteCallback st prev).conns k = st.conns k) ∧
    (prev ≤ 0 ∧ st.m_readbucket.GetSize > 0 → ∀ prev2,
      (RefillReadCallback (RefillReadCallback st prev) prev2).conns k
        = (RefillReadCallback st prev).conns k) ∧
    (prev ≤ 0 ∧ st.m_writebucket.GetSize > 0 → ∀ prev2,
      (RefillWriteCallback (RefillWriteCallback st prev) prev2).conns k
        = (RefillWriteCallback st prev).conns k) := by
  refine ⟨RefillReadCallback_conns st prev k, RefillWriteCallback_conns st prev k, ?_, ?_,
    RefillReadCallback_relay st prev, RefillWriteCallback_relay st prev, ?_, ?_, ?_, ?_⟩
  · unfold RefillReadCallback
    split_ifs
    · exact foldl_modConn_circs _ _ _
    · rfl
  · unfold RefillWriteCallback
    split_ifs
    · exact foldl_modConn_circs _ _ _
    · rfl
  · intro h
    rw [RefillReadCallback_conns]
    split_ifs
    · exact ScheduleRead_pending _ _ h
    · rfl
  · intro h
    rw [RefillWriteCallback_conns]
    split_ifs
    · exact ScheduleWrite_pending _ _ h
    · rfl
  · intro hc prev2
    exact RefillReadCallback_again st prev prev2 k hc
  · intro hc prev2
    exact RefillWriteCallback_again st prev prev2 k hc

/-- Witness for C30: on `exRelay` both buckets are positive; after a first wake-up with a
previous balance of 0 the events of the OR connection are pending, and a second wake-up leaves
the connection as it is. -/
theorem refill_wake_witness :
    ((0 : Int) ≤ 0 ∧ exRelay.m_readbucket.GetSize > 0) ∧
    ((0 : Int) ≤ 0 ∧ exRelay.m_writebucket.GetSize > 0) ∧
    ((RefillReadCallback exRelay 0).conns 1).read_event ≠ none ∧
    (RefillReadCallback (RefillReadCallback exRelay 0) 0).conns 1
      = (RefillReadCallback exRelay 0).conns 1 ∧
    (RefillWriteCallback (RefillWriteCallback exRelay 0) 0).conns 1
      = (RefillWriteCallback exRelay 0).conns 1 ∧
    (RefillReadCallback (RefillReadCallback exRelay 0) (-5)).conns 1
      = (RefillReadCallback exRelay 0).conns 1 :=
  ⟨by decide, by decide, by decide,
   (refill_wake exRelay 0 1).2.2.2.2.2.2.2.2.1 (by decide) 0,
   (refill_wake exRelay 0 1).2.2.2.2.2.2.2.2.2 (by decide) 0,
   (refill_wake (RefillReadCallback exRelay 0) (-5) 1).2.2.2.2.2.2.1 (by decide)⟩

/-- Counterexample to C31: `StopApplication` on the relay `exWoken`, whose connections have a
read event pending.  After the stop, and after a second stop, the read event of connection 0 is
still scheduled. -/
theorem stop_idempotent_counterexample :
    ((StopApplication exWoken).app.conns 0).read_event = some 10 ∧
    ((StopApplication (StopApplication exWoken)).app.conns 0).read_event = some 10 := by
  decide

/-- C31, amended: calling `StopApplication` twice leaves the relay and its sockets in the same
state as calling it once.  The call changes no member of the relay: in particular it cancels
no timer, the read and write events of every connection are as they were.  After the call the
socket of every listed connection is closed and has neither a receive callback nor a data-sent
callback. -/
theorem stop_idempotent (h : Host) :
    StopApplication (StopApplication h) = StopApplication h ∧
    (StopApplication h).app = h.app ∧
    (StopApplication h).listen_socket = h.listen_socket ∧
    (∀ k, ((StopApplication h).app.conns k).read_event = (h.app.conns k).read_event ∧
      ((StopApplication h).app.conns k).write_event = (h.app.conns k).write_event) ∧
    (∀ k s, k ∈ h.app.connections → (h.app.conns k).socket = some s →
      (StopApplication h).sockets s
        = { closed := true, recv_callback := false, data_sent_callback := false }) := by
  refine ⟨?_, rfl, rfl, fun k => ⟨rfl, rfl⟩, ?_⟩
  · have key : (StopApplication (StopApplication h)).sockets = (StopApplication h).sockets := by
      funext s
      rw [StopApplication_sockets (StopApplication h) s]
      show (if h.app.connections.any (fun k => decide ((h.app.conns k).socket = some s)) = true
        then _ else if h.listen_socket = some s then _ else _) = _
      rw [StopApplication_sockets h s]
      split_ifs with h1 h2
      · rfl
      · simp [SocketState.closeListen]
      · rfl
    exact Host_eq _ _ rfl rfl key
  · intro k s hk hs
    rw [StopApplication_sockets]
    have : h.app.connections.any (fun k => decide ((h.app.conns k).socket = some s)) = true := by
      rw [List.any_eq_true]
      exact ⟨k, hk, by simp [hs]⟩
    rw [if_pos this]

/-- Witness for C31: connection 0 of `exWoken` is listed and has the socket 10, which is
closed and without callbacks after the stop. -/
theorem stop_idempotent_witness :
    0 ∈ exWoken.app.connections ∧ (exWoken.app.conns 0).socket = some 10 ∧
    (StopApplication exWoken).sockets 10
      = { closed := true, recv_callback := false, data_sent_callback := false } ∧
    StopApplication (StopApplication exWoken) = StopApplication exWoken :=
  ⟨by decide, by decide, (stop_idempotent exWoken).2.2.2.2 0 10 (by decide) (by decide),
   (stop_idempotent exWoken).1⟩

/-- Counterexample to C32: the calls `exLoop`.  Circuits 0 and 1 are two distinct circuits
attached to connection 2 (the address 11), but circuit 1 has both its ends there and is linked
twice: the walk from the head goes 0, 1, 1, 1, ... and never returns to the head. -/
theorem ring_well_formed_counterexample :
    ∃ res, runConfig exLoop TorApp.new = some res ∧
      att res 2 0 = true ∧ att res 2 1 = true ∧
      ringHead res 2 6 = [0, 1, 1, 1, 1, 1] := by
  decide

/-- C32, amended: ring well-formedness after configuration calls that create distinct circuits,
each between two different remote addresses.  `AddActiveCircuit` on a ring of distinct
circuits returns and keeps the head, putting the new circuit right after it (on an empty ring
the new circuit becomes the head).  After the calls, the ring of every connection `k` consists
of the circuits attached to `k`, each once, the first one added at the head and the later ones
behind it, the latest first; the walk along `GetNextCirc (k)` from the head meets no null link,
visits these circuits in that order and is back at the head after as many steps as there are
circuits; and the ring of `k` is not empty when a circuit is attached to `k`. -/
theorem ring_well_formed :
    (∀ (st : TorApp) (k circ : Nat) (cs : List Nat), ringOn st k cs → cs.Nodup → circ ∉ cs →
      ∃ st', AddActiveCircuit st (some k) (some circ) = some st' ∧
        ringOn st' k (insertAfterHead cs circ)) ∧
    (∀ (ops : List ConfigOp) (st : TorApp), runConfig ops TorApp.new = some st →
      (created ops).Nodup → distinctEnds ops = true → ∀ k,
        ringOn st k (ringOf ops st k) ∧
        (ringOf ops st k).Nodup ∧
        (∀ c, c ∈ ringOf ops st k ↔ c ∈ created ops ∧ att st k c = true) ∧
        (st.conns k).active_circuits = (ringOf ops st k).head? ∧
        (ringOf ops st k ≠ [] →
          ringHead st k ((ringOf ops st k).length + 1)
            = ringOf ops st k ++ [(ringOf ops st k).headD 0]) ∧
        (∀ c ∈ created ops, att st k c = true → (st.conns k).active_circuits ≠ none)) := by
  refine ⟨?_, ?_⟩
  · intro st k circ cs hr hnd hc
    exact ⟨_, AddActiveCircuit_eq st k circ,
      AddActiveCircuit_ringOn st _ k circ cs hr hnd hc (AddActiveCircuit_eq st k circ)⟩
  · intro ops st h hnd hd k
    have hi := runConfig_inv ops TorApp.new st [] configInv_new (by simpa using hnd) hd h
    rw [List.nil_append] at hi
    obtain ⟨_, _, hring⟩ := hi
    have hr : ringOn st k (ringOf ops st k) := hring k
    have hmem : ∀ c, c ∈ ringOf ops st k ↔ c ∈ created ops ∧ att st k c = true := by
      intro c
      unfold ringOf
      rw [mem_ringOrder, List.mem_filter]
    have hhead : (st.conns k).active_circuits = (ringOf ops st k).head? := by
      cases hl : ringOf ops st k with
      | nil => rw [hl] at hr; exact hr
      | cons a t => rw [hl] at hr; exact hr.1
    refine ⟨hr, ringOrder_nodup _ (hnd.filter _), hmem, hhead, ?_, ?_⟩
    · intro hne
      cases hl : ringOf ops st k with
      | nil => exact absurd hl hne
      | cons a t =>
        rw [hl] at hr
        unfold ringHead
        rw [hr.1]
        exact follows_ringFrom st k a t a hr.2
    · intro c hc ha
      have hm := (hmem c).mpr ⟨hc, ha⟩
      rw [hhead]
      cases hl : ringOf ops st k with
      | nil => rw [hl] at hm; exact absurd hm (List.not_mem_nil _)
      | cons a t => simp

/-- Witness for C32: the calls `exThree` attach circuits 0, 1 and 2, in this order, to
connection 2 (the address 11): its ring is 0, 2, 1 and the walk from the head is back at the
head after three steps.  Adding a circuit 7 to a ring `[0]` gives the ring `[0, 7]`. -/
theorem ring_well_formed_witness :
    (created exThree).Nodup ∧ distinctEnds exThree = true ∧
    (∃ st, runConfig exThree TorApp.new = some st ∧
      ringOf exThree st 2 = [0, 2, 1] ∧
      ringHead st 2 4 = [0, 2, 1, 0] ∧
      (st.conns 2).active_circuits ≠ none) ∧
    ringOn exRelay 1 [0] ∧
    (∃ st', AddActiveCircuit exRelay (some 1) (some 7) = some st' ∧ ringOn st' 1 [0, 7]) := by
  refine ⟨by decide, by decide, ?_, ?_, ?_⟩
  · cases h : runConfig exThree TorApp.new with
    | none =>
      have h3 : (runConfig exThree TorApp.new).isSome = true := by decide
      rw [h] at h3
      exact absurd h3 (by decide)
    | some st =>
      have hl : (runConfig exThree TorApp.new).map (fun s => ringOf exThree s 2)
          = some [0, 2, 1] := by decide
      rw [h] at hl
      simp only [Option.map_some', Option.some.injEq] at hl
      obtain ⟨_, _, _, _, hwalk, hne⟩ :=
        ring_well_formed.2 exThree st h (by decide) (by decide) 2
      rw [hl] at hwalk
      refine ⟨st, rfl, hl, hwalk (by simp), hne 0 (by decide) ?_⟩
      have ha : (runConfig exThree TorApp.new).map (fun s => att s 2 0) = some true := by decide
      rw [h] at ha
      simpa using ha
  · exact ⟨by decide, by decide, trivial⟩
  · exact ring_well_formed.1 exRelay 1 7 [0] ⟨by decide, by decide, trivial⟩ (by decide)
      (by decide)

/-- C33: the deliver window of a circuit created with `deliver_window = 1000`, in any state
reached by `PushCell` and `PopCell` calls, after one more `PopCell` on the circuit: it lies
between 901 and 1000; it is exactly 1000 when the pop emits a SENDME (the queue of the opposite
direction has changed); it is unchanged when the queue popped is empty or leads to a connection
that is not an edge connection. -/
theorem deliver_window_range (st0 st : TorApp) (ops : List CircOp) (c : Nat)
    (d : CellDirection)
    (hd0 : (st0.circs c).deliver_window = CIRCWINDOW_START)
    (hrun : runOps ops st0 = some st) :
    901 ≤ ((PopCell st c d).2.circs c).deliver_window ∧
    ((PopCell st c d).2.circs c).deliver_window ≤ 1000 ∧
    (((PopCell st c d).2.circs c).GetQueue (GetOppositeDirection d)
        ≠ (st.circs c).GetQueue (GetOppositeDirection d) →
      ((PopCell st c d).2.circs c).deliver_window = 1000) ∧
    ((st.circs c).GetQueue d = [] →
      ((PopCell st c d).2.circs c).deliver_window = (st.circs c).deliver_window) ∧
    ((st.conns ((st.circs c).GetConnection d)).conn_type ≠ EDGE_CONN →
      ((PopCell st c d).2.circs c).deliver_window = (st.circs c).deliver_window) := by
  have hr0 : 901 ≤ (st0.circs c).deliver_window ∧ (st0.circs c).deliver_window ≤ 1000 := by
    rw [hd0]; decide
  have hr := runOps_deliver_range c ops st0 st hrun hr0
  have hr1 := runOp_deliver_range c st (PopCell st c d).2 (.pop c d) rfl hr
  have hnil : (st.circs c).GetQueue d = [] →
      ((PopCell st c d).2.circs c).deliver_window = (st.circs c).deliver_window := by
    intro hq
    rw [(PopCell_nil st c d hq).2]
  refine ⟨hr1.1, hr1.2, ?_, hnil, ?_⟩
  · intro hne
    cases hq : (st.circs c).GetQueue d with
    | nil =>
      rw [(PopCell_nil st c d hq).2] at hne
      exact absurd rfl hne
    | cons cell rest =>
      obtain ⟨_, h1, h2, h3⟩ := PopCell_deliver st c d cell rest hq
      by_cases he : (st.conns ((st.circs c).GetConnection d)).conn_type = EDGE_CONN
      · by_cases hle : (st.circs c).deliver_window - 1 ≤ 900
        · rw [(h1 he hle).1]
          have := hr.1
          omega
        · exact absurd (h2 he hle).2 hne
      · exact absurd (h3 he).2 hne
  · intro he
    cases hq : (st.circs c).GetQueue d with
    | nil => exact hnil hq
    | cons cell rest => exact ((PopCell_deliver st c d cell rest hq).2.2.2 he).1

set_option maxRecDepth 1000000 in
/-- Witness for C33: the hundredth delivery on the circuit of `exDeliver`.  After 99 pops
toward the edge connection the window stands at 901; the next pop emits a SENDME and the
window is back at 1000.  A pop of the empty queue toward the OR connection leaves it at
901. -/
theorem deliver_window_range_witness :
    (exDeliver.circs 0).deliver_window = CIRCWINDOW_START ∧
    runOps exDeliverOps exDeliver = some exDelivered ∧
    (exDelivered.circs 0).deliver_window = 901 ∧
    ((PopCell exDelivered 0 INBOUND).2.circs 0).GetQueue (GetOppositeDirection INBOUND)
      ≠ (exDelivered.circs 0).GetQueue (GetOppositeDirection INBOUND) ∧
    ((PopCell exDelivered 0 INBOUND).2.circs 0).deliver_window = 1000 ∧
    (exDelivered.circs 0).GetQueue OUTBOUND = [] ∧
    ((PopCell exDelivered 0 OUTBOUND).2.circs 0).deliver_window
      = (exDelivered.circs 0).deliver_window :=
  ⟨rfl, rfl, by decide, by decide,
   (deliver_window_range exDeliver exDelivered exDeliverOps 0 INBOUND rfl rfl).2.2.1
     (by decide),
   by decide,
   (deliver_window_range exDeliver exDelivered exDeliverOps 0 OUTBOUND rfl rfl).2.2.2.1
     (by decide)⟩

set_option maxRecDepth 1000000 in
/-- Counterexample to C35: the edge connection of `exBacklog` (base 498) has three payloads of
498 bytes queued toward it.  A first `Write (996)` stages two of them; the socket accepts 484
bytes, so 512 bytes stay in `outbuf`, and the cell still queued is 498 bytes long.  In the next
`Write`, with `max_write = 10`, the loop does not run and the staged byte count at its exit is
512, which is not less than 10 + 498. -/
theorem staging_bound_counterexample :
    cellsOfSize exBacklog 0 (cellBase (exBacklog.conns 0)) ∧
    ∃ res, Write 10 exSlowSend exBacklog 0 996 = some res ∧
      (res.2.1.conns 0).outbuf.length = 512 ∧
      cellBase (res.2.1.conns 0) = 498 ∧
      cellsOfSize res.2.1 0 (cellBase (res.2.1.conns 0)) ∧
      ∃ fill, WriteFill 0 10 0 10 res.2.1 (res.2.1.conns 0).outbuf false [] = some fill ∧
        fill.2.1.length = 512 ∧
        ¬ fill.2.1.length < 10 + cellBase (res.2.1.conns 0) := by
  have core : ∃ res, Write 10 exSlowSend exBacklog 0 996 = some res ∧
      (res.2.1.conns 0).outbuf.length = 512 ∧
      cellBase (res.2.1.conns 0) = 498 ∧
      ∃ fill, WriteFill 0 10 0 10 res.2.1 (res.2.1.conns 0).outbuf false [] = some fill ∧
        fill.2.1.length = 512 ∧
        ¬ fill.2.1.length < 10 + cellBase (res.2.1.conns 0) := by
    decide
  obtain ⟨res, h, p1, p2, p3⟩ := core
  refine ⟨exBacklog_cells, res, h, p1, p2, ?_, p3⟩
  rw [p2]
  have hb : cellBase (exBacklog.conns 0) = 498 := by decide
  exact Write_cells 10 exSlowSend exBacklog 0 996 498 res (hb ▸ exBacklog_cells) h

/-- C35, amended: the fill loop of `Connection::Write` on connection `k`, started as `Write`
starts it, when every cell queued toward `k` is `base` bytes long.  The staged bytes are the
bytes of `outbuf` followed by the cells popped, so their number only grows; at loop exit it is
at most the capacity `outbuf.size + (max_write / base + 1) * base` of the staging buffer, and it
is less than `max_write + base` if `outbuf.size` is (with `max_write` bytes or more in `outbuf`
the loop does not run and the staged bytes are those of `outbuf`). -/
theorem staging_bound (fuel : Nat) (st : TorApp) (k max_write start_circ : Nat)
    (res : TorApp × List Nat × List (Nat × Option Packet))
    (hq : cellsOfSize st k (cellBase (st.conns k)))
    (h : WriteFill k max_write start_circ fuel st (st.conns k).outbuf false [] = some res) :
    res.2.1 = (st.conns k).outbuf ++ poppedBytes res.2.2 ∧
    res.2.1.length ≤ (st.conns k).outbuf.length
      + (max_write / cellBase (st.conns k) + 1) * cellBase (st.conns k) ∧
    ((st.conns k).outbuf.length < max_write + cellBase (st.conns k) →
      res.2.1.length < max_write + cellBase (st.conns k)) ∧
    (max_write ≤ (st.conns k).outbuf.length → res.2.1 = (st.conns k).outbuf) := by
  obtain ⟨hsame, n, hn, hlast⟩ :=
    WriteFill_staged k max_write start_circ (cellBase (st.conns k)) fuel st _ _ _ res hq h
  obtain ⟨more, hv, hb⟩ := WriteFill_bytes k max_write start_circ fuel st _ _ _ res h
  have hpos := cellBase_pos (st.conns k)
  refine ⟨?_, ?_, ?_, hsame⟩
  · rw [hb, hv, List.nil_append]
  · rw [hn]
    apply Nat.add_le_add_left
    apply Nat.mul_le_mul_right
    rcases hlast with h0 | h1
    · subst h0; exact Nat.zero_le _
    · have hm : (n - 1) * cellBase (st.conns k) ≤ max_write := by omega
      have hd := (Nat.le_div_iff_mul_le hpos).mpr hm
      generalize max_write / cellBase (st.conns k) = q at hd ⊢
      omega
  · intro hlt
    rw [hn]
    rcases hlast with h0 | h1
    · subst h0; simpa using hlt
    · rcases Nat.eq_zero_or_pos n with h0 | h0
      · subst h0; simpa using hlt
      · have e : n * cellBase (st.conns k)
            = (n - 1) * cellBase (st.conns k) + cellBase (st.conns k) := by
          have e2 : n = (n - 1) + 1 := by omega
          nth_rewrite 1 [e2]
          rw [Nat.add_mul, Nat.one_mul]
        omega

set_option maxRecDepth 1000000 in
/-- Witness for C35: the fill loop of `Write (996)` on the edge connection of `exBacklog`
stages two of the three payloads, 996 bytes, within the capacity of 0 + (2 + 1) * 498 bytes. -/
theorem staging_bound_witness :
    cellsOfSize exBacklog 0 (cellBase (exBacklog.conns 0)) ∧
    ∃ res, WriteFill 0 996 0 10 exBacklog (exBacklog.conns 0).outbuf false [] = some res ∧
      res.2.1.length = 996 ∧
      res.2.1.length ≤ (exBacklog.conns 0).outbuf.length
        + (996 / cellBase (exBacklog.conns 0) + 1) * cellBase (exBacklog.conns 0) ∧
      res.2.1.length < 996 + cellBase (exBacklog.conns 0) := by
  refine ⟨exBacklog_cells, ?_⟩
  cases h : WriteFill 0 996 0 10 exBacklog (exBacklog.conns 0).outbuf false [] with
  | none =>
    have h3 : (WriteFill 0 996 0 10 exBacklog (exBacklog.conns 0).outbuf false []).isSome
        = true := by decide
    rw [h] at h3
    exact absurd h3 (by decide)
  | some res =>
    have hl : (WriteFill 0 996 0 10 exBacklog (exBacklog.conns 0).outbuf false []).map
        (fun r => r.2.1.length) = some 996 := by decide
    rw [h] at hl
    simp only [Option.map_some', Option.some.injEq] at hl
    have hb := staging_bound 10 exBacklog 0 996 0 res exBacklog_cells h
    exact ⟨res, rfl, hl, hb.2.1, hb.2.2.1 (by decide)⟩

end Tor
